import Mathlib

/-!
# massCode sync server: the push / pull handlers over the entity store

A shallow embedding of `sync-server/internal/handler/sync.go` together with the
record types of `internal/model/models.go` and the request / response types of
`internal/handler/types.go`.

* A table is the list of its rows, in insertion order.
* The handlers talk to MySQL through an ORM.  Every call is embedded as the SQL
  statement it issues (`First` is a `SELECT .. WHERE id = ? LIMIT 1`,
  `Model(&existing).Updates(m)` is an `UPDATE .. WHERE id = existing.ID`,
  `Delete(&T{}, cond)` is a `DELETE .. WHERE cond`, `Create` is an `INSERT`), checked
  against the keys the model declares: the primary keys, the unique index on
  `tags.name` and the unique index `uk_table_record` on `sync_deletions.record_id`.
  Identities are compared exactly and are taken to be non-empty (the ORM reads an empty
  primary key as an absent one); tag names are compared under the collation of the
  column, which the source leaves open and `Env` carries; column widths and SQL modes
  are outside the model.
* `uuid.New().String()` and `time.Now()` are read from an environment `Env`; the
  server state counts how many values have been drawn from each.
* Go `int` and `int64` values are integers; no arithmetic is done on them by the
  handlers, only comparisons.
-/

namespace MassCode

/-! ## Records (internal/model/models.go) -/

/-- Row of table `folders` (`model.Folder`), primary key `ID`. -/
structure Folder where
  ID : String
  Name : String
  DefaultLanguage : String
  ParentID : Option String
  IsOpen : Int
  OrderIndex : Int
  Icon : Option String
  CreatedAt : Int
  UpdatedAt : Int
  deriving DecidableEq, Repr

/-- Row of table `snippets` (`model.Snippet`), primary key `ID`. -/
structure Snippet where
  ID : String
  Name : String
  Description : Option String
  FolderID : Option String
  IsDeleted : Int
  IsFavorites : Int
  CreatedAt : Int
  UpdatedAt : Int
  deriving DecidableEq, Repr

/-- Row of table `snippet_contents` (`model.SnippetContent`), primary key `ID`. -/
structure SnippetContent where
  ID : String
  SnippetID : String
  Label : Option String
  Value : Option String
  Language : Option String
  CreatedAt : Int
  UpdatedAt : Int
  deriving DecidableEq, Repr

/-- Row of table `tags` (`model.Tag`), primary key `ID`, unique index on `Name`. -/
structure Tag where
  ID : String
  Name : String
  CreatedAt : Int
  UpdatedAt : Int
  deriving DecidableEq, Repr

/-- Row of table `snippet_tags` (`model.SnippetTag`), primary key `(SnippetID, TagID)`. -/
structure SnippetTag where
  SnippetID : String
  TagID : String
  CreatedAt : Int
  deriving DecidableEq, Repr

/-- Row of table `sync_deletions` (`model.SyncDeletion`): primary key `ID`; the unique
index `uk_table_record` is declared on the field `RecordID` only. -/
structure SyncDeletion where
  ID : String
  EntityTable : String
  RecordID : String
  DeletedAt : Int
  deriving DecidableEq, Repr

/-- The database behind `database.GetDB()`: the six migrated tables. -/
structure DB where
  folders : List Folder
  snippets : List Snippet
  snippet_contents : List SnippetContent
  tags : List Tag
  snippet_tags : List SnippetTag
  sync_deletions : List SyncDeletion
  deriving DecidableEq, Repr

/-! ## Request and response types (internal/handler/types.go) -/

/-- A finite `float64`, the value `mant * 2 ^ exp`. -/
structure Float64 where
  mant : Int
  exp : Int
  deriving DecidableEq, Repr

/-- Go conversion `int64(f)` of a `float64` (and `int(f)` on a 64-bit target): the
fraction is discarded; outside the `int64` range the result is implementation
dependent and the value produced on amd64 is taken. -/
def Float64.toInt64 (f : Float64) : Int :=
  let t : Int :=
    if 0 ≤ f.exp then f.mant * ((2 ^ f.exp.toNat : Nat) : Int)
    else Int.tdiv f.mant ((2 ^ (-f.exp).toNat : Nat) : Int)
  if -9223372036854775808 ≤ t ∧ t < 9223372036854775808 then t else -9223372036854775808

/-- The dynamic values an `interface{}` of an item's `Data` map can hold, by the
dynamic types the helper functions distinguish.  JSON decoding yields `nil`, `bool`,
`float64`, `string` and (as `other`) arrays and objects. -/
inductive Value where
  | nil
  | bool (b : Bool)
  | float64 (f : Float64)
  | int (n : Int)
  | int64 (n : Int)
  | string (s : String)
  | other
  deriving DecidableEq, Repr

/-- The type `map[string]interface{}`: `none` for a key that is not in the map. -/
abbrev Data := String → Option Value

/-- The types `PushFolderChangeItem`, `PushSnippetChangeItem`,
`PushSnippetContentChangeItem` and `PushTagChangeItem` have the same four fields. -/
structure PushChangeItem where
  ServerID : Option String
  LocalID : Int
  Data : Data
  IsNew : Bool

abbrev PushFolderChangeItem := PushChangeItem
abbrev PushSnippetChangeItem := PushChangeItem
abbrev PushSnippetContentChangeItem := PushChangeItem
abbrev PushTagChangeItem := PushChangeItem

structure PushSnippetTagItem where
  SnippetServerID : String
  TagServerID : String
  IsNew : Bool
  CreatedAt : Int
  deriving DecidableEq, Repr

structure SyncDeletionData where
  TableName : String
  RecordID : String
  DeletedAt : Int
  deriving DecidableEq, Repr

/-- The field `Changes` of a `PushRequest`. -/
structure PushChanges where
  Folders : List PushFolderChangeItem := []
  Snippets : List PushSnippetChangeItem := []
  SnippetContents : List PushSnippetContentChangeItem := []
  Tags : List PushTagChangeItem := []
  SnippetTags : List PushSnippetTagItem := []

structure PushRequest where
  Changes : PushChanges := {}
  Deletions : List SyncDeletionData := []

structure IDMapping where
  TableName : String
  LocalID : Int
  ServerID : String
  deriving DecidableEq, Repr

structure PushResponse where
  ServerTime : Int
  IDMappings : List IDMapping
  deriving DecidableEq, Repr

structure SyncFolderData where
  ID : String
  Name : String
  DefaultLanguage : String
  ParentID : Option String
  IsOpen : Int
  OrderIndex : Int
  Icon : Option String
  CreatedAt : Int
  UpdatedAt : Int
  deriving DecidableEq, Repr

structure SyncSnippetData where
  ID : String
  Name : String
  Description : Option String
  FolderID : Option String
  IsDeleted : Int
  IsFavorites : Int
  CreatedAt : Int
  UpdatedAt : Int
  deriving DecidableEq, Repr

structure SyncSnippetContentData where
  ID : String
  SnippetID : String
  Label : Option String
  Value : Option String
  Language : Option String
  CreatedAt : Int
  UpdatedAt : Int
  deriving DecidableEq, Repr

structure SyncTagData where
  ID : String
  Name : String
  CreatedAt : Int
  UpdatedAt : Int
  deriving DecidableEq, Repr

structure SyncSnippetTagData where
  SnippetID : String
  TagID : String
  CreatedAt : Int
  deriving DecidableEq, Repr

structure PullRequest where
  LastSyncAt : Int
  deriving DecidableEq, Repr

/-- The field `Changes` of a `PullResponse`. -/
structure PullChanges where
  Folders : List SyncFolderData
  Snippets : List SyncSnippetData
  SnippetContents : List SyncSnippetContentData
  Tags : List SyncTagData
  SnippetTags : List SyncSnippetTagData
  deriving DecidableEq, Repr

structure PullResponse where
  ServerTime : Int
  Changes : PullChanges
  Deletions : List SyncDeletionData
  deriving DecidableEq, Repr

/-! ## Helper functions (sync.go, bottom of the file) -/

def getString (data : Data) (key : String) : String :=
  match data key with
  | some (Value.string s) => s
  | _ => ""

def getStringPtr (data : Data) (key : String) : Option String :=
  match data key with
  | some (Value.string s) => some s
  | _ => none

def getInt (data : Data) (key : String) : Int :=
  match data key with
  | some (Value.float64 n) => n.toInt64
  | some (Value.int n) => n
  | some (Value.int64 n) => n
  | _ => 0

def getInt64 (data : Data) (key : String) : Int :=
  match data key with
  | some (Value.float64 n) => n.toInt64
  | some (Value.int n) => n
  | some (Value.int64 n) => n
  | _ => 0

/-! ## The environment and the server state -/

/-- What the handlers read from outside: the `k`-th string returned by
`uuid.New().String()`, the `k`-th reading of the clock, in milliseconds, and the
collation of column `tags.name`: `sameName a b` tells whether the store takes the names
`a` and `b` for equal when it checks the unique index.  The source does not pin the
collation (the DSN of `database.go` sets the character set only), so it is left open
here. -/
structure Env where
  uuid : Nat → String
  now : Nat → Int
  sameName : String → String → Bool

/-- The server between two requests: the committed database and the number of
identities and of clock readings drawn so far. -/
structure Server where
  db : DB
  uuids : Nat
  ticks : Nat
  deriving DecidableEq, Repr

/-- The state inside the transaction of one push. -/
structure Tx where
  db : DB
  uuids : Nat
  ticks : Nat
  idMappings : List IDMapping
  deriving DecidableEq, Repr

/-! ## The statements sent to the store -/

/-- The ORM fills a zero `CreatedAt` / `UpdatedAt` of a record passed to `Create` with
the current Unix time in seconds (its convention for integer fields of these names). -/
def autoTime (nowMilli : Int) (v : Int) : Int :=
  if v = 0 then nowMilli / 1000 else v

/-- The statement `tx.Create(&folder)`: `none` is the duplicate-key error. -/
def DB.createFolder (db : DB) (nowMilli : Int) (r : Folder) : Option DB :=
  if db.folders.any (fun x => x.ID == r.ID) then none
  else some { db with folders := db.folders ++
    [{ r with CreatedAt := autoTime nowMilli r.CreatedAt,
              UpdatedAt := autoTime nowMilli r.UpdatedAt }] }

/-- The statement `tx.Create(&tag)`: `none` is the duplicate-key error, on the primary
key or on the unique index on `name`, whose names are compared by `sameName`. -/
def DB.createTag (db : DB) (sameName : String → String → Bool) (nowMilli : Int) (r : Tag) :
    Option DB :=
  if db.tags.any (fun x => x.ID == r.ID || sameName x.Name r.Name) then none
  else some { db with tags := db.tags ++
    [{ r with CreatedAt := autoTime nowMilli r.CreatedAt,
              UpdatedAt := autoTime nowMilli r.UpdatedAt }] }

/-- The statement `tx.Create(&snippet)`. -/
def DB.createSnippet (db : DB) (nowMilli : Int) (r : Snippet) : Option DB :=
  if db.snippets.any (fun x => x.ID == r.ID) then none
  else some { db with snippets := db.snippets ++
    [{ r with CreatedAt := autoTime nowMilli r.CreatedAt,
              UpdatedAt := autoTime nowMilli r.UpdatedAt }] }

/-- The statement `tx.Create(&content)`. -/
def DB.createSnippetContent (db : DB) (nowMilli : Int) (r : SnippetContent) : Option DB :=
  if db.snippet_contents.any (fun x => x.ID == r.ID) then none
  else some { db with snippet_contents := db.snippet_contents ++
    [{ r with CreatedAt := autoTime nowMilli r.CreatedAt,
              UpdatedAt := autoTime nowMilli r.UpdatedAt }] }

/-- The statement `tx.Model(&existing).Updates(updates)` on `folders`: the listed
columns of the rows with `id = existing.ID` are set. -/
def DB.updateFolder (db : DB) (id : String) (set : Folder → Folder) : DB :=
  { db with folders := db.folders.map (fun x => if x.ID == id then set x else x) }

/-- The statement `tx.Model(&existing).Updates(updates)` on `snippets`. -/
def DB.updateSnippet (db : DB) (id : String) (set : Snippet → Snippet) : DB :=
  { db with snippets := db.snippets.map (fun x => if x.ID == id then set x else x) }

/-- The statement `tx.Model(&existing).Updates(updates)` on `snippet_contents`. -/
def DB.updateSnippetContent (db : DB) (id : String) (set : SnippetContent → SnippetContent) :
    DB :=
  { db with snippet_contents :=
      db.snippet_contents.map (fun x => if x.ID == id then set x else x) }

/-- The statement `tx.Model(&existing).Updates(updates)` on `tags`, which sets `name`
and `updated_at`: `none` is the duplicate-key error raised when another row already
carries a name that `sameName` takes for the new name. -/
def DB.updateTag (db : DB) (sameName : String → String → Bool) (id : String)
    (name : String) (updatedAt : Int) : Option DB :=
  if db.tags.any (fun x => x.ID != id && sameName x.Name name) then none
  else some { db with tags := db.tags.map (fun x =>
    if x.ID == id then { x with Name := name, UpdatedAt := updatedAt } else x) }

/-- The statement `INSERT IGNORE INTO snippet_tags ..`: nothing is written when the
primary key `(snippet_id, tag_id)` is already there. -/
def DB.insertIgnoreSnippetTag (db : DB) (st : SnippetTag) : DB :=
  if db.snippet_tags.any (fun x => x.SnippetID == st.SnippetID && x.TagID == st.TagID) then db
  else { db with snippet_tags := db.snippet_tags ++ [st] }

/-- The statement `INSERT IGNORE INTO sync_deletions ..`: nothing is written when the
primary key `id` or the uniquely indexed `record_id` is already there. -/
def DB.insertIgnoreSyncDeletion (db : DB) (d : SyncDeletion) : DB :=
  if db.sync_deletions.any (fun x => x.ID == d.ID || x.RecordID == d.RecordID) then db
  else { db with sync_deletions := db.sync_deletions ++ [d] }

/-! ## Push (sync.go) -/

/-- One round of the loop `for _, item := range req.Changes.Folders`.  `Except.error`
is the early return after `tx.Create` failed; it carries the state reached. -/
def pushFolder (env : Env) (tx : Tx) (item : PushFolderChangeItem) : Except Tx Tx :=
  if item.IsNew then
    let serverID := env.uuid tx.uuids
    let folder : Folder :=
      { ID := serverID
        Name := getString item.Data "name"
        DefaultLanguage := getString item.Data "defaultLanguage"
        ParentID := getStringPtr item.Data "parentId"
        IsOpen := getInt item.Data "isOpen"
        OrderIndex := getInt item.Data "orderIndex"
        Icon := getStringPtr item.Data "icon"
        CreatedAt := getInt64 item.Data "createdAt"
        UpdatedAt := getInt64 item.Data "updatedAt" }
    match tx.db.createFolder (env.now tx.ticks) folder with
    | none => Except.error { tx with uuids := tx.uuids + 1, ticks := tx.ticks + 1 }
    | some db =>
      Except.ok
        { db := db, uuids := tx.uuids + 1, ticks := tx.ticks + 1
          idMappings := tx.idMappings ++
            [{ TableName := "folders", LocalID := item.LocalID, ServerID := serverID }] }
  else
    match item.ServerID with
    | none => Except.ok tx
    | some serverID =>
      -- Update existing - Last Write Wins
      match tx.db.folders.find? (fun x => x.ID == serverID) with
      | none => Except.ok tx
      | some existing =>
        let incomingUpdatedAt := getInt64 item.Data "updatedAt"
        if incomingUpdatedAt > existing.UpdatedAt then
          Except.ok { tx with db := tx.db.updateFolder existing.ID (fun x =>
            { x with
              Name := getString item.Data "name"
              DefaultLanguage := getString item.Data "defaultLanguage"
              ParentID := getStringPtr item.Data "parentId"
              IsOpen := getInt item.Data "isOpen"
              OrderIndex := getInt item.Data "orderIndex"
              Icon := getStringPtr item.Data "icon"
              UpdatedAt := incomingUpdatedAt }) }
        else Except.ok tx

/-- One round of the loop `for _, item := range req.Changes.Tags`.  The result of
`Updates` is not looked at: when the store refuses the statement the loop goes on with
the database as it was. -/
def pushTag (env : Env) (tx : Tx) (item : PushTagChangeItem) : Except Tx Tx :=
  if item.IsNew then
    let serverID := env.uuid tx.uuids
    let tag : Tag :=
      { ID := serverID
        Name := getString item.Data "name"
        CreatedAt := getInt64 item.Data "createdAt"
        UpdatedAt := getInt64 item.Data "updatedAt" }
    match tx.db.createTag env.sameName (env.now tx.ticks) tag with
    | none => Except.error { tx with uuids := tx.uuids + 1, ticks := tx.ticks + 1 }
    | some db =>
      Except.ok
        { db := db, uuids := tx.uuids + 1, ticks := tx.ticks + 1
          idMappings := tx.idMappings ++
            [{ TableName := "tags", LocalID := item.LocalID, ServerID := serverID }] }
  else
    match item.ServerID with
    | none => Except.ok tx
    | some serverID =>
      match tx.db.tags.find? (fun x => x.ID == serverID) with
      | none => Except.ok tx
      | some existing =>
        let incomingUpdatedAt := getInt64 item.Data "updatedAt"
        if incomingUpdatedAt > existing.UpdatedAt then
          match tx.db.updateTag env.sameName existing.ID (getString item.Data "name")
              incomingUpdatedAt with
          | some db => Except.ok { tx with db := db }
          | none => Except.ok tx
        else Except.ok tx

/-- One round of the loop `for _, item := range req.Changes.Snippets`. -/
def pushSnippet (env : Env) (tx : Tx) (item : PushSnippetChangeItem) : Except Tx Tx :=
  if item.IsNew then
    let serverID := env.uuid tx.uuids
    let snippet : Snippet :=
      { ID := serverID
        Name := getString item.Data "name"
        Description := getStringPtr item.Data "description"
        FolderID := getStringPtr item.Data "folderId"
        IsDeleted := getInt item.Data "isDeleted"
        IsFavorites := getInt item.Data "isFavorites"
        CreatedAt := getInt64 item.Data "createdAt"
        UpdatedAt := getInt64 item.Data "updatedAt" }
    match tx.db.createSnippet (env.now tx.ticks) snippet with
    | none => Except.error { tx with uuids := tx.uuids + 1, ticks := tx.ticks + 1 }
    | some db =>
      Except.ok
        { db := db, uuids := tx.uuids + 1, ticks := tx.ticks + 1
          idMappings := tx.idMappings ++
            [{ TableName := "snippets", LocalID := item.LocalID, ServerID := serverID }] }
  else
    match item.ServerID with
    | none => Except.ok tx
    | some serverID =>
      match tx.db.snippets.find? (fun x => x.ID == serverID) with
      | none => Except.ok tx
      | some existing =>
        let incomingUpdatedAt := getInt64 item.Data "updatedAt"
        if incomingUpdatedAt > existing.UpdatedAt then
          Except.ok { tx with db := tx.db.updateSnippet existing.ID (fun x =>
            { x with
              Name := getString item.Data "name"
              Description := getStringPtr item.Data "description"
              FolderID := getStringPtr item.Data "folderId"
              IsDeleted := getInt item.Data "isDeleted"
              IsFavorites := getInt item.Data "isFavorites"
              UpdatedAt := incomingUpdatedAt }) }
        else Except.ok tx

/-- One round of the loop `for _, item := range req.Changes.SnippetContents`. -/
def pushSnippetContent (env : Env) (tx : Tx) (item : PushSnippetContentChangeItem) :
    Except Tx Tx :=
  if item.IsNew then
    let serverID := env.uuid tx.uuids
    let content : SnippetContent :=
      { ID := serverID
        SnippetID := getString item.Data "snippetId"
        Label := getStringPtr item.Data "label"
        Value := getStringPtr item.Data "value"
        Language := getStringPtr item.Data "language"
        CreatedAt := getInt64 item.Data "createdAt"
        UpdatedAt := getInt64 item.Data "updatedAt" }
    match tx.db.createSnippetContent (env.now tx.ticks) content with
    | none => Except.error { tx with uuids := tx.uuids + 1, ticks := tx.ticks + 1 }
    | some db =>
      Except.ok
        { db := db, uuids := tx.uuids + 1, ticks := tx.ticks + 1
          idMappings := tx.idMappings ++
            [{ TableName := "snippet_contents", LocalID := item.LocalID, ServerID := serverID }] }
  else
    match item.ServerID with
    | none => Except.ok tx
    | some serverID =>
      match tx.db.snippet_contents.find? (fun x => x.ID == serverID) with
      | none => Except.ok tx
      | some existing =>
        let incomingUpdatedAt := getInt64 item.Data "updatedAt"
        if incomingUpdatedAt > existing.UpdatedAt then
          Except.ok { tx with db := tx.db.updateSnippetContent existing.ID (fun x =>
            { x with
              SnippetID := getString item.Data "snippetId"
              Label := getStringPtr item.Data "label"
              Value := getStringPtr item.Data "value"
              Language := getStringPtr item.Data "language"
              UpdatedAt := incomingUpdatedAt }) }
        else Except.ok tx

/-- One round of the loop `for _, item := range req.Changes.SnippetTags`. -/
def pushSnippetTag (tx : Tx) (item : PushSnippetTagItem) : Tx :=
  if item.IsNew then
    let st : SnippetTag :=
      { SnippetID := item.SnippetServerID, TagID := item.TagServerID
        CreatedAt := item.CreatedAt }
    { tx with db := tx.db.insertIgnoreSnippetTag st }
  else tx

/-- The `switch del.TableName` of the deletion loop: the `DELETE` statements of the
matching case, none for any other table name. -/
def deleteRecord (db : DB) (del : SyncDeletionData) : DB :=
  if del.TableName = "folders" then
    { db with folders := db.folders.filter (fun x => x.ID != del.RecordID) }
  else if del.TableName = "tags" then
    { db with
      snippet_tags := db.snippet_tags.filter (fun x => x.TagID != del.RecordID)
      tags := db.tags.filter (fun x => x.ID != del.RecordID) }
  else if del.TableName = "snippet_contents" then
    { db with snippet_contents := db.snippet_contents.filter (fun x => x.ID != del.RecordID) }
  else if del.TableName = "snippets" then
    { db with
      snippet_tags := db.snippet_tags.filter (fun x => x.SnippetID != del.RecordID)
      snippet_contents := db.snippet_contents.filter (fun x => x.SnippetID != del.RecordID)
      snippets := db.snippets.filter (fun x => x.ID != del.RecordID) }
  else db

/-- One round of the loop `for _, del := range req.Deletions`. -/
def pushDeletion (env : Env) (tx : Tx) (del : SyncDeletionData) : Tx :=
  -- Record deletion for other clients
  let syncDel : SyncDeletion :=
    { ID := env.uuid tx.uuids
      EntityTable := del.TableName
      RecordID := del.RecordID
      DeletedAt := del.DeletedAt }
  { tx with
    db := (deleteRecord tx.db del).insertIgnoreSyncDeletion syncDel
    uuids := tx.uuids + 1 }

/-- The body of the transaction of `Push`: the six loops, in the order of the source. -/
def pushItems (env : Env) (req : PushRequest) (tx : Tx) : Except Tx Tx := do
  let tx ← req.Changes.Folders.foldlM (pushFolder env) tx
  let tx ← req.Changes.Tags.foldlM (pushTag env) tx
  let tx ← req.Changes.Snippets.foldlM (pushSnippet env) tx
  let tx ← req.Changes.SnippetContents.foldlM (pushSnippetContent env) tx
  let tx := req.Changes.SnippetTags.foldl pushSnippetTag tx
  let tx := req.Deletions.foldl (pushDeletion env) tx
  pure tx

/-- What `Push` answers for a request body that did bind to a `PushRequest`. -/
inductive PushReply where
  | OK (resp : PushResponse)
  | InternalServerError
  deriving DecidableEq, Repr

/-- The handler `Push` on a bound request: the transaction is committed and the identity
mappings are returned, or the transaction is rolled back after a failed `Create`. -/
def Push (env : Env) (s : Server) (req : PushRequest) : Server × PushReply :=
  match pushItems env req { db := s.db, uuids := s.uuids, ticks := s.ticks, idMappings := [] } with
  | Except.error tx =>
    ({ db := s.db, uuids := tx.uuids, ticks := tx.ticks }, PushReply.InternalServerError)
  | Except.ok tx =>
    ({ db := tx.db, uuids := tx.uuids, ticks := tx.ticks + 1 },
      PushReply.OK { ServerTime := env.now tx.ticks, IDMappings := tx.idMappings })

/-! ## Pull and Full (sync.go) -/

def toSyncFolderData (f : Folder) : SyncFolderData :=
  { ID := f.ID, Name := f.Name, DefaultLanguage := f.DefaultLanguage, ParentID := f.ParentID
    IsOpen := f.IsOpen, OrderIndex := f.OrderIndex, Icon := f.Icon
    CreatedAt := f.CreatedAt, UpdatedAt := f.UpdatedAt }

def toSyncTagData (t : Tag) : SyncTagData :=
  { ID := t.ID, Name := t.Name, CreatedAt := t.CreatedAt, UpdatedAt := t.UpdatedAt }

def toSyncSnippetData (s : Snippet) : SyncSnippetData :=
  { ID := s.ID, Name := s.Name, Description := s.Description, FolderID := s.FolderID
    IsDeleted := s.IsDeleted, IsFavorites := s.IsFavorites
    CreatedAt := s.CreatedAt, UpdatedAt := s.UpdatedAt }

def toSyncSnippetContentData (c : SnippetContent) : SyncSnippetContentData :=
  { ID := c.ID, SnippetID := c.SnippetID, Label := c.Label, Value := c.Value
    Language := c.Language, CreatedAt := c.CreatedAt, UpdatedAt := c.UpdatedAt }

def toSyncSnippetTagData (st : SnippetTag) : SyncSnippetTagData :=
  { SnippetID := st.SnippetID, TagID := st.TagID, CreatedAt := st.CreatedAt }

def toSyncDeletionData (d : SyncDeletion) : SyncDeletionData :=
  { TableName := d.EntityTable, RecordID := d.RecordID, DeletedAt := d.DeletedAt }

/-- The handler `Pull` on a bound request. -/
def Pull (env : Env) (s : Server) (req : PullRequest) : Server × PullResponse :=
  ({ s with ticks := s.ticks + 1 },
    { ServerTime := env.now s.ticks
      Changes :=
        { Folders :=
            (s.db.folders.filter (fun f => f.UpdatedAt > req.LastSyncAt)).map toSyncFolderData
          Tags := (s.db.tags.filter (fun t => t.UpdatedAt > req.LastSyncAt)).map toSyncTagData
          Snippets :=
            (s.db.snippets.filter (fun x => x.UpdatedAt > req.LastSyncAt)).map toSyncSnippetData
          SnippetContents :=
            (s.db.snippet_contents.filter (fun c => c.UpdatedAt > req.LastSyncAt)).map
              toSyncSnippetContentData
          SnippetTags :=
            (s.db.snippet_tags.filter (fun st => st.CreatedAt > req.LastSyncAt)).map
              toSyncSnippetTagData }
      Deletions :=
        (s.db.sync_deletions.filter (fun d => d.DeletedAt > req.LastSyncAt)).map
          toSyncDeletionData })

/-- The handler `Full`. -/
def Full (env : Env) (s : Server) : Server × PullResponse :=
  ({ s with ticks := s.ticks + 1 },
    { ServerTime := env.now s.ticks
      Changes :=
        { Folders := s.db.folders.map toSyncFolderData
          Tags := s.db.tags.map toSyncTagData
          Snippets := s.db.snippets.map toSyncSnippetData
          SnippetContents := s.db.snippet_contents.map toSyncSnippetContentData
          SnippetTags := s.db.snippet_tags.map toSyncSnippetTagData }
      Deletions := [] })

/-! ## What the specification expects of an accepted update

The record an update item is expected to leave behind: identity and `CreatedAt` of the
stored record, every other field read from the data of the item. -/

/-- The folder `x` with every mutable field replaced by the value carried by `data`. -/
def Folder.overwrite (x : Folder) (data : Data) : Folder :=
  { ID := x.ID
    Name := getString data "name"
    DefaultLanguage := getString data "defaultLanguage"
    ParentID := getStringPtr data "parentId"
    IsOpen := getInt data "isOpen"
    OrderIndex := getInt data "orderIndex"
    Icon := getStringPtr data "icon"
    CreatedAt := x.CreatedAt
    UpdatedAt := getInt64 data "updatedAt" }

/-- The tag `x` with every mutable field replaced by the value carried by `data`. -/
def Tag.overwrite (x : Tag) (data : Data) : Tag :=
  { ID := x.ID
    Name := getString data "name"
    CreatedAt := x.CreatedAt
    UpdatedAt := getInt64 data "updatedAt" }

/-- The snippet `x` with every mutable field replaced by the value carried by `data`. -/
def Snippet.overwrite (x : Snippet) (data : Data) : Snippet :=
  { ID := x.ID
    Name := getString data "name"
    Description := getStringPtr data "description"
    FolderID := getStringPtr data "folderId"
    IsDeleted := getInt data "isDeleted"
    IsFavorites := getInt data "isFavorites"
    CreatedAt := x.CreatedAt
    UpdatedAt := getInt64 data "updatedAt" }

/-- The snippet content `x` with every mutable field replaced by the value carried by
`data`. -/
def SnippetContent.overwrite (x : SnippetContent) (data : Data) : SnippetContent :=
  { ID := x.ID
    SnippetID := getString data "snippetId"
    Label := getStringPtr data "label"
    Value := getStringPtr data "value"
    Language := getStringPtr data "language"
    CreatedAt := x.CreatedAt
    UpdatedAt := getInt64 data "updatedAt" }

/-- The request that pushes the change items `items` of folders and nothing else. -/
def foldersRequest (items : List PushFolderChangeItem) : PushRequest :=
  { Changes := { Folders := items } }

/-- The request that pushes the change items `items` of tags and nothing else. -/
def tagsRequest (items : List PushTagChangeItem) : PushRequest :=
  { Changes := { Tags := items } }

/-- The request that pushes the change items `items` of snippets and nothing else. -/
def snippetsRequest (items : List PushSnippetChangeItem) : PushRequest :=
  { Changes := { Snippets := items } }

/-- The request that pushes the change items `items` of snippet contents and nothing
else. -/
def snippetContentsRequest (items : List PushSnippetContentChangeItem) : PushRequest :=
  { Changes := { SnippetContents := items } }

/-- The request that pushes the deletion items `dels` and nothing else. -/
def deletionsRequest (dels : List SyncDeletionData) : PushRequest :=
  { Deletions := dels }

/-! ## Last write wins on one table

The four update branches of `Push` have one shape; `lwwTable` is that shape on the list
of rows of one table, used to reason about the four of them at once. -/

/-- The rows with key `X` rewritten by `g`. -/
def setWhere {α : Type} (key : α → String) (X : String) (g : α → α) (l : List α) : List α :=
  l.map (fun x => if key x == X then g x else x)

/-- Load the row with key `X`; when it is there and `t` is greater than its stamp, rewrite
the rows with key `X` by `g`, unless the store refuses the statement. -/
def lwwTable {α : Type} (key : α → String) (stamp : α → Int) (X : String) (t : Int)
    (g : α → α) (refused : Bool) (l : List α) : List α :=
  match l.find? (fun x => key x == X) with
  | none => l
  | some existing =>
    if t > stamp existing then
      if refused then l else setWhere key X g l
    else l

/-- Whether a row of `tags` other than the rows with identity `X` carries a name that
`sameName` takes for `name`. -/
def nameTaken (sameName : String → String → Bool) (X : String) (name : String)
    (l : List Tag) : Bool :=
  l.any (fun x => x.ID != X && sameName x.Name name)

/-- What an update item of folders does to the database, in terms of `lwwTable`. -/
def updateFolders (item : PushFolderChangeItem) (db : DB) : DB :=
  match item.ServerID with
  | none => db
  | some X =>
    { db with folders := (lwwTable Folder.ID Folder.UpdatedAt X
        (getInt64 item.Data "updatedAt") (fun x => x.overwrite item.Data) false db.folders) }

/-- What an update item of tags does to the database, in terms of `lwwTable`. -/
def updateTags (env : Env) (item : PushTagChangeItem) (db : DB) : DB :=
  match item.ServerID with
  | none => db
  | some X =>
    { db with tags := (lwwTable Tag.ID Tag.UpdatedAt X (getInt64 item.Data "updatedAt")
        (fun x => x.overwrite item.Data)
        (nameTaken env.sameName X (getString item.Data "name") db.tags) db.tags) }

/-- What an update item of snippets does to the database, in terms of `lwwTable`. -/
def updateSnippets (item : PushSnippetChangeItem) (db : DB) : DB :=
  match item.ServerID with
  | none => db
  | some X =>
    { db with snippets := (lwwTable Snippet.ID Snippet.UpdatedAt X
        (getInt64 item.Data "updatedAt") (fun x => x.overwrite item.Data) false db.snippets) }

/-- What an update item of snippet contents does to the database, in terms of
`lwwTable`. -/
def updateSnippetContents (item : PushSnippetContentChangeItem) (db : DB) : DB :=
  match item.ServerID with
  | none => db
  | some X =>
    { db with snippet_contents := (lwwTable SnippetContent.ID SnippetContent.UpdatedAt X
        (getInt64 item.Data "updatedAt") (fun x => x.overwrite item.Data) false
        db.snippet_contents) }

/-! ## Applying several items in a row -/

/-- One push per item of `items`, each holding that item alone (wrapped by `mk`), in the
order of the list. -/
def pushEach (env : Env) (mk : List PushChangeItem → PushRequest) :
    Server → List PushChangeItem → Server
  | s, [] => s
  | s, i :: rest => pushEach env mk (Push env s (mk [i])).1 rest

/-- The database after the items `items` were applied in the order of the list: in one
push that holds them all when `oneBatch` is set, in one push per item otherwise. -/
def applyItems (env : Env) (s : Server) (mk : List PushChangeItem → PushRequest)
    (oneBatch : Bool) (items : List PushChangeItem) : DB :=
  if oneBatch then (Push env s (mk items)).1.db else (pushEach env mk s items).db

/-- Of two update items the one with the greater `updatedAt`. -/
def laterOf (A B : PushChangeItem) : PushChangeItem :=
  if getInt64 A.Data "updatedAt" > getInt64 B.Data "updatedAt" then A else B

/-! ## The identity mappings a push is expected to answer -/

/-- The number of items of `items` with `isNew = true`. -/
def countNew (items : List PushChangeItem) : Nat := (items.filter (fun i => i.IsNew)).length

/-- One mapping per item of `items` with `isNew = true`, in the order of the list: the
`i`-th of them pairs the local reference of the `i`-th new item with the value number
`start + i` of the identity source, under the table name `table`. -/
def mintedMappings (env : Env) (table : String) (start : Nat) (items : List PushChangeItem) :
    List IDMapping :=
  ((items.filter (fun i => i.IsNew)).enumFrom start).map
    (fun p => { TableName := table, LocalID := p.2.LocalID, ServerID := env.uuid p.1 })

/-- The identities of the records of the four entity tables. -/
def DB.identities (db : DB) : List String :=
  db.folders.map Folder.ID ++ db.tags.map Tag.ID ++ db.snippets.map Snippet.ID
    ++ db.snippet_contents.map SnippetContent.ID

/-! ## Sample values -/

/-- A `Data` map given by its entries. -/
def dataOf (entries : List (String × Value)) : Data := fun key => entries.lookup key

/-- The `float64` with the integral value `n`: what a JSON number without fraction and
of magnitude below `2 ^ 53` is decoded into. -/
def num (n : Int) : Value := Value.float64 { mant := n, exp := 0 }

/-- The characters of `s` with the ASCII capitals replaced by their small letters. -/
def foldCase (s : String) : List Char := s.data.map Char.toLower

/-- An identity source that never repeats itself, a clock, and a collation that does not
tell an ASCII capital from its small letter, as the default collations of MySQL do
not. -/
def sampleEnv : Env :=
  { uuid := fun k => String.mk (List.replicate (k + 1) 'u')
    now := fun k => 1700000000000 + k
    sameName := fun a b => foldCase a == foldCase b }

def sampleFolder : Folder :=
  { ID := "f1", Name := "Work", DefaultLanguage := "go", ParentID := none, IsOpen := 1
    OrderIndex := 0, Icon := none, CreatedAt := 10, UpdatedAt := 20 }

def sampleTag : Tag := { ID := "t1", Name := "go", CreatedAt := 10, UpdatedAt := 20 }

def otherTag : Tag := { ID := "t2", Name := "rust", CreatedAt := 11, UpdatedAt := 21 }

def sampleSnippet : Snippet :=
  { ID := "s1", Name := "hello", Description := none, FolderID := some "f1", IsDeleted := 0
    IsFavorites := 0, CreatedAt := 10, UpdatedAt := 20 }

def otherSnippet : Snippet :=
  { ID := "s2", Name := "bye", Description := none, FolderID := none, IsDeleted := 0
    IsFavorites := 1, CreatedAt := 12, UpdatedAt := 22 }

def sampleContent : SnippetContent :=
  { ID := "c1", SnippetID := "s1", Label := some "main", Value := some "package main"
    Language := some "go", CreatedAt := 10, UpdatedAt := 20 }

def otherContent : SnippetContent :=
  { ID := "c2", SnippetID := "s2", Label := none, Value := none
    Language := none, CreatedAt := 12, UpdatedAt := 22 }

def sampleDB : DB :=
  { folders := [sampleFolder]
    snippets := [sampleSnippet, otherSnippet]
    snippet_contents := [sampleContent, otherContent]
    tags := [sampleTag, otherTag]
    snippet_tags :=
      [{ SnippetID := "s1", TagID := "t1", CreatedAt := 15 },
       { SnippetID := "s2", TagID := "t1", CreatedAt := 16 },
       { SnippetID := "s1", TagID := "t2", CreatedAt := 17 }]
    sync_deletions := [] }

def sampleServer : Server := { db := sampleDB, uuids := 0, ticks := 0 }

/-- An update item for the record `id` that carries the name `name` and the stamp `t`. -/
def renameItem (id name : String) (t : Int) : PushChangeItem :=
  { ServerID := some id, LocalID := 0, IsNew := false
    Data := dataOf [("name", Value.string name), ("updatedAt", num t)] }

/-- A new item with the local reference `localID` that carries the name `name`. -/
def newItem (localID : Int) (name : String) (t : Int) : PushChangeItem :=
  { ServerID := none, LocalID := localID, IsNew := true
    Data := dataOf [("name", Value.string name), ("createdAt", num t), ("updatedAt", num t)] }

/-- A push with two new folders, an update of the sample folder, a new tag and the
deletion of a snippet. -/
def sampleRequest : PushRequest :=
  { Changes :=
      { Folders := [newItem 1 "Inbox" 50, renameItem "f1" "Home" 30, newItem 2 "Archive" 51]
        Tags := [newItem 1 "perl" 52] }
    Deletions := [⟨"snippets", "s2", 60⟩] }

/-- A push with a new folder and a new snippet and no deletion. -/
def sampleCreates : PushRequest :=
  { Changes := { Folders := [newItem 1 "Inbox" 50], Snippets := [newItem 7 "todo" 51] } }

/-! ## The handler from the binding of the body on -/

/-- What the handler `Push` answers to a request body: 400 when `ShouldBindJSON` refuses
the body, else the reply of `Push` to the bound request. -/
inductive HandlerReply where
  | BadRequest
  | Bound (reply : PushReply)
  deriving DecidableEq, Repr

/-- The handler `Push` with its first statement: `none` stands for a body that
`ShouldBindJSON` refuses, `some req` for a body that binds to `req`. -/
def PushHandler (env : Env) (s : Server) (bound : Option PushRequest) :
    Server × HandlerReply :=
  match bound with
  | none => (s, HandlerReply.BadRequest)
  | some req => ((Push env s req).1, HandlerReply.Bound (Push env s req).2)

/-- The request that pushes the relationship items `items` and nothing else. -/
def snippetTagsRequest (items : List PushSnippetTagItem) : PushRequest :=
  { Changes := { SnippetTags := items } }

/-! ## More sample values -/

/-- A push of a new folder together with an update that renames tag `t1` to the name
of tag `t2`. -/
def refusedRenameRequest : PushRequest :=
  { Changes := { Folders := [newItem 1 "Inbox" 50], Tags := [renameItem "t1" "rust" 30] } }

/-- A push of two tag updates: `t1` is renamed to the name of `t2`, then `t2` is
renamed. -/
def swapNamesRequest : PushRequest :=
  tagsRequest [renameItem "t1" "rust" 30, renameItem "t2" "c" 30]

/-- A new folder item whose data is the empty object. -/
def bareNewItem : PushChangeItem :=
  { ServerID := none, LocalID := 5, Data := dataOf [], IsNew := true }

/-- An update item for folder `f1` whose `updatedAt` is a string. -/
def stringStampItem : PushChangeItem :=
  { ServerID := some "f1", LocalID := 0, IsNew := false
    Data := dataOf [("name", Value.string "Home"), ("updatedAt", Value.string "30")] }

/-- A new folder item that carries a name and a negative `updatedAt`. -/
def negativeStampItem : PushChangeItem :=
  { ServerID := none, LocalID := 1, IsNew := true
    Data := dataOf [("name", Value.string "Work"), ("updatedAt", num (-1))] }

/-- The sample store after a deletion item for folder `f1` was pushed under the table
name `folder`, which the deletion switch does not know: the folder is still stored and
a tombstone stamped 5 records its identity. -/
def mislabelledServer : Server :=
  (Push sampleEnv sampleServer (deletionsRequest [⟨"folder", "f1", 5⟩])).1

/-! ## Tombstones and the identity source -/

/-- Some tombstone of `db` records the identity `X`. -/
def DB.recorded (db : DB) (X : String) : Prop :=
  ∃ x ∈ db.sync_deletions, x.RecordID = X

/-- No tombstone of `db` has an identity the source gives at position `k` or later. -/
def freshFrom (env : Env) (k : Nat) (db : DB) : Prop :=
  ∀ x ∈ db.sync_deletions, ∀ j, k ≤ j → x.ID ≠ env.uuid j

/-- A push that updates the folder `f1` with a late stamp, links the snippet `s2` to the
tag `t2`, and deletes the folder `f1` and the snippet `s2`. -/
def updateAndDeleteRequest : PushRequest :=
  { Changes :=
      { Folders := [renameItem "f1" "Home" 99]
        SnippetTags := [{ SnippetServerID := "s2", TagServerID := "t2", IsNew := true
                          CreatedAt := 99 }] }
    Deletions := [⟨"folders", "f1", 40⟩, ⟨"snippets", "s2", 41⟩] }

/-! ## What the helper functions find in an item's data -/

/-- Whether the type switch of `getString` / `getStringPtr` finds a string under `key`. -/
def isString (data : Data) (key : String) : Bool :=
  match data key with
  | some (Value.string _) => true
  | _ => false

/-- Whether the type switch of `getInt` / `getInt64` finds a number under `key`. -/
def isNumber (data : Data) (key : String) : Bool :=
  match data key with
  | some (Value.float64 _) => true
  | some (Value.int _) => true
  | some (Value.int64 _) => true
  | _ => false

/-- An update item for the record `id` whose data holds the stamp `t` and nothing
else. -/
def stampOnlyItem (id : String) (t : Int) : PushChangeItem :=
  { ServerID := some id, LocalID := 0, IsNew := false
    Data := dataOf [("updatedAt", num t)] }

/-- The sample store after a new tag item without data was pushed: a tag with the empty
name is stored under the identity `u`. -/
def blankTagServer : Server := (Push sampleEnv sampleServer (tagsRequest [bareNewItem])).1

/-- A new snippet item whose `folderId` is a reference of the client, not an identity of
the server. -/
def localSnippetItem : PushChangeItem :=
  { ServerID := none, LocalID := 2, IsNew := true
    Data := dataOf [("name", Value.string "todo"), ("folderId", Value.string "local-1"),
      ("updatedAt", num 51)] }

/-- A new snippet content item whose `snippetId` is a reference of the client. -/
def localContentItem : PushChangeItem :=
  { ServerID := none, LocalID := 3, IsNew := true
    Data := dataOf [("snippetId", Value.string "local-2"), ("updatedAt", num 52)] }

/-- A push of a new folder, of a new snippet whose `folderId` is the client's reference
to that folder, and of a new snippet content whose `snippetId` is the client's reference
to that snippet. -/
def localReferencesRequest : PushRequest :=
  { Changes :=
      { Folders := [newItem 1 "Inbox" 50]
        Snippets := [localSnippetItem]
        SnippetContents := [localContentItem] } }

/-- The transaction `tx` holds a mapping of table `table` for the local reference
`localID` whose identity was drawn at position `lo` or later, a row of `rows` is stored
under that identity, and every row stored under it has the reference `v`. -/
def Created {α ρ : Type} (env : Env) (table : String) (rows : DB → List α)
    (key : α → String) (ref : α → ρ) (lo : Nat) (tx : Tx) (localID : Int) (v : ρ) : Prop :=
  ∃ m ∈ tx.idMappings, m.TableName = table ∧ m.LocalID = localID
    ∧ (∃ k, lo ≤ k ∧ m.ServerID = env.uuid k)
    ∧ (∃ r ∈ rows tx.db, key r = m.ServerID)
    ∧ (∀ r ∈ rows tx.db, key r = m.ServerID → ref r = v)
/-! ## Lists of rows -/

theorem find?_map_update {α : Type} (key : α → String) (g : α → α)
    (hg : ∀ x, key (g x) = key x) (X : String) (l : List α) :
    (l.map (fun x => if key x == X then g x else x)).find? (fun x => key x == X)
      = (l.find? (fun x => key x == X)).map g := by
  induction l with
  | nil => rfl
  | cons a l ih =>
    by_cases h : key a = X
    · simp [h, hg]
    · have hb : (key a == X) = false := by simp [h]
      rw [List.map_cons, List.find?_cons, List.find?_cons, ih]
      simp [hb]

theorem map_update_update {α : Type} (key : α → String) (g₁ g₂ : α → α)
    (hg : ∀ x, key (g₁ x) = key x) (X : String) (l : List α) :
    (l.map (fun x => if key x == X then g₁ x else x)).map (fun x => if key x == X then g₂ x else x)
      = l.map (fun x => if key x == X then g₂ (g₁ x) else x) := by
  rw [List.map_map]
  apply List.map_congr_left
  intro a _
  by_cases h : key a = X <;> simp [h, hg]

/-! ## Requests made of one kind of item -/

theorem pushItems_folders (env : Env) (items : List PushFolderChangeItem) (tx : Tx) :
    pushItems env (foldersRequest items) tx = items.foldlM (pushFolder env) tx := by
  simp [pushItems, foldersRequest]

theorem pushItems_tags (env : Env) (items : List PushTagChangeItem) (tx : Tx) :
    pushItems env (tagsRequest items) tx = items.foldlM (pushTag env) tx := by
  simp [pushItems, tagsRequest]

theorem pushItems_snippets (env : Env) (items : List PushSnippetChangeItem) (tx : Tx) :
    pushItems env (snippetsRequest items) tx = items.foldlM (pushSnippet env) tx := by
  simp [pushItems, snippetsRequest]

theorem pushItems_snippetContents (env : Env) (items : List PushSnippetContentChangeItem)
    (tx : Tx) :
    pushItems env (snippetContentsRequest items) tx
      = items.foldlM (pushSnippetContent env) tx := by
  simp [pushItems, snippetContentsRequest]

theorem pushItems_deletions (env : Env) (dels : List SyncDeletionData) (tx : Tx) :
    pushItems env (deletionsRequest dels) tx = Except.ok (dels.foldl (pushDeletion env) tx) := by
  simp [pushItems, deletionsRequest]
  rfl

/-! ## Last write wins on one table -/

theorem find?_setWhere {α : Type} (key : α → String) (g : α → α)
    (hg : ∀ x, key (g x) = key x) (X : String) (l : List α) :
    (setWhere key X g l).find? (fun x => key x == X)
      = (l.find? (fun x => key x == X)).map g :=
  find?_map_update key g hg X l

theorem setWhere_setWhere {α : Type} (key : α → String) (g₁ g₂ : α → α)
    (hg : ∀ x, key (g₁ x) = key x) (X : String) (l : List α) :
    setWhere key X g₂ (setWhere key X g₁ l) = setWhere key X (fun x => g₂ (g₁ x)) l :=
  map_update_update key g₁ g₂ hg X l

theorem nameTaken_setWhere (same : String → String → Bool) (X name : String)
    (g : Tag → Tag) (hg : ∀ x, (g x).ID = x.ID) (l : List Tag) :
    nameTaken same X name (setWhere Tag.ID X g l) = nameTaken same X name l := by
  unfold nameTaken setWhere
  rw [List.any_map]
  congr 1
  funext x
  by_cases h : x.ID = X
  · simp [h, hg]
  · simp [h]

theorem lwwTable_none {α : Type} (key : α → String) (stamp : α → Int) (X : String) (t : Int)
    (g : α → α) (refused : Bool) (l : List α)
    (h : l.find? (fun x => key x == X) = none) :
    lwwTable key stamp X t g refused l = l := by
  simp [lwwTable, h]

theorem lwwTable_stale {α : Type} (key : α → String) (stamp : α → Int) (X : String) (t : Int)
    (g : α → α) (refused : Bool) (l : List α) (e : α)
    (h : l.find? (fun x => key x == X) = some e) (ht : t ≤ stamp e) :
    lwwTable key stamp X t g refused l = l := by
  simp [lwwTable, h, not_lt.mpr ht]

theorem lwwTable_newer {α : Type} (key : α → String) (stamp : α → Int) (X : String) (t : Int)
    (g : α → α) (l : List α) (e : α)
    (h : l.find? (fun x => key x == X) = some e) (ht : stamp e < t) :
    lwwTable key stamp X t g false l = setWhere key X g l := by
  simp [lwwTable, h, ht]

theorem lwwTable_refused {α : Type} (key : α → String) (stamp : α → Int) (X : String) (t : Int)
    (g : α → α) (l : List α) :
    lwwTable key stamp X t g true l = l := by
  unfold lwwTable
  split
  · rfl
  · split <;> rfl

/-- After the rows with key `X` were rewritten by a `g` that stamps them with `t`, an
update stamped `u ≤ t` finds nothing to do. -/
theorem lwwTable_after_setWhere {α : Type} (key : α → String) (stamp : α → Int) (X : String)
    (t u : Int) (g g₂ : α → α) (refused : Bool) (l : List α)
    (hk : ∀ x, key (g x) = key x) (hs : ∀ x, stamp (g x) = t) (hu : u ≤ t) :
    lwwTable key stamp X u g₂ refused (setWhere key X g l) = setWhere key X g l := by
  cases h : l.find? (fun x => key x == X) with
  | none =>
    apply lwwTable_none
    rw [find?_setWhere key g hk, h]; rfl
  | some e =>
    refine lwwTable_stale key stamp X u g₂ refused _ (g e) ?_ ?_
    · rw [find?_setWhere key g hk, h]; rfl
    · rw [hs]; exact hu

/-- Applying the same update twice is applying it once. -/
theorem lwwTable_idem {α : Type} (key : α → String) (stamp : α → Int) (X : String) (t : Int)
    (g : α → α) (refused : Bool) (l : List α)
    (hk : ∀ x, key (g x) = key x) (hs : ∀ x, stamp (g x) = t) :
    lwwTable key stamp X t g refused (lwwTable key stamp X t g refused l)
      = lwwTable key stamp X t g refused l := by
  cases refused with
  | true => simp [lwwTable_refused]
  | false =>
    cases h : l.find? (fun x => key x == X) with
    | none => simp [lwwTable_none _ _ _ _ _ _ _ h]
    | some e =>
      by_cases ht : stamp e < t
      · rw [lwwTable_newer key stamp X t g l e h ht]
        exact lwwTable_after_setWhere key stamp X t t g g false l hk hs le_rfl
      · simp [lwwTable_stale key stamp X t g false l e h (not_lt.mp ht)]

/-! ## The update branches of `Push` are `lwwTable` -/

theorem pushFolder_update (env : Env) (tx : Tx) (item : PushFolderChangeItem)
    (hNew : item.IsNew = false) :
    pushFolder env tx item = Except.ok { tx with db := updateFolders item tx.db } := by
  unfold pushFolder updateFolders
  simp only [hNew, Bool.false_eq_true, if_false]
  cases hs : item.ServerID with
  | none => rfl
  | some X =>
    simp only [lwwTable]
    cases hf : tx.db.folders.find? (fun x => x.ID == X) with
    | none => rfl
    | some e =>
      have hid : e.ID = X := by simpa using List.find?_some hf
      by_cases ht : getInt64 item.Data "updatedAt" > e.UpdatedAt
      · simp [ht, hid, DB.updateFolder, setWhere, Folder.overwrite]
      · simp [ht]

theorem pushTag_update (env : Env) (tx : Tx) (item : PushTagChangeItem)
    (hNew : item.IsNew = false) :
    pushTag env tx item = Except.ok { tx with db := updateTags env item tx.db } := by
  unfold pushTag updateTags
  simp only [hNew, Bool.false_eq_true, if_false]
  cases hs : item.ServerID with
  | none => rfl
  | some X =>
    simp only [lwwTable]
    cases hf : tx.db.tags.find? (fun x => x.ID == X) with
    | none => rfl
    | some e =>
      have hid : e.ID = X := by simpa using List.find?_some hf
      by_cases ht : getInt64 item.Data "updatedAt" > e.UpdatedAt
      · cases hr : nameTaken env.sameName X (getString item.Data "name") tx.db.tags with
        | true =>
          have hr2 : tx.db.tags.any
              (fun x => x.ID != X && env.sameName x.Name (getString item.Data "name"))
              = true := hr
          simp [ht, hid, DB.updateTag, hr2]
        | false =>
          have hr2 : tx.db.tags.any
              (fun x => x.ID != X && env.sameName x.Name (getString item.Data "name"))
              = false := hr
          simp [ht, hid, DB.updateTag, hr2, setWhere, Tag.overwrite]
      · simp [ht]

theorem pushSnippet_update (env : Env) (tx : Tx) (item : PushSnippetChangeItem)
    (hNew : item.IsNew = false) :
    pushSnippet env tx item = Except.ok { tx with db := updateSnippets item tx.db } := by
  unfold pushSnippet updateSnippets
  simp only [hNew, Bool.false_eq_true, if_false]
  cases hs : item.ServerID with
  | none => rfl
  | some X =>
    simp only [lwwTable]
    cases hf : tx.db.snippets.find? (fun x => x.ID == X) with
    | none => rfl
    | some e =>
      have hid : e.ID = X := by simpa using List.find?_some hf
      by_cases ht : getInt64 item.Data "updatedAt" > e.UpdatedAt
      · simp [ht, hid, DB.updateSnippet, setWhere, Snippet.overwrite]
      · simp [ht]

theorem pushSnippetContent_update (env : Env) (tx : Tx) (item : PushSnippetContentChangeItem)
    (hNew : item.IsNew = false) :
    pushSnippetContent env tx item
      = Except.ok { tx with db := updateSnippetContents item tx.db } := by
  unfold pushSnippetContent updateSnippetContents
  simp only [hNew, Bool.false_eq_true, if_false]
  cases hs : item.ServerID with
  | none => rfl
  | some X =>
    simp only [lwwTable]
    cases hf : tx.db.snippet_contents.find? (fun x => x.ID == X) with
    | none => rfl
    | some e =>
      have hid : e.ID = X := by simpa using List.find?_some hf
      by_cases ht : getInt64 item.Data "updatedAt" > e.UpdatedAt
      · simp [ht, hid, DB.updateSnippetContent, setWhere, SnippetContent.overwrite]
      · simp [ht]

/-! ## Pushes made of update items -/

theorem foldlM_updates {α : Type} (f : Tx → α → Except Tx Tx) (u : α → DB → DB)
    (items : List α) (h : ∀ i ∈ items, ∀ tx, f tx i = Except.ok { tx with db := u i tx.db })
    (tx : Tx) :
    items.foldlM f tx = Except.ok { tx with db := items.foldl (fun db i => u i db) tx.db } := by
  induction items generalizing tx with
  | nil => rfl
  | cons a l ih =>
    have ha := h a (List.mem_cons_self a l) tx
    have hl : ∀ i ∈ l, ∀ tx, f tx i = Except.ok { tx with db := u i tx.db } :=
      fun i hi => h i (List.mem_cons_of_mem a hi)
    rw [List.foldlM_cons, ha]
    exact ih hl _

theorem Push_of_pushItems_ok (env : Env) (s : Server) (req : PushRequest) (tx : Tx)
    (h : pushItems env req { db := s.db, uuids := s.uuids, ticks := s.ticks, idMappings := [] }
      = Except.ok tx) :
    Push env s req = ({ db := tx.db, uuids := tx.uuids, ticks := tx.ticks + 1 },
      PushReply.OK { ServerTime := env.now tx.ticks, IDMappings := tx.idMappings }) := by
  simp [Push, h]

/-- A push of update items of folders commits the fold of `updateFolders`. -/
theorem Push_folder_updates (env : Env) (s : Server) (items : List PushFolderChangeItem)
    (h : ∀ i ∈ items, i.IsNew = false) :
    Push env s (foldersRequest items)
      = ({ db := items.foldl (fun db i => updateFolders i db) s.db, uuids := s.uuids,
           ticks := s.ticks + 1 },
         PushReply.OK { ServerTime := env.now s.ticks, IDMappings := [] }) := by
  have hp := foldlM_updates (pushFolder env) updateFolders items
    (fun i hi tx => pushFolder_update env tx i (h i hi))
    { db := s.db, uuids := s.uuids, ticks := s.ticks, idMappings := [] }
  rw [← pushItems_folders] at hp
  exact Push_of_pushItems_ok env s _ _ hp

/-- A push of update items of tags commits the fold of `updateTags`. -/
theorem Push_tag_updates (env : Env) (s : Server) (items : List PushTagChangeItem)
    (h : ∀ i ∈ items, i.IsNew = false) :
    Push env s (tagsRequest items)
      = ({ db := items.foldl (fun db i => updateTags env i db) s.db, uuids := s.uuids,
           ticks := s.ticks + 1 },
         PushReply.OK { ServerTime := env.now s.ticks, IDMappings := [] }) := by
  have hp := foldlM_updates (pushTag env) (updateTags env) items
    (fun i hi tx => pushTag_update env tx i (h i hi))
    { db := s.db, uuids := s.uuids, ticks := s.ticks, idMappings := [] }
  rw [← pushItems_tags] at hp
  exact Push_of_pushItems_ok env s _ _ hp

/-- A push of update items of snippets commits the fold of `updateSnippets`. -/
theorem Push_snippet_updates (env : Env) (s : Server) (items : List PushSnippetChangeItem)
    (h : ∀ i ∈ items, i.IsNew = false) :
    Push env s (snippetsRequest items)
      = ({ db := items.foldl (fun db i => updateSnippets i db) s.db, uuids := s.uuids,
           ticks := s.ticks + 1 },
         PushReply.OK { ServerTime := env.now s.ticks, IDMappings := [] }) := by
  have hp := foldlM_updates (pushSnippet env) updateSnippets items
    (fun i hi tx => pushSnippet_update env tx i (h i hi))
    { db := s.db, uuids := s.uuids, ticks := s.ticks, idMappings := [] }
  rw [← pushItems_snippets] at hp
  exact Push_of_pushItems_ok env s _ _ hp

/-- A push of update items of snippet contents commits the fold of
`updateSnippetContents`. -/
theorem Push_snippetContent_updates (env : Env) (s : Server)
    (items : List PushSnippetContentChangeItem) (h : ∀ i ∈ items, i.IsNew = false) :
    Push env s (snippetContentsRequest items)
      = ({ db := items.foldl (fun db i => updateSnippetContents i db) s.db, uuids := s.uuids,
           ticks := s.ticks + 1 },
         PushReply.OK { ServerTime := env.now s.ticks, IDMappings := [] }) := by
  have hp := foldlM_updates (pushSnippetContent env) updateSnippetContents items
    (fun i hi tx => pushSnippetContent_update env tx i (h i hi))
    { db := s.db, uuids := s.uuids, ticks := s.ticks, idMappings := [] }
  rw [← pushItems_snippetContents] at hp
  exact Push_of_pushItems_ok env s _ _ hp

/-- A push of deletion items commits the fold of `pushDeletion`. -/
theorem Push_deletions (env : Env) (s : Server) (dels : List SyncDeletionData) :
    Push env s (deletionsRequest dels)
      = (let tx := dels.foldl (pushDeletion env)
            { db := s.db, uuids := s.uuids, ticks := s.ticks, idMappings := [] }
         ({ db := tx.db, uuids := tx.uuids, ticks := tx.ticks + 1 },
          PushReply.OK { ServerTime := env.now tx.ticks, IDMappings := tx.idMappings })) := by
  apply Push_of_pushItems_ok
  rw [pushItems_deletions]

/-! ## Deletion items -/

theorem find?_filter_ne {α : Type} (key : α → String) (X : String) (l : List α) :
    (l.filter (fun x => key x != X)).find? (fun x => key x == X) = none := by
  rw [List.find?_eq_none]
  intro x hx
  have := (List.mem_filter.mp hx).2
  simpa using this

theorem mem_filter_ne {α : Type} (key : α → String) (X : String) (l : List α) :
    ∀ x ∈ l.filter (fun x => key x != X), key x ≠ X := by
  intro x hx
  simpa using (List.mem_filter.mp hx).2

theorem insertIgnoreSyncDeletion_eq (db : DB) (d : SyncDeletion) :
    db.insertIgnoreSyncDeletion d
      = { db with sync_deletions := (db.insertIgnoreSyncDeletion d).sync_deletions } := by
  unfold DB.insertIgnoreSyncDeletion
  split <;> rfl

theorem deleteRecord_sync_deletions (db : DB) (del : SyncDeletionData) :
    (deleteRecord db del).sync_deletions = db.sync_deletions := by
  unfold deleteRecord
  split_ifs <;> rfl

theorem deleteRecord_idem (db : DB) (del : SyncDeletionData) :
    deleteRecord (deleteRecord db del) del = deleteRecord db del := by
  unfold deleteRecord
  split_ifs <;> simp [List.filter_filter]

theorem deleteRecord_insertIgnore (db : DB) (del : SyncDeletionData) (d : SyncDeletion) :
    deleteRecord (db.insertIgnoreSyncDeletion d) del
      = (deleteRecord db del).insertIgnoreSyncDeletion d := by
  unfold DB.insertIgnoreSyncDeletion
  rw [deleteRecord_sync_deletions]
  split
  · rfl
  · unfold deleteRecord
    split_ifs <;> rfl

/-- What a push of one deletion item commits. -/
theorem Push_deletion (env : Env) (s : Server) (del : SyncDeletionData) :
    Push env s (deletionsRequest [del])
      = ({ db := (deleteRecord s.db del).insertIgnoreSyncDeletion
                  { ID := env.uuid s.uuids, EntityTable := del.TableName
                    RecordID := del.RecordID, DeletedAt := del.DeletedAt }
           uuids := s.uuids + 1, ticks := s.ticks + 1 },
         PushReply.OK { ServerTime := env.now s.ticks, IDMappings := [] }) := by
  rw [Push_deletions]
  rfl

/-- What a push of the same deletion item twice commits. -/
theorem Push_deletion_twice (env : Env) (s : Server) (del : SyncDeletionData) :
    Push env s (deletionsRequest [del, del])
      = ({ db := (deleteRecord ((deleteRecord s.db del).insertIgnoreSyncDeletion
                    { ID := env.uuid s.uuids, EntityTable := del.TableName
                      RecordID := del.RecordID, DeletedAt := del.DeletedAt })
                  del).insertIgnoreSyncDeletion
                  { ID := env.uuid (s.uuids + 1), EntityTable := del.TableName
                    RecordID := del.RecordID, DeletedAt := del.DeletedAt }
           uuids := s.uuids + 1 + 1, ticks := s.ticks + 1 },
         PushReply.OK { ServerTime := env.now s.ticks, IDMappings := [] }) := by
  rw [Push_deletions]
  rfl

theorem insertIgnoreSyncDeletion_folders (db : DB) (d : SyncDeletion) :
    (db.insertIgnoreSyncDeletion d).folders = db.folders := by
  rw [insertIgnoreSyncDeletion_eq]

theorem insertIgnoreSyncDeletion_tags (db : DB) (d : SyncDeletion) :
    (db.insertIgnoreSyncDeletion d).tags = db.tags := by
  rw [insertIgnoreSyncDeletion_eq]

theorem insertIgnoreSyncDeletion_snippets (db : DB) (d : SyncDeletion) :
    (db.insertIgnoreSyncDeletion d).snippets = db.snippets := by
  rw [insertIgnoreSyncDeletion_eq]

theorem insertIgnoreSyncDeletion_snippet_contents (db : DB) (d : SyncDeletion) :
    (db.insertIgnoreSyncDeletion d).snippet_contents = db.snippet_contents := by
  rw [insertIgnoreSyncDeletion_eq]

theorem insertIgnoreSyncDeletion_snippet_tags (db : DB) (d : SyncDeletion) :
    (db.insertIgnoreSyncDeletion d).snippet_tags = db.snippet_tags := by
  rw [insertIgnoreSyncDeletion_eq]

/-! ## Update items whose target is not stored -/

theorem updateFolders_missing (item : PushFolderChangeItem) (X : String) (db : DB)
    (hId : item.ServerID = some X) (h : db.folders.find? (fun x => x.ID == X) = none) :
    updateFolders item db = db := by
  simp [updateFolders, hId, lwwTable_none _ _ _ _ _ _ _ h]

theorem updateTags_missing (env : Env) (item : PushTagChangeItem) (X : String) (db : DB)
    (hId : item.ServerID = some X) (h : db.tags.find? (fun x => x.ID == X) = none) :
    updateTags env item db = db := by
  simp [updateTags, hId, lwwTable_none _ _ _ _ _ _ _ h]

theorem updateSnippets_missing (item : PushSnippetChangeItem) (X : String) (db : DB)
    (hId : item.ServerID = some X) (h : db.snippets.find? (fun x => x.ID == X) = none) :
    updateSnippets item db = db := by
  simp [updateSnippets, hId, lwwTable_none _ _ _ _ _ _ _ h]

theorem updateSnippetContents_missing (item : PushSnippetContentChangeItem) (X : String)
    (db : DB) (hId : item.ServerID = some X)
    (h : db.snippet_contents.find? (fun x => x.ID == X) = none) :
    updateSnippetContents item db = db := by
  simp [updateSnippetContents, hId, lwwTable_none _ _ _ _ _ _ _ h]

/-! ## Applying an update item twice -/

theorem lwwTable_cases {α : Type} (key : α → String) (stamp : α → Int) (X : String) (t : Int)
    (g : α → α) (refused : Bool) (l : List α) :
    lwwTable key stamp X t g refused l = l
      ∨ lwwTable key stamp X t g refused l = setWhere key X g l := by
  unfold lwwTable
  split
  · exact Or.inl rfl
  · split
    · split
      · exact Or.inl rfl
      · exact Or.inr rfl
    · exact Or.inl rfl

theorem nameTaken_lwwTable (same : String → String → Bool) (X name : String) (t : Int)
    (g : Tag → Tag) (hg : ∀ x, (g x).ID = x.ID) (refused : Bool) (l : List Tag) :
    nameTaken same X name (lwwTable Tag.ID Tag.UpdatedAt X t g refused l)
      = nameTaken same X name l := by
  rcases lwwTable_cases Tag.ID Tag.UpdatedAt X t g refused l with h | h
  · rw [h]
  · rw [h, nameTaken_setWhere same X name g hg]

theorem updateFolders_idem (item : PushFolderChangeItem) (db : DB) :
    updateFolders item (updateFolders item db) = updateFolders item db := by
  unfold updateFolders
  cases item.ServerID with
  | none => rfl
  | some X =>
    simp only
    rw [lwwTable_idem Folder.ID Folder.UpdatedAt X (getInt64 item.Data "updatedAt")
      (fun x => x.overwrite item.Data) false db.folders (fun _ => rfl) (fun _ => rfl)]

theorem updateTags_idem (env : Env) (item : PushTagChangeItem) (db : DB) :
    updateTags env item (updateTags env item db) = updateTags env item db := by
  unfold updateTags
  cases item.ServerID with
  | none => rfl
  | some X =>
    simp only
    rw [nameTaken_lwwTable env.sameName X (getString item.Data "name")
        (getInt64 item.Data "updatedAt")
        (fun x => x.overwrite item.Data) (fun _ => rfl),
      lwwTable_idem Tag.ID Tag.UpdatedAt X (getInt64 item.Data "updatedAt")
        (fun x => x.overwrite item.Data) _ db.tags (fun _ => rfl) (fun _ => rfl)]

theorem updateSnippets_idem (item : PushSnippetChangeItem) (db : DB) :
    updateSnippets item (updateSnippets item db) = updateSnippets item db := by
  unfold updateSnippets
  cases item.ServerID with
  | none => rfl
  | some X =>
    simp only
    rw [lwwTable_idem Snippet.ID Snippet.UpdatedAt X (getInt64 item.Data "updatedAt")
      (fun x => x.overwrite item.Data) false db.snippets (fun _ => rfl) (fun _ => rfl)]

theorem updateSnippetContents_idem (item : PushSnippetContentChangeItem) (db : DB) :
    updateSnippetContents item (updateSnippetContents item db)
      = updateSnippetContents item db := by
  unfold updateSnippetContents
  cases item.ServerID with
  | none => rfl
  | some X =>
    simp only
    rw [lwwTable_idem SnippetContent.ID SnippetContent.UpdatedAt X
      (getInt64 item.Data "updatedAt") (fun x => x.overwrite item.Data) false
      db.snippet_contents (fun _ => rfl) (fun _ => rfl)]

/-! ## Several update items in a row -/

theorem pushEach_updates (env : Env) (mk : List PushChangeItem → PushRequest)
    (u : PushChangeItem → DB → DB)
    (hmk : ∀ (s : Server) (i : PushChangeItem), i.IsNew = false →
      (Push env s (mk [i])).1.db = u i s.db)
    (items : List PushChangeItem) (h : ∀ i ∈ items, i.IsNew = false) (s : Server) :
    (pushEach env mk s items).db = items.foldl (fun db i => u i db) s.db := by
  induction items generalizing s with
  | nil => rfl
  | cons a l ih =>
    have ha := h a (List.mem_cons_self a l)
    have hl : ∀ i ∈ l, i.IsNew = false := fun i hi => h i (List.mem_cons_of_mem a hi)
    rw [pushEach, ih hl, hmk s a ha]
    rfl

theorem applyItems_folders (env : Env) (s : Server) (oneBatch : Bool)
    (items : List PushChangeItem) (h : ∀ i ∈ items, i.IsNew = false) :
    applyItems env s foldersRequest oneBatch items
      = items.foldl (fun db i => updateFolders i db) s.db := by
  cases oneBatch with
  | true => simp [applyItems, Push_folder_updates env s items h]
  | false =>
    simp only [applyItems, Bool.false_eq_true, if_false]
    refine pushEach_updates env foldersRequest updateFolders ?_ items h s
    intro s i hi
    rw [Push_folder_updates env s [i] (by simpa using hi)]
    rfl

theorem applyItems_tags (env : Env) (s : Server) (oneBatch : Bool)
    (items : List PushChangeItem) (h : ∀ i ∈ items, i.IsNew = false) :
    applyItems env s tagsRequest oneBatch items
      = items.foldl (fun db i => updateTags env i db) s.db := by
  cases oneBatch with
  | true => simp [applyItems, Push_tag_updates env s items h]
  | false =>
    simp only [applyItems, Bool.false_eq_true, if_false]
    refine pushEach_updates env tagsRequest (updateTags env) ?_ items h s
    intro s i hi
    rw [Push_tag_updates env s [i] (by simpa using hi)]
    rfl

theorem applyItems_snippets (env : Env) (s : Server) (oneBatch : Bool)
    (items : List PushChangeItem) (h : ∀ i ∈ items, i.IsNew = false) :
    applyItems env s snippetsRequest oneBatch items
      = items.foldl (fun db i => updateSnippets i db) s.db := by
  cases oneBatch with
  | true => simp [applyItems, Push_snippet_updates env s items h]
  | false =>
    simp only [applyItems, Bool.false_eq_true, if_false]
    refine pushEach_updates env snippetsRequest updateSnippets ?_ items h s
    intro s i hi
    rw [Push_snippet_updates env s [i] (by simpa using hi)]
    rfl

theorem applyItems_snippetContents (env : Env) (s : Server) (oneBatch : Bool)
    (items : List PushChangeItem) (h : ∀ i ∈ items, i.IsNew = false) :
    applyItems env s snippetContentsRequest oneBatch items
      = items.foldl (fun db i => updateSnippetContents i db) s.db := by
  cases oneBatch with
  | true => simp [applyItems, Push_snippetContent_updates env s items h]
  | false =>
    simp only [applyItems, Bool.false_eq_true, if_false]
    refine pushEach_updates env snippetContentsRequest updateSnippetContents ?_ items h s
    intro s i hi
    rw [Push_snippetContent_updates env s [i] (by simpa using hi)]
    rfl

/-- Of two updates of the rows with key `X`, stamped `tB < tA`, the one stamped `tA`
is what is left, whichever comes first, when the store accepts it. -/
theorem lwwTable_later_wins {α : Type} (key : α → String) (stamp : α → Int) (X : String)
    (tA tB : Int) (gA gB : α → α) (rB rB2 : Bool) (l : List α) (e : α)
    (hkA : ∀ x, key (gA x) = key x) (hkB : ∀ x, key (gB x) = key x)
    (hsA : ∀ x, stamp (gA x) = tA) (hsB : ∀ x, stamp (gB x) = tB)
    (hAB : ∀ x, gA (gB x) = gA x) (hlt : tB < tA)
    (he : l.find? (fun x => key x == X) = some e) (hst : stamp e < tA) :
    lwwTable key stamp X tB gB rB2 (lwwTable key stamp X tA gA false l) = setWhere key X gA l
    ∧ lwwTable key stamp X tA gA false (lwwTable key stamp X tB gB rB l)
        = setWhere key X gA l := by
  constructor
  · rw [lwwTable_newer key stamp X tA gA l e he hst]
    exact lwwTable_after_setWhere key stamp X tA tB gA gB rB2 l hkA hsA (le_of_lt hlt)
  · rcases lwwTable_cases key stamp X tB gB rB l with h | h
    · rw [h, lwwTable_newer key stamp X tA gA l e he hst]
    · rw [h, lwwTable_newer key stamp X tA gA (setWhere key X gB l) (gB e)
        (by rw [find?_setWhere key gB hkB, he]; rfl) (by rw [hsB]; exact hlt),
        setWhere_setWhere key gB gA hkB]
      simp only [hAB]

theorem nameTaken_eq_false (same : String → String → Bool) (X name : String) (l : List Tag)
    (hfree : ∀ y ∈ l, y.ID ≠ X → same y.Name name = false) :
    nameTaken same X name l = false := by
  simp only [nameTaken, List.any_eq_false]
  intro y hy
  by_cases hyx : y.ID = X
  · simp [hyx]
  · simp [hyx, hfree y hy hyx]

theorem updateFolders_later_wins (A B : PushChangeItem) (X : String) (db : DB) (e : Folder)
    (hAX : A.ServerID = some X) (hBX : B.ServerID = some X)
    (hlt : getInt64 B.Data "updatedAt" < getInt64 A.Data "updatedAt")
    (he : db.folders.find? (fun x => x.ID == X) = some e)
    (hst : e.UpdatedAt < getInt64 A.Data "updatedAt") :
    updateFolders B (updateFolders A db)
        = { db with folders :=
              db.folders.map (fun x => if x.ID = X then x.overwrite A.Data else x) }
    ∧ updateFolders A (updateFolders B db)
        = { db with folders :=
              db.folders.map (fun x => if x.ID = X then x.overwrite A.Data else x) } := by
  have h := lwwTable_later_wins Folder.ID Folder.UpdatedAt X (getInt64 A.Data "updatedAt")
    (getInt64 B.Data "updatedAt") (fun x => x.overwrite A.Data) (fun x => x.overwrite B.Data)
    false false db.folders e (fun _ => rfl) (fun _ => rfl) (fun _ => rfl) (fun _ => rfl)
    (fun _ => rfl) hlt he hst
  simp only [updateFolders, hAX, hBX, h.1, h.2]
  simp [setWhere]

theorem updateSnippets_later_wins (A B : PushChangeItem) (X : String) (db : DB) (e : Snippet)
    (hAX : A.ServerID = some X) (hBX : B.ServerID = some X)
    (hlt : getInt64 B.Data "updatedAt" < getInt64 A.Data "updatedAt")
    (he : db.snippets.find? (fun x => x.ID == X) = some e)
    (hst : e.UpdatedAt < getInt64 A.Data "updatedAt") :
    updateSnippets B (updateSnippets A db)
        = { db with snippets :=
              db.snippets.map (fun x => if x.ID = X then x.overwrite A.Data else x) }
    ∧ updateSnippets A (updateSnippets B db)
        = { db with snippets :=
              db.snippets.map (fun x => if x.ID = X then x.overwrite A.Data else x) } := by
  have h := lwwTable_later_wins Snippet.ID Snippet.UpdatedAt X (getInt64 A.Data "updatedAt")
    (getInt64 B.Data "updatedAt") (fun x => x.overwrite A.Data) (fun x => x.overwrite B.Data)
    false false db.snippets e (fun _ => rfl) (fun _ => rfl) (fun _ => rfl) (fun _ => rfl)
    (fun _ => rfl) hlt he hst
  simp only [updateSnippets, hAX, hBX, h.1, h.2]
  simp [setWhere]

theorem updateSnippetContents_later_wins (A B : PushChangeItem) (X : String) (db : DB)
    (e : SnippetContent) (hAX : A.ServerID = some X) (hBX : B.ServerID = some X)
    (hlt : getInt64 B.Data "updatedAt" < getInt64 A.Data "updatedAt")
    (he : db.snippet_contents.find? (fun x => x.ID == X) = some e)
    (hst : e.UpdatedAt < getInt64 A.Data "updatedAt") :
    updateSnippetContents B (updateSnippetContents A db)
        = { db with snippet_contents :=
              db.snippet_contents.map (fun x => if x.ID = X then x.overwrite A.Data else x) }
    ∧ updateSnippetContents A (updateSnippetContents B db)
        = { db with snippet_contents :=
              db.snippet_contents.map (fun x => if x.ID = X then x.overwrite A.Data else x) } := by
  have h := lwwTable_later_wins SnippetContent.ID SnippetContent.UpdatedAt X
    (getInt64 A.Data "updatedAt") (getInt64 B.Data "updatedAt")
    (fun x => x.overwrite A.Data) (fun x => x.overwrite B.Data)
    false false db.snippet_contents e (fun _ => rfl) (fun _ => rfl) (fun _ => rfl)
    (fun _ => rfl) (fun _ => rfl) hlt he hst
  simp only [updateSnippetContents, hAX, hBX, h.1, h.2]
  simp [setWhere]

theorem updateTags_later_wins (env : Env) (A B : PushChangeItem) (X : String) (db : DB)
    (e : Tag)
    (hAX : A.ServerID = some X) (hBX : B.ServerID = some X)
    (hlt : getInt64 B.Data "updatedAt" < getInt64 A.Data "updatedAt")
    (he : db.tags.find? (fun x => x.ID == X) = some e)
    (hst : e.UpdatedAt < getInt64 A.Data "updatedAt")
    (hfree : ∀ y ∈ db.tags, y.ID ≠ X →
      env.sameName y.Name (getString A.Data "name") = false) :
    updateTags env B (updateTags env A db)
        = { db with tags :=
              db.tags.map (fun x => if x.ID = X then x.overwrite A.Data else x) }
    ∧ updateTags env A (updateTags env B db)
        = { db with tags :=
              db.tags.map (fun x => if x.ID = X then x.overwrite A.Data else x) } := by
  have hn := nameTaken_eq_false env.sameName X (getString A.Data "name") db.tags hfree
  have h := fun rB rB2 => lwwTable_later_wins Tag.ID Tag.UpdatedAt X
    (getInt64 A.Data "updatedAt") (getInt64 B.Data "updatedAt")
    (fun x => x.overwrite A.Data) (fun x => x.overwrite B.Data)
    rB rB2 db.tags e (fun _ => rfl) (fun _ => rfl) (fun _ => rfl) (fun _ => rfl)
    (fun _ => rfl) hlt he hst
  have hn2 := fun rB => nameTaken_lwwTable env.sameName X (getString A.Data "name")
    (getInt64 B.Data "updatedAt") (fun x => x.overwrite B.Data) (fun _ => rfl) rB db.tags
  have h1 := fun r => (h false r).1
  have h2 := fun r => (h r false).2
  simp only [updateTags, hAX, hBX, hn, hn2, h1, h2]
  simp [setWhere]

/-! ## Two updates with the same stamp -/

theorem updateFolders_stale (A : PushChangeItem) (X : String) (db : DB) (e : Folder)
    (hAX : A.ServerID = some X) (he : db.folders.find? (fun x => x.ID == X) = some e)
    (ht : getInt64 A.Data "updatedAt" ≤ e.UpdatedAt) : updateFolders A db = db := by
  simp [updateFolders, hAX, lwwTable_stale _ _ _ _ _ _ _ e he ht]

theorem updateTags_stale (env : Env) (A : PushChangeItem) (X : String) (db : DB) (e : Tag)
    (hAX : A.ServerID = some X) (he : db.tags.find? (fun x => x.ID == X) = some e)
    (ht : getInt64 A.Data "updatedAt" ≤ e.UpdatedAt) : updateTags env A db = db := by
  simp [updateTags, hAX, lwwTable_stale _ _ _ _ _ _ _ e he ht]

theorem updateSnippets_stale (A : PushChangeItem) (X : String) (db : DB) (e : Snippet)
    (hAX : A.ServerID = some X) (he : db.snippets.find? (fun x => x.ID == X) = some e)
    (ht : getInt64 A.Data "updatedAt" ≤ e.UpdatedAt) : updateSnippets A db = db := by
  simp [updateSnippets, hAX, lwwTable_stale _ _ _ _ _ _ _ e he ht]

theorem updateSnippetContents_stale (A : PushChangeItem) (X : String) (db : DB)
    (e : SnippetContent) (hAX : A.ServerID = some X)
    (he : db.snippet_contents.find? (fun x => x.ID == X) = some e)
    (ht : getInt64 A.Data "updatedAt" ≤ e.UpdatedAt) : updateSnippetContents A db = db := by
  simp [updateSnippetContents, hAX, lwwTable_stale _ _ _ _ _ _ _ e he ht]

theorem updateFolders_first_wins (A B : PushChangeItem) (X : String) (db : DB) (e : Folder)
    (hAX : A.ServerID = some X) (hBX : B.ServerID = some X)
    (hle : getInt64 B.Data "updatedAt" ≤ getInt64 A.Data "updatedAt")
    (he : db.folders.find? (fun x => x.ID == X) = some e)
    (hst : e.UpdatedAt < getInt64 A.Data "updatedAt") :
    updateFolders B (updateFolders A db)
      = { db with folders :=
            db.folders.map (fun x => if x.ID = X then x.overwrite A.Data else x) } := by
  have h1 := lwwTable_newer Folder.ID Folder.UpdatedAt X (getInt64 A.Data "updatedAt")
    (fun x => x.overwrite A.Data) db.folders e he hst
  have h2 := lwwTable_after_setWhere Folder.ID Folder.UpdatedAt X
    (getInt64 A.Data "updatedAt") (getInt64 B.Data "updatedAt")
    (fun x => x.overwrite A.Data) (fun x => x.overwrite B.Data) false db.folders
    (fun _ => rfl) (fun _ => rfl) hle
  simp only [updateFolders, hAX, hBX, h1, h2]
  simp [setWhere]

theorem updateSnippets_first_wins (A B : PushChangeItem) (X : String) (db : DB) (e : Snippet)
    (hAX : A.ServerID = some X) (hBX : B.ServerID = some X)
    (hle : getInt64 B.Data "updatedAt" ≤ getInt64 A.Data "updatedAt")
    (he : db.snippets.find? (fun x => x.ID == X) = some e)
    (hst : e.UpdatedAt < getInt64 A.Data "updatedAt") :
    updateSnippets B (updateSnippets A db)
      = { db with snippets :=
            db.snippets.map (fun x => if x.ID = X then x.overwrite A.Data else x) } := by
  have h1 := lwwTable_newer Snippet.ID Snippet.UpdatedAt X (getInt64 A.Data "updatedAt")
    (fun x => x.overwrite A.Data) db.snippets e he hst
  have h2 := lwwTable_after_setWhere Snippet.ID Snippet.UpdatedAt X
    (getInt64 A.Data "updatedAt") (getInt64 B.Data "updatedAt")
    (fun x => x.overwrite A.Data) (fun x => x.overwrite B.Data) false db.snippets
    (fun _ => rfl) (fun _ => rfl) hle
  simp only [updateSnippets, hAX, hBX, h1, h2]
  simp [setWhere]

theorem updateSnippetContents_first_wins (A B : PushChangeItem) (X : String) (db : DB)
    (e : SnippetContent) (hAX : A.ServerID = some X) (hBX : B.ServerID = some X)
    (hle : getInt64 B.Data "updatedAt" ≤ getInt64 A.Data "updatedAt")
    (he : db.snippet_contents.find? (fun x => x.ID == X) = some e)
    (hst : e.UpdatedAt < getInt64 A.Data "updatedAt") :
    updateSnippetContents B (updateSnippetContents A db)
      = { db with snippet_contents :=
            db.snippet_contents.map (fun x => if x.ID = X then x.overwrite A.Data else x) } := by
  have h1 := lwwTable_newer SnippetContent.ID SnippetContent.UpdatedAt X
    (getInt64 A.Data "updatedAt") (fun x => x.overwrite A.Data) db.snippet_contents e he hst
  have h2 := lwwTable_after_setWhere SnippetContent.ID SnippetContent.UpdatedAt X
    (getInt64 A.Data "updatedAt") (getInt64 B.Data "updatedAt")
    (fun x => x.overwrite A.Data) (fun x => x.overwrite B.Data) false db.snippet_contents
    (fun _ => rfl) (fun _ => rfl) hle
  simp only [updateSnippetContents, hAX, hBX, h1, h2]
  simp [setWhere]

theorem updateTags_first_wins (env : Env) (A B : PushChangeItem) (X : String) (db : DB)
    (e : Tag)
    (hAX : A.ServerID = some X) (hBX : B.ServerID = some X)
    (hle : getInt64 B.Data "updatedAt" ≤ getInt64 A.Data "updatedAt")
    (he : db.tags.find? (fun x => x.ID == X) = some e)
    (hst : e.UpdatedAt < getInt64 A.Data "updatedAt")
    (hfree : ∀ y ∈ db.tags, y.ID ≠ X →
      env.sameName y.Name (getString A.Data "name") = false) :
    updateTags env B (updateTags env A db)
      = { db with tags :=
            db.tags.map (fun x => if x.ID = X then x.overwrite A.Data else x) } := by
  have hn := nameTaken_eq_false env.sameName X (getString A.Data "name") db.tags hfree
  have h1 := lwwTable_newer Tag.ID Tag.UpdatedAt X (getInt64 A.Data "updatedAt")
    (fun x => x.overwrite A.Data) db.tags e he hst
  have h2 := fun r => lwwTable_after_setWhere Tag.ID Tag.UpdatedAt X
    (getInt64 A.Data "updatedAt") (getInt64 B.Data "updatedAt")
    (fun x => x.overwrite A.Data) (fun x => x.overwrite B.Data) r db.tags
    (fun _ => rfl) (fun _ => rfl) hle
  simp only [updateTags, hAX, hBX, hn, h1, h2]
  simp [setWhere]

/-! ## Tombstones -/

theorem length_filter_key_eq_one {α : Type} (key : α → String) (X : String) (l : List α)
    (hnd : (l.map key).Nodup) (hex : ∃ x ∈ l, key x = X) :
    (l.filter (fun x => key x == X)).length = 1 := by
  induction l with
  | nil => obtain ⟨x, hx, _⟩ := hex; cases hx
  | cons a l ih =>
    rw [List.map_cons, List.nodup_cons] at hnd
    by_cases ha : key a = X
    · have hnone : l.filter (fun x => key x == X) = [] := by
        rw [List.filter_eq_nil_iff]
        intro x hx hkx
        have hkx2 : key x = X := by simpa using hkx
        exact hnd.1 (ha ▸ hkx2 ▸ List.mem_map_of_mem key hx)
      simp [List.filter_cons, ha, hnone]
    · obtain ⟨x, hx, hkx⟩ := hex
      have hxl : x ∈ l := by
        rcases List.mem_cons.mp hx with h | h
        · exact absurd (h ▸ hkx) ha
        · exact h
      simp [List.filter_cons, ha, ih hnd.2 ⟨x, hxl, hkx⟩]

theorem insertIgnoreSyncDeletion_of_recorded (db : DB) (d : SyncDeletion)
    (h : ∃ x ∈ db.sync_deletions, x.RecordID = d.RecordID) :
    db.insertIgnoreSyncDeletion d = db := by
  obtain ⟨x, hx, hr⟩ := h
  have : db.sync_deletions.any (fun x => x.ID == d.ID || x.RecordID == d.RecordID) = true := by
    rw [List.any_eq_true]
    exact ⟨x, hx, by simp [hr]⟩
  simp [DB.insertIgnoreSyncDeletion, this]

theorem insertIgnoreSyncDeletion_of_new (db : DB) (d : SyncDeletion)
    (hid : ∀ x ∈ db.sync_deletions, x.ID ≠ d.ID)
    (hrec : ∀ x ∈ db.sync_deletions, x.RecordID ≠ d.RecordID) :
    db.insertIgnoreSyncDeletion d = { db with sync_deletions := db.sync_deletions ++ [d] } := by
  have : db.sync_deletions.any (fun x => x.ID == d.ID || x.RecordID == d.RecordID) = false := by
    rw [List.any_eq_false]
    intro x hx
    simp [hid x hx, hrec x hx]
  simp [DB.insertIgnoreSyncDeletion, this]

/-- After `INSERT IGNORE` of a tombstone whose identity is not that of a stored one, some
tombstone records the `record_id`. -/
theorem recorded_after_insertIgnore (db : DB) (d : SyncDeletion)
    (hid : ∀ x ∈ db.sync_deletions, x.ID ≠ d.ID) :
    ∃ x ∈ (db.insertIgnoreSyncDeletion d).sync_deletions, x.RecordID = d.RecordID := by
  by_cases h : ∃ x ∈ db.sync_deletions, x.RecordID = d.RecordID
  · rw [insertIgnoreSyncDeletion_of_recorded db d h]; exact h
  · have hrec : ∀ x ∈ db.sync_deletions, x.RecordID ≠ d.RecordID :=
      fun x hx hr => h ⟨x, hx, hr⟩
    rw [insertIgnoreSyncDeletion_of_new db d hid hrec]
    exact ⟨d, by simp, rfl⟩

theorem nodup_after_insertIgnore (db : DB) (d : SyncDeletion)
    (hnd : (db.sync_deletions.map SyncDeletion.RecordID).Nodup) :
    ((db.insertIgnoreSyncDeletion d).sync_deletions.map SyncDeletion.RecordID).Nodup := by
  unfold DB.insertIgnoreSyncDeletion
  split
  · exact hnd
  · rename_i hany
    have hrec : d.RecordID ∉ db.sync_deletions.map SyncDeletion.RecordID := by
      intro hm
      obtain ⟨x, hx, hr⟩ := List.mem_map.mp hm
      apply hany
      rw [List.any_eq_true]
      exact ⟨x, hx, by simp [hr]⟩
    simp only [List.map_append, List.map_cons, List.map_nil]
    rw [List.nodup_append]
    refine ⟨hnd, List.nodup_singleton _, ?_⟩
    intro a ha hb
    rw [List.mem_singleton] at hb
    exact hrec (hb ▸ ha)

/-! ## Identity mappings -/

theorem mintedMappings_nil (env : Env) (table : String) (start : Nat) :
    mintedMappings env table start [] = [] := rfl

theorem mintedMappings_cons_new (env : Env) (table : String) (start : Nat)
    (i : PushChangeItem) (items : List PushChangeItem) (h : i.IsNew = true) :
    mintedMappings env table start (i :: items)
      = { TableName := table, LocalID := i.LocalID, ServerID := env.uuid start }
          :: mintedMappings env table (start + 1) items := by
  simp [mintedMappings, List.filter_cons, h, List.enumFrom_cons]

theorem mintedMappings_cons_old (env : Env) (table : String) (start : Nat)
    (i : PushChangeItem) (items : List PushChangeItem) (h : i.IsNew = false) :
    mintedMappings env table start (i :: items) = mintedMappings env table start items := by
  simp [mintedMappings, List.filter_cons, h]

theorem countNew_cons_new (i : PushChangeItem) (items : List PushChangeItem)
    (h : i.IsNew = true) : countNew (i :: items) = countNew items + 1 := by
  simp [countNew, List.filter_cons, h]

theorem countNew_cons_old (i : PushChangeItem) (items : List PushChangeItem)
    (h : i.IsNew = false) : countNew (i :: items) = countNew items := by
  simp [countNew, List.filter_cons, h]

/-- A loop whose rounds mint one mapping per new item and none per other item answers
`mintedMappings`. -/
theorem foldlM_mints (env : Env) (table : String) (f : Tx → PushChangeItem → Except Tx Tx)
    (hnew : ∀ tx i tx', i.IsNew = true → f tx i = Except.ok tx' →
      tx'.idMappings = tx.idMappings ++
          [{ TableName := table, LocalID := i.LocalID, ServerID := env.uuid tx.uuids }]
        ∧ tx'.uuids = tx.uuids + 1)
    (hold : ∀ tx i tx', i.IsNew = false → f tx i = Except.ok tx' →
      tx'.idMappings = tx.idMappings ∧ tx'.uuids = tx.uuids)
    (items : List PushChangeItem) (tx tx' : Tx) (h : items.foldlM f tx = Except.ok tx') :
    tx'.idMappings = tx.idMappings ++ mintedMappings env table tx.uuids items
      ∧ tx'.uuids = tx.uuids + countNew items := by
  induction items generalizing tx with
  | nil =>
    have : tx = tx' := by
      have h2 : (Except.ok tx : Except Tx Tx) = Except.ok tx' := h
      exact Except.ok.inj h2
    subst this
    simp [mintedMappings_nil, countNew]
  | cons i items ih =>
    rw [List.foldlM_cons] at h
    cases hf : f tx i with
    | error e => rw [hf] at h; cases h
    | ok tx1 =>
      rw [hf] at h
      have h' : items.foldlM f tx1 = Except.ok tx' := h
      have hrec := ih tx1 h'
      cases hn : i.IsNew with
      | true =>
        have h1 := hnew tx i tx1 hn hf
        rw [hrec.1, hrec.2, h1.1, h1.2, mintedMappings_cons_new env table _ i items hn,
          countNew_cons_new i items hn]
        constructor
        · simp
        · omega
      | false =>
        have h1 := hold tx i tx1 hn hf
        rw [hrec.1, hrec.2, h1.1, h1.2, mintedMappings_cons_old env table _ i items hn,
          countNew_cons_old i items hn]
        exact ⟨rfl, rfl⟩

/-! ## The create branches of `Push` -/

theorem pushFolder_new (env : Env) (tx tx' : Tx) (item : PushFolderChangeItem)
    (hNew : item.IsNew = true) (h : pushFolder env tx item = Except.ok tx') :
    tx'.db = { tx.db with folders := tx.db.folders ++
        [{ ID := env.uuid tx.uuids
           Name := getString item.Data "name"
           DefaultLanguage := getString item.Data "defaultLanguage"
           ParentID := getStringPtr item.Data "parentId"
           IsOpen := getInt item.Data "isOpen"
           OrderIndex := getInt item.Data "orderIndex"
           Icon := getStringPtr item.Data "icon"
           CreatedAt := autoTime (env.now tx.ticks) (getInt64 item.Data "createdAt")
           UpdatedAt := autoTime (env.now tx.ticks) (getInt64 item.Data "updatedAt") }] }
    ∧ tx'.idMappings = tx.idMappings ++
        [{ TableName := "folders", LocalID := item.LocalID, ServerID := env.uuid tx.uuids }]
    ∧ tx'.uuids = tx.uuids + 1 := by
  unfold pushFolder DB.createFolder at h
  simp only [hNew, if_true] at h
  split at h
  · cases h
  · rename_i db hdb
    split at hdb
    · cases hdb
    · cases hdb
      cases h
      exact ⟨rfl, rfl, rfl⟩

theorem pushTag_new (env : Env) (tx tx' : Tx) (item : PushTagChangeItem)
    (hNew : item.IsNew = true) (h : pushTag env tx item = Except.ok tx') :
    tx'.db = { tx.db with tags := tx.db.tags ++
        [{ ID := env.uuid tx.uuids
           Name := getString item.Data "name"
           CreatedAt := autoTime (env.now tx.ticks) (getInt64 item.Data "createdAt")
           UpdatedAt := autoTime (env.now tx.ticks) (getInt64 item.Data "updatedAt") }] }
    ∧ tx'.idMappings = tx.idMappings ++
        [{ TableName := "tags", LocalID := item.LocalID, ServerID := env.uuid tx.uuids }]
    ∧ tx'.uuids = tx.uuids + 1 := by
  unfold pushTag DB.createTag at h
  simp only [hNew, if_true] at h
  split at h
  · cases h
  · rename_i db hdb
    split at hdb
    · cases hdb
    · cases hdb
      cases h
      exact ⟨rfl, rfl, rfl⟩

theorem pushSnippet_new (env : Env) (tx tx' : Tx) (item : PushSnippetChangeItem)
    (hNew : item.IsNew = true) (h : pushSnippet env tx item = Except.ok tx') :
    tx'.db = { tx.db with snippets := tx.db.snippets ++
        [{ ID := env.uuid tx.uuids
           Name := getString item.Data "name"
           Description := getStringPtr item.Data "description"
           FolderID := getStringPtr item.Data "folderId"
           IsDeleted := getInt item.Data "isDeleted"
           IsFavorites := getInt item.Data "isFavorites"
           CreatedAt := autoTime (env.now tx.ticks) (getInt64 item.Data "createdAt")
           UpdatedAt := autoTime (env.now tx.ticks) (getInt64 item.Data "updatedAt") }] }
    ∧ tx'.idMappings = tx.idMappings ++
        [{ TableName := "snippets", LocalID := item.LocalID, ServerID := env.uuid tx.uuids }]
    ∧ tx'.uuids = tx.uuids + 1 := by
  unfold pushSnippet DB.createSnippet at h
  simp only [hNew, if_true] at h
  split at h
  · cases h
  · rename_i db hdb
    split at hdb
    · cases hdb
    · cases hdb
      cases h
      exact ⟨rfl, rfl, rfl⟩

theorem pushSnippetContent_new (env : Env) (tx tx' : Tx) (item : PushSnippetContentChangeItem)
    (hNew : item.IsNew = true) (h : pushSnippetContent env tx item = Except.ok tx') :
    tx'.db = { tx.db with snippet_contents := tx.db.snippet_contents ++
        [{ ID := env.uuid tx.uuids
           SnippetID := getString item.Data "snippetId"
           Label := getStringPtr item.Data "label"
           Value := getStringPtr item.Data "value"
           Language := getStringPtr item.Data "language"
           CreatedAt := autoTime (env.now tx.ticks) (getInt64 item.Data "createdAt")
           UpdatedAt := autoTime (env.now tx.ticks) (getInt64 item.Data "updatedAt") }] }
    ∧ tx'.idMappings = tx.idMappings ++
        [{ TableName := "snippet_contents", LocalID := item.LocalID
           ServerID := env.uuid tx.uuids }]
    ∧ tx'.uuids = tx.uuids + 1 := by
  unfold pushSnippetContent DB.createSnippetContent at h
  simp only [hNew, if_true] at h
  split at h
  · cases h
  · rename_i db hdb
    split at hdb
    · cases hdb
    · cases hdb
      cases h
      exact ⟨rfl, rfl, rfl⟩

theorem foldl_pushSnippetTag (items : List PushSnippetTagItem) (tx : Tx) :
    (items.foldl pushSnippetTag tx).idMappings = tx.idMappings
      ∧ (items.foldl pushSnippetTag tx).uuids = tx.uuids := by
  induction items generalizing tx with
  | nil => exact ⟨rfl, rfl⟩
  | cons i items ih =>
    rw [List.foldl_cons]
    have h := ih (pushSnippetTag tx i)
    have h1 : (pushSnippetTag tx i).idMappings = tx.idMappings
        ∧ (pushSnippetTag tx i).uuids = tx.uuids := by
      unfold pushSnippetTag
      split <;> exact ⟨rfl, rfl⟩
    exact ⟨h.1.trans h1.1, h.2.trans h1.2⟩

theorem foldl_pushDeletion (env : Env) (dels : List SyncDeletionData) (tx : Tx) :
    (dels.foldl (pushDeletion env) tx).idMappings = tx.idMappings := by
  induction dels generalizing tx with
  | nil => rfl
  | cons d dels ih =>
    rw [List.foldl_cons, ih]
    rfl

/-- The mappings a committed transaction holds. -/
theorem pushItems_idMappings (env : Env) (req : PushRequest) (tx tx' : Tx)
    (h : pushItems env req tx = Except.ok tx') :
    tx'.idMappings = tx.idMappings
      ++ mintedMappings env "folders" tx.uuids req.Changes.Folders
      ++ mintedMappings env "tags" (tx.uuids + countNew req.Changes.Folders) req.Changes.Tags
      ++ mintedMappings env "snippets"
          (tx.uuids + countNew req.Changes.Folders + countNew req.Changes.Tags)
          req.Changes.Snippets
      ++ mintedMappings env "snippet_contents"
          (tx.uuids + countNew req.Changes.Folders + countNew req.Changes.Tags
            + countNew req.Changes.Snippets)
          req.Changes.SnippetContents := by
  unfold pushItems at h
  cases h1 : req.Changes.Folders.foldlM (pushFolder env) tx with
  | error e => rw [h1] at h; cases h
  | ok tx1 =>
  rw [h1] at h
  cases h2 : req.Changes.Tags.foldlM (pushTag env) tx1 with
  | error e => simp only [bind, Except.bind, h2] at h; cases h
  | ok tx2 =>
  simp only [bind, Except.bind, h2] at h
  cases h3 : req.Changes.Snippets.foldlM (pushSnippet env) tx2 with
  | error e => simp only [h3] at h; cases h
  | ok tx3 =>
  simp only [h3] at h
  cases h4 : req.Changes.SnippetContents.foldlM (pushSnippetContent env) tx3 with
  | error e => simp only [h4] at h; cases h
  | ok tx4 =>
  simp only [h4] at h
  have h5 : tx' = List.foldl (pushDeletion env)
      (List.foldl pushSnippetTag tx4 req.Changes.SnippetTags) req.Deletions :=
    (Except.ok.inj h).symm
  have m1 := foldlM_mints env "folders" (pushFolder env)
    (fun tx i tx' hn hf => (pushFolder_new env tx tx' i hn hf).2)
    (fun tx i tx' hn hf => by
      rw [pushFolder_update env tx i hn] at hf; cases hf; exact ⟨rfl, rfl⟩)
    _ tx tx1 h1
  have m2 := foldlM_mints env "tags" (pushTag env)
    (fun tx i tx' hn hf => (pushTag_new env tx tx' i hn hf).2)
    (fun tx i tx' hn hf => by
      rw [pushTag_update env tx i hn] at hf; cases hf; exact ⟨rfl, rfl⟩)
    _ tx1 tx2 h2
  have m3 := foldlM_mints env "snippets" (pushSnippet env)
    (fun tx i tx' hn hf => (pushSnippet_new env tx tx' i hn hf).2)
    (fun tx i tx' hn hf => by
      rw [pushSnippet_update env tx i hn] at hf; cases hf; exact ⟨rfl, rfl⟩)
    _ tx2 tx3 h3
  have m4 := foldlM_mints env "snippet_contents" (pushSnippetContent env)
    (fun tx i tx' hn hf => (pushSnippetContent_new env tx tx' i hn hf).2)
    (fun tx i tx' hn hf => by
      rw [pushSnippetContent_update env tx i hn] at hf; cases hf; exact ⟨rfl, rfl⟩)
    _ tx3 tx4 h4
  rw [h5, foldl_pushDeletion, (foldl_pushSnippetTag _ _).1, m4.1, m3.1, m2.1, m1.1,
    m3.2, m2.2, m1.2]

theorem mintedMappings_filter_same (env : Env) (table : String) (start : Nat)
    (items : List PushChangeItem) :
    (mintedMappings env table start items).filter (fun m => m.TableName == table)
      = mintedMappings env table start items := by
  rw [List.filter_eq_self]
  intro m hm
  simp only [mintedMappings, List.mem_map] at hm
  obtain ⟨p, _, rfl⟩ := hm
  simp

theorem mintedMappings_filter_other (env : Env) (table other : String) (start : Nat)
    (items : List PushChangeItem) (hne : other ≠ table) :
    (mintedMappings env other start items).filter (fun m => m.TableName == table) = [] := by
  rw [List.filter_eq_nil_iff]
  intro m hm
  simp only [mintedMappings, List.mem_map] at hm
  obtain ⟨p, _, rfl⟩ := hm
  simpa using hne

theorem mintedMappings_length (env : Env) (table : String) (start : Nat)
    (items : List PushChangeItem) :
    (mintedMappings env table start items).length = countNew items := by
  simp [mintedMappings, countNew]

theorem mintedMappings_localIDs (env : Env) (table : String) (start : Nat)
    (items : List PushChangeItem) :
    (mintedMappings env table start items).map (fun m => m.LocalID)
      = (items.filter (fun i => i.IsNew)).map (fun i => i.LocalID) := by
  induction items generalizing start with
  | nil => rfl
  | cons i items ih =>
    cases hn : i.IsNew with
    | true =>
      rw [mintedMappings_cons_new env table start i items hn]
      simp [List.filter_cons, hn, ih]
    | false =>
      rw [mintedMappings_cons_old env table start i items hn]
      simp [List.filter_cons, hn, ih]

theorem mintedMappings_serverIDs (env : Env) (table : String) (start : Nat)
    (items : List PushChangeItem) :
    (mintedMappings env table start items).map (fun m => m.ServerID)
      = (List.range' start (countNew items)).map env.uuid := by
  induction items generalizing start with
  | nil => rfl
  | cons i items ih =>
    cases hn : i.IsNew with
    | true =>
      rw [mintedMappings_cons_new env table start i items hn, countNew_cons_new i items hn,
        List.range'_succ]
      simp [ih]
    | false =>
      rw [mintedMappings_cons_old env table start i items hn, countNew_cons_old i items hn, ih]

theorem range'_add (s m n : Nat) :
    List.range' s (m + n) = List.range' s m ++ List.range' (s + m) n := by
  rw [List.range'_append_1, Nat.add_comm]

/-- The identities of the mappings of a push are consecutive values of the identity
source. -/
theorem minted_serverIDs_range (env : Env) (start : Nat) (F T S C : List PushChangeItem) :
    (mintedMappings env "folders" start F
      ++ mintedMappings env "tags" (start + countNew F) T
      ++ mintedMappings env "snippets" (start + countNew F + countNew T) S
      ++ mintedMappings env "snippet_contents" (start + countNew F + countNew T + countNew S)
          C).map (fun m => m.ServerID)
      = (List.range' start (countNew F + countNew T + countNew S + countNew C)).map
          env.uuid := by
  simp only [List.map_append, mintedMappings_serverIDs]
  rw [← List.map_append, ← List.map_append, ← List.map_append]
  congr 1
  rw [range'_add, range'_add, range'_add]
  simp only [Nat.add_assoc]

/-! ## The identities in the tables after a push without deletions -/

theorem lwwTable_map_key {α : Type} (key : α → String) (stamp : α → Int) (X : String)
    (t : Int) (g : α → α) (refused : Bool) (l : List α) (hk : ∀ x, key (g x) = key x) :
    (lwwTable key stamp X t g refused l).map key = l.map key := by
  rcases lwwTable_cases key stamp X t g refused l with h | h
  · rw [h]
  · rw [h, setWhere, List.map_map]
    apply List.map_congr_left
    intro x _
    by_cases hx : key x = X <;> simp [hx, hk]

/-- A loop whose rounds insert one row under the drawn identity per new item, and keep
the identities of `own` and all of `oth` otherwise, extends `own` by the identities of
`mintedMappings`. -/
theorem foldlM_grows {β : Type} (env : Env) (table : String)
    (f : Tx → PushChangeItem → Except Tx Tx) (own : DB → List String) (oth : DB → β)
    (hnew : ∀ tx i tx', i.IsNew = true → f tx i = Except.ok tx' →
      own tx'.db = own tx.db ++ [env.uuid tx.uuids] ∧ oth tx'.db = oth tx.db
        ∧ tx'.uuids = tx.uuids + 1)
    (hold : ∀ tx i tx', i.IsNew = false → f tx i = Except.ok tx' →
      own tx'.db = own tx.db ∧ oth tx'.db = oth tx.db ∧ tx'.uuids = tx.uuids)
    (items : List PushChangeItem) (tx tx' : Tx) (h : items.foldlM f tx = Except.ok tx') :
    own tx'.db
        = own tx.db ++ (mintedMappings env table tx.uuids items).map (fun m => m.ServerID)
      ∧ oth tx'.db = oth tx.db := by
  induction items generalizing tx with
  | nil =>
    have : tx = tx' := by
      have h2 : (Except.ok tx : Except Tx Tx) = Except.ok tx' := h
      exact Except.ok.inj h2
    subst this
    simp [mintedMappings_nil]
  | cons i items ih =>
    rw [List.foldlM_cons] at h
    cases hf : f tx i with
    | error e => rw [hf] at h; cases h
    | ok tx1 =>
      rw [hf] at h
      have h' : items.foldlM f tx1 = Except.ok tx' := h
      have hrec := ih tx1 h'
      cases hn : i.IsNew with
      | true =>
        have h1 := hnew tx i tx1 hn hf
        rw [hrec.1, hrec.2, h1.1, h1.2.1, h1.2.2,
          mintedMappings_cons_new env table _ i items hn]
        simp
      | false =>
        have h1 := hold tx i tx1 hn hf
        rw [hrec.1, hrec.2, h1.1, h1.2.1, h1.2.2,
          mintedMappings_cons_old env table _ i items hn]
        exact ⟨rfl, rfl⟩

theorem pushFolder_old_frame (env : Env) (tx tx' : Tx) (i : PushChangeItem)
    (hn : i.IsNew = false) (hf : pushFolder env tx i = Except.ok tx') :
    tx'.db.folders.map Folder.ID = tx.db.folders.map Folder.ID
      ∧ (tx'.db.tags, tx'.db.snippets, tx'.db.snippet_contents)
          = (tx.db.tags, tx.db.snippets, tx.db.snippet_contents)
      ∧ tx'.uuids = tx.uuids := by
  rw [pushFolder_update env tx i hn] at hf
  cases hf
  unfold updateFolders
  cases i.ServerID with
  | none => exact ⟨rfl, rfl, rfl⟩
  | some X => exact ⟨lwwTable_map_key _ _ _ _ _ _ _ (fun _ => rfl), rfl, rfl⟩

theorem pushTag_old_frame (env : Env) (tx tx' : Tx) (i : PushChangeItem)
    (hn : i.IsNew = false) (hf : pushTag env tx i = Except.ok tx') :
    tx'.db.tags.map Tag.ID = tx.db.tags.map Tag.ID
      ∧ (tx'.db.folders, tx'.db.snippets, tx'.db.snippet_contents)
          = (tx.db.folders, tx.db.snippets, tx.db.snippet_contents)
      ∧ tx'.uuids = tx.uuids := by
  rw [pushTag_update env tx i hn] at hf
  cases hf
  unfold updateTags
  cases i.ServerID with
  | none => exact ⟨rfl, rfl, rfl⟩
  | some X => exact ⟨lwwTable_map_key _ _ _ _ _ _ _ (fun _ => rfl), rfl, rfl⟩

theorem pushSnippet_old_frame (env : Env) (tx tx' : Tx) (i : PushChangeItem)
    (hn : i.IsNew = false) (hf : pushSnippet env tx i = Except.ok tx') :
    tx'.db.snippets.map Snippet.ID = tx.db.snippets.map Snippet.ID
      ∧ (tx'.db.folders, tx'.db.tags, tx'.db.snippet_contents)
          = (tx.db.folders, tx.db.tags, tx.db.snippet_contents)
      ∧ tx'.uuids = tx.uuids := by
  rw [pushSnippet_update env tx i hn] at hf
  cases hf
  unfold updateSnippets
  cases i.ServerID with
  | none => exact ⟨rfl, rfl, rfl⟩
  | some X => exact ⟨lwwTable_map_key _ _ _ _ _ _ _ (fun _ => rfl), rfl, rfl⟩

theorem pushSnippetContent_old_frame (env : Env) (tx tx' : Tx) (i : PushChangeItem)
    (hn : i.IsNew = false) (hf : pushSnippetContent env tx i = Except.ok tx') :
    tx'.db.snippet_contents.map SnippetContent.ID
        = tx.db.snippet_contents.map SnippetContent.ID
      ∧ (tx'.db.folders, tx'.db.tags, tx'.db.snippets)
          = (tx.db.folders, tx.db.tags, tx.db.snippets)
      ∧ tx'.uuids = tx.uuids := by
  rw [pushSnippetContent_update env tx i hn] at hf
  cases hf
  unfold updateSnippetContents
  cases i.ServerID with
  | none => exact ⟨rfl, rfl, rfl⟩
  | some X => exact ⟨lwwTable_map_key _ _ _ _ _ _ _ (fun _ => rfl), rfl, rfl⟩

theorem insertIgnoreSnippetTag_eq (db : DB) (st : SnippetTag) :
    db.insertIgnoreSnippetTag st
      = { db with snippet_tags := (db.insertIgnoreSnippetTag st).snippet_tags } := by
  unfold DB.insertIgnoreSnippetTag
  split <;> rfl

theorem pushSnippetTag_frame (tx : Tx) (i : PushSnippetTagItem) :
    (pushSnippetTag tx i).db.folders = tx.db.folders
      ∧ (pushSnippetTag tx i).db.tags = tx.db.tags
      ∧ (pushSnippetTag tx i).db.snippets = tx.db.snippets
      ∧ (pushSnippetTag tx i).db.snippet_contents = tx.db.snippet_contents := by
  unfold pushSnippetTag
  split
  · simp only
    rw [insertIgnoreSnippetTag_eq]
    exact ⟨rfl, rfl, rfl, rfl⟩
  · exact ⟨rfl, rfl, rfl, rfl⟩

theorem foldl_pushSnippetTag_frame (items : List PushSnippetTagItem) (tx : Tx) :
    (items.foldl pushSnippetTag tx).db.folders = tx.db.folders
      ∧ (items.foldl pushSnippetTag tx).db.tags = tx.db.tags
      ∧ (items.foldl pushSnippetTag tx).db.snippets = tx.db.snippets
      ∧ (items.foldl pushSnippetTag tx).db.snippet_contents = tx.db.snippet_contents := by
  induction items generalizing tx with
  | nil => exact ⟨rfl, rfl, rfl, rfl⟩
  | cons i items ih =>
    rw [List.foldl_cons]
    have h := ih (pushSnippetTag tx i)
    have h1 := pushSnippetTag_frame tx i
    exact ⟨h.1.trans h1.1, h.2.1.trans h1.2.1, h.2.2.1.trans h1.2.2.1,
      h.2.2.2.trans h1.2.2.2⟩

/-- The identities in the four entity tables when a transaction without deletion items
is committed. -/
theorem pushItems_identities (env : Env) (req : PushRequest) (tx tx' : Tx)
    (hdel : req.Deletions = []) (h : pushItems env req tx = Except.ok tx') :
    tx'.db.folders.map Folder.ID = tx.db.folders.map Folder.ID
        ++ (mintedMappings env "folders" tx.uuids req.Changes.Folders).map
            (fun m => m.ServerID)
    ∧ tx'.db.tags.map Tag.ID = tx.db.tags.map Tag.ID
        ++ (mintedMappings env "tags" (tx.uuids + countNew req.Changes.Folders)
            req.Changes.Tags).map (fun m => m.ServerID)
    ∧ tx'.db.snippets.map Snippet.ID = tx.db.snippets.map Snippet.ID
        ++ (mintedMappings env "snippets"
            (tx.uuids + countNew req.Changes.Folders + countNew req.Changes.Tags)
            req.Changes.Snippets).map (fun m => m.ServerID)
    ∧ tx'.db.snippet_contents.map SnippetContent.ID
        = tx.db.snippet_contents.map SnippetContent.ID
        ++ (mintedMappings env "snippet_contents"
            (tx.uuids + countNew req.Changes.Folders + countNew req.Changes.Tags
              + countNew req.Changes.Snippets)
            req.Changes.SnippetContents).map (fun m => m.ServerID) := by
  unfold pushItems at h
  cases h1 : req.Changes.Folders.foldlM (pushFolder env) tx with
  | error e => rw [h1] at h; cases h
  | ok tx1 =>
  rw [h1] at h
  cases h2 : req.Changes.Tags.foldlM (pushTag env) tx1 with
  | error e => simp only [bind, Except.bind, h2] at h; cases h
  | ok tx2 =>
  simp only [bind, Except.bind, h2] at h
  cases h3 : req.Changes.Snippets.foldlM (pushSnippet env) tx2 with
  | error e => simp only [h3] at h; cases h
  | ok tx3 =>
  simp only [h3] at h
  cases h4 : req.Changes.SnippetContents.foldlM (pushSnippetContent env) tx3 with
  | error e => simp only [h4] at h; cases h
  | ok tx4 =>
  simp only [h4, hdel, List.foldl_nil] at h
  have h5 : tx' = List.foldl pushSnippetTag tx4 req.Changes.SnippetTags :=
    (Except.ok.inj h).symm
  have u1 := (foldlM_mints env "folders" (pushFolder env)
    (fun tx i tx' hn hf => (pushFolder_new env tx tx' i hn hf).2)
    (fun tx i tx' hn hf => by
      rw [pushFolder_update env tx i hn] at hf; cases hf; exact ⟨rfl, rfl⟩)
    _ tx tx1 h1).2
  have u2 := (foldlM_mints env "tags" (pushTag env)
    (fun tx i tx' hn hf => (pushTag_new env tx tx' i hn hf).2)
    (fun tx i tx' hn hf => by
      rw [pushTag_update env tx i hn] at hf; cases hf; exact ⟨rfl, rfl⟩)
    _ tx1 tx2 h2).2
  have u3 := (foldlM_mints env "snippets" (pushSnippet env)
    (fun tx i tx' hn hf => (pushSnippet_new env tx tx' i hn hf).2)
    (fun tx i tx' hn hf => by
      rw [pushSnippet_update env tx i hn] at hf; cases hf; exact ⟨rfl, rfl⟩)
    _ tx2 tx3 h3).2
  have g1 := foldlM_grows env "folders" (pushFolder env)
    (fun db => db.folders.map Folder.ID)
    (fun db => (db.tags, db.snippets, db.snippet_contents))
    (fun tx i tx' hn hf => by
      have hx := pushFolder_new env tx tx' i hn hf
      rw [hx.1]; exact ⟨by simp, rfl, hx.2.2⟩)
    (fun tx i tx' hn hf => pushFolder_old_frame env tx tx' i hn hf) _ tx tx1 h1
  have g2 := foldlM_grows env "tags" (pushTag env)
    (fun db => db.tags.map Tag.ID)
    (fun db => (db.folders, db.snippets, db.snippet_contents))
    (fun tx i tx' hn hf => by
      have hx := pushTag_new env tx tx' i hn hf
      rw [hx.1]; exact ⟨by simp, rfl, hx.2.2⟩)
    (fun tx i tx' hn hf => pushTag_old_frame env tx tx' i hn hf) _ tx1 tx2 h2
  have g3 := foldlM_grows env "snippets" (pushSnippet env)
    (fun db => db.snippets.map Snippet.ID)
    (fun db => (db.folders, db.tags, db.snippet_contents))
    (fun tx i tx' hn hf => by
      have hx := pushSnippet_new env tx tx' i hn hf
      rw [hx.1]; exact ⟨by simp, rfl, hx.2.2⟩)
    (fun tx i tx' hn hf => pushSnippet_old_frame env tx tx' i hn hf) _ tx2 tx3 h3
  have g4 := foldlM_grows env "snippet_contents" (pushSnippetContent env)
    (fun db => db.snippet_contents.map SnippetContent.ID)
    (fun db => (db.folders, db.tags, db.snippets))
    (fun tx i tx' hn hf => by
      have hx := pushSnippetContent_new env tx tx' i hn hf
      rw [hx.1]; exact ⟨by simp, rfl, hx.2.2⟩)
    (fun tx i tx' hn hf => pushSnippetContent_old_frame env tx tx' i hn hf) _ tx3 tx4 h4
  have f5 := foldl_pushSnippetTag_frame req.Changes.SnippetTags tx4
  simp only [Prod.mk.injEq] at g1 g2 g3 g4
  rw [h5, f5.1, f5.2.1, f5.2.2.1, f5.2.2.2]
  refine ⟨?_, ?_, ?_, ?_⟩
  · rw [g4.2.1, g3.2.1, g2.2.1, g1.1]
  · rw [g4.2.2.1, g3.2.2.1, g2.1, g1.2.1, u1]
  · rw [g4.2.2.2, g3.1, g2.2.2.1, g1.2.2.1, u2, u1]
  · rw [g4.1, g3.2.2.2, g2.2.2.2, g1.2.2.2, u3, u2, u1]

/-! ## C1, C2: last write wins on one update item -/

/-- C1 (amended): when a push holds one update item for `X` and the row loaded for `X` has
a stamp strictly below the incoming `updatedAt`, then after the push the rows with
identity `X` carry every mutable field and the `updatedAt` of the item while their
identity and `createdAt`, every other row and every other table are as before; for
tags this is stated when no other tag carries a name that the store, under the
collation of the column, takes for the incoming name. -/
theorem push_update_newer_overwrites (env : Env) (s : Server) (X : String)
    (item : PushChangeItem) (hNew : item.IsNew = false) (hId : item.ServerID = some X) :
    (∀ e : Folder, s.db.folders.find? (fun x => x.ID == X) = some e →
      e.UpdatedAt < getInt64 item.Data "updatedAt" →
      (Push env s (foldersRequest [item])).1.db
        = { s.db with folders :=
              s.db.folders.map (fun x => if x.ID = X then x.overwrite item.Data else x) })
    ∧ (∀ e : Tag, s.db.tags.find? (fun x => x.ID == X) = some e →
      e.UpdatedAt < getInt64 item.Data "updatedAt" →
      (∀ y ∈ s.db.tags, y.ID ≠ X →
        env.sameName y.Name (getString item.Data "name") = false) →
      (Push env s (tagsRequest [item])).1.db
        = { s.db with tags :=
              s.db.tags.map (fun x => if x.ID = X then x.overwrite item.Data else x) })
    ∧ (∀ e : Snippet, s.db.snippets.find? (fun x => x.ID == X) = some e →
      e.UpdatedAt < getInt64 item.Data "updatedAt" →
      (Push env s (snippetsRequest [item])).1.db
        = { s.db with snippets :=
              s.db.snippets.map (fun x => if x.ID = X then x.overwrite item.Data else x) })
    ∧ (∀ e : SnippetContent, s.db.snippet_contents.find? (fun x => x.ID == X) = some e →
      e.UpdatedAt < getInt64 item.Data "updatedAt" →
      (Push env s (snippetContentsRequest [item])).1.db
        = { s.db with snippet_contents := (s.db.snippet_contents.map
              (fun x => if x.ID = X then x.overwrite item.Data else x)) }) := by
  have h1 : ∀ i ∈ [item], i.IsNew = false := by simp [hNew]
  refine ⟨?_, ?_, ?_, ?_⟩
  · intro e he ht
    rw [Push_folder_updates env s [item] h1]
    simp [updateFolders, hId, lwwTable_newer _ _ _ _ _ _ e he ht, setWhere]
  · intro e he ht hfree
    have hn : nameTaken env.sameName X (getString item.Data "name") s.db.tags = false :=
      nameTaken_eq_false env.sameName X _ s.db.tags hfree
    rw [Push_tag_updates env s [item] h1]
    simp [updateTags, hId, hn, lwwTable_newer _ _ _ _ _ _ e he ht, setWhere]
  · intro e he ht
    rw [Push_snippet_updates env s [item] h1]
    simp [updateSnippets, hId, lwwTable_newer _ _ _ _ _ _ e he ht, setWhere]
  · intro e he ht
    rw [Push_snippetContent_updates env s [item] h1]
    simp [updateSnippetContents, hId, lwwTable_newer _ _ _ _ _ _ e he ht, setWhere]

/-- Witness of C1: a newer update of each kind pushed to the sample store. -/
theorem push_update_newer_overwrites_witness :
    (Push sampleEnv sampleServer (foldersRequest [renameItem "f1" "Home" 30])).1.db.folders
        = [{ sampleFolder with
             Name := "Home", DefaultLanguage := "", IsOpen := 0, UpdatedAt := 30 }]
    ∧ (Push sampleEnv sampleServer (tagsRequest [renameItem "t1" "golang" 30])).1.db.tags
        = [{ sampleTag with Name := "golang", UpdatedAt := 30 }, otherTag]
    ∧ (Push sampleEnv sampleServer (snippetsRequest [renameItem "s1" "hi" 30])).1.db.snippets
        = [{ sampleSnippet with Name := "hi", FolderID := none, UpdatedAt := 30 }, otherSnippet]
    ∧ (Push sampleEnv sampleServer
          (snippetContentsRequest [renameItem "c1" "x" 30])).1.db.snippet_contents
        = [{ sampleContent with
             SnippetID := "", Label := none, Value := none, Language := none, UpdatedAt := 30 },
           otherContent] := by
  refine ⟨?_, ?_, ?_, ?_⟩
  · rw [(push_update_newer_overwrites sampleEnv sampleServer "f1" (renameItem "f1" "Home" 30)
      rfl rfl).1 sampleFolder (by decide) (by decide)]
    decide
  · rw [(push_update_newer_overwrites sampleEnv sampleServer "t1" (renameItem "t1" "golang" 30)
      rfl rfl).2.1 sampleTag (by decide) (by decide) (by decide)]
    decide
  · rw [(push_update_newer_overwrites sampleEnv sampleServer "s1" (renameItem "s1" "hi" 30)
      rfl rfl).2.2.1 sampleSnippet (by decide) (by decide)]
    decide
  · rw [(push_update_newer_overwrites sampleEnv sampleServer "c1" (renameItem "c1" "x" 30)
      rfl rfl).2.2.2 sampleContent (by decide) (by decide)]
    decide

/-- Counterexample to C1 as stated: tag `t1` is stored with stamp 20 and an update item
for it carries the stamp 30 and the name of tag `t2`, letter for letter; after the push,
which answers 200, tag `t1` has neither the incoming name nor the incoming stamp. -/
theorem push_update_tag_name_taken :
    sampleServer.db.tags.find? (fun x => x.ID == "t1") = some sampleTag
    ∧ sampleTag.UpdatedAt < getInt64 (renameItem "t1" "rust" 30).Data "updatedAt"
    ∧ (Push sampleEnv sampleServer (tagsRequest [renameItem "t1" "rust" 30])).1.db.tags
        = [sampleTag, otherTag]
    ∧ sampleTag.Name ≠ getString (renameItem "t1" "rust" 30).Data "name"
    ∧ (Push sampleEnv sampleServer (tagsRequest [renameItem "t1" "rust" 30])).2
        = PushReply.OK { ServerTime := 1700000000000, IDMappings := [] } := by
  decide

/-- Under the sample collation a name that differs from a stored one by the case of its
letters is taken as well: the update that renames tag `t1` to `RUST` is refused as the
one that renames it to `rust` is, and a new tag named `Rust` is answered 500. -/
theorem case_variant_name_taken :
    sampleEnv.sameName otherTag.Name "RUST" = true
    ∧ sampleDB.updateTag sampleEnv.sameName "t1" "RUST" 30 = none
    ∧ (Push sampleEnv sampleServer (tagsRequest [renameItem "t1" "RUST" 30])).1.db.tags
        = [sampleTag, otherTag]
    ∧ (Push sampleEnv sampleServer (tagsRequest [renameItem "t1" "RUST" 30])).2
        = PushReply.OK { ServerTime := 1700000000000, IDMappings := [] }
    ∧ (Push sampleEnv sampleServer (tagsRequest [newItem 9 "Rust" 50])).2
        = PushReply.InternalServerError
    ∧ (Push sampleEnv sampleServer (tagsRequest [newItem 9 "Rust" 50])).1.db = sampleDB := by
  decide

/-- C2: a push of one update item for `X` whose `updatedAt` is at most the stamp of the
row loaded for `X` answers 200 with no identity mapping and leaves the whole database
as it was, for each of the four kinds. -/
theorem push_update_stale_discarded (env : Env) (s : Server) (X : String)
    (item : PushChangeItem) (hNew : item.IsNew = false) (hId : item.ServerID = some X) :
    (∀ e : Folder, s.db.folders.find? (fun x => x.ID == X) = some e →
      getInt64 item.Data "updatedAt" ≤ e.UpdatedAt →
      (Push env s (foldersRequest [item])).1.db = s.db
      ∧ (Push env s (foldersRequest [item])).2
          = PushReply.OK { ServerTime := env.now s.ticks, IDMappings := [] })
    ∧ (∀ e : Tag, s.db.tags.find? (fun x => x.ID == X) = some e →
      getInt64 item.Data "updatedAt" ≤ e.UpdatedAt →
      (Push env s (tagsRequest [item])).1.db = s.db
      ∧ (Push env s (tagsRequest [item])).2
          = PushReply.OK { ServerTime := env.now s.ticks, IDMappings := [] })
    ∧ (∀ e : Snippet, s.db.snippets.find? (fun x => x.ID == X) = some e →
      getInt64 item.Data "updatedAt" ≤ e.UpdatedAt →
      (Push env s (snippetsRequest [item])).1.db = s.db
      ∧ (Push env s (snippetsRequest [item])).2
          = PushReply.OK { ServerTime := env.now s.ticks, IDMappings := [] })
    ∧ (∀ e : SnippetContent, s.db.snippet_contents.find? (fun x => x.ID == X) = some e →
      getInt64 item.Data "updatedAt" ≤ e.UpdatedAt →
      (Push env s (snippetContentsRequest [item])).1.db = s.db
      ∧ (Push env s (snippetContentsRequest [item])).2
          = PushReply.OK { ServerTime := env.now s.ticks, IDMappings := [] }) := by
  have h1 : ∀ i ∈ [item], i.IsNew = false := by simp [hNew]
  refine ⟨?_, ?_, ?_, ?_⟩
  · intro e he ht
    rw [Push_folder_updates env s [item] h1]
    simp [updateFolders, hId, lwwTable_stale _ _ _ _ _ _ _ e he ht]
  · intro e he ht
    rw [Push_tag_updates env s [item] h1]
    simp [updateTags, hId, lwwTable_stale _ _ _ _ _ _ _ e he ht]
  · intro e he ht
    rw [Push_snippet_updates env s [item] h1]
    simp [updateSnippets, hId, lwwTable_stale _ _ _ _ _ _ _ e he ht]
  · intro e he ht
    rw [Push_snippetContent_updates env s [item] h1]
    simp [updateSnippetContents, hId, lwwTable_stale _ _ _ _ _ _ _ e he ht]

/-- Witness of C2: a tied update of the sample folder and an older update of the sample
tag, snippet and snippet content. -/
theorem push_update_stale_discarded_witness :
    (Push sampleEnv sampleServer (foldersRequest [renameItem "f1" "Home" 20])).1.db = sampleDB
    ∧ (Push sampleEnv sampleServer (tagsRequest [renameItem "t1" "golang" 19])).1.db = sampleDB
    ∧ (Push sampleEnv sampleServer (snippetsRequest [renameItem "s1" "hi" 5])).1.db = sampleDB
    ∧ (Push sampleEnv sampleServer (snippetContentsRequest [renameItem "c1" "x" 0])).1.db
        = sampleDB :=
  ⟨((push_update_stale_discarded sampleEnv sampleServer "f1" (renameItem "f1" "Home" 20)
      rfl rfl).1 sampleFolder (by decide) (by decide)).1,
   ((push_update_stale_discarded sampleEnv sampleServer "t1" (renameItem "t1" "golang" 19)
      rfl rfl).2.1 sampleTag (by decide) (by decide)).1,
   ((push_update_stale_discarded sampleEnv sampleServer "s1" (renameItem "s1" "hi" 5)
      rfl rfl).2.2.1 sampleSnippet (by decide) (by decide)).1,
   ((push_update_stale_discarded sampleEnv sampleServer "c1" (renameItem "c1" "x" 0)
      rfl rfl).2.2.2 sampleContent (by decide) (by decide)).1⟩

/-! ## C3: no resurrection -/

/-- C3: for each of the four kinds, after a push of the deletion item `(T, X, deletedAt)`
no row of `T` has identity `X`, and a later push of an update item of that kind for `X`,
whatever its data, leaves the database as the deletion left it; and an update item
whose `serverId` matches no stored row of its kind changes nothing and maps nothing. -/
theorem no_resurrection (env : Env) (s : Server) (X : String) (deletedAt : Int)
    (item : PushChangeItem) (hNew : item.IsNew = false) (hId : item.ServerID = some X) :
    ((∀ x ∈ (Push env s (deletionsRequest [⟨"folders", X, deletedAt⟩])).1.db.folders, x.ID ≠ X)
      ∧ (Push env (Push env s (deletionsRequest [⟨"folders", X, deletedAt⟩])).1
            (foldersRequest [item])).1.db
          = (Push env s (deletionsRequest [⟨"folders", X, deletedAt⟩])).1.db)
    ∧ ((∀ x ∈ (Push env s (deletionsRequest [⟨"tags", X, deletedAt⟩])).1.db.tags, x.ID ≠ X)
      ∧ (Push env (Push env s (deletionsRequest [⟨"tags", X, deletedAt⟩])).1
            (tagsRequest [item])).1.db
          = (Push env s (deletionsRequest [⟨"tags", X, deletedAt⟩])).1.db)
    ∧ ((∀ x ∈ (Push env s (deletionsRequest [⟨"snippets", X, deletedAt⟩])).1.db.snippets,
          x.ID ≠ X)
      ∧ (Push env (Push env s (deletionsRequest [⟨"snippets", X, deletedAt⟩])).1
            (snippetsRequest [item])).1.db
          = (Push env s (deletionsRequest [⟨"snippets", X, deletedAt⟩])).1.db)
    ∧ ((∀ x ∈ (Push env s
          (deletionsRequest [⟨"snippet_contents", X, deletedAt⟩])).1.db.snippet_contents,
          x.ID ≠ X)
      ∧ (Push env (Push env s (deletionsRequest [⟨"snippet_contents", X, deletedAt⟩])).1
            (snippetContentsRequest [item])).1.db
          = (Push env s (deletionsRequest [⟨"snippet_contents", X, deletedAt⟩])).1.db)
    ∧ ((∀ x ∈ s.db.folders, x.ID ≠ X) →
        Push env s (foldersRequest [item])
          = ({ s with ticks := s.ticks + 1 },
             PushReply.OK { ServerTime := env.now s.ticks, IDMappings := [] }))
    ∧ ((∀ x ∈ s.db.tags, x.ID ≠ X) →
        Push env s (tagsRequest [item])
          = ({ s with ticks := s.ticks + 1 },
             PushReply.OK { ServerTime := env.now s.ticks, IDMappings := [] }))
    ∧ ((∀ x ∈ s.db.snippets, x.ID ≠ X) →
        Push env s (snippetsRequest [item])
          = ({ s with ticks := s.ticks + 1 },
             PushReply.OK { ServerTime := env.now s.ticks, IDMappings := [] }))
    ∧ ((∀ x ∈ s.db.snippet_contents, x.ID ≠ X) →
        Push env s (snippetContentsRequest [item])
          = ({ s with ticks := s.ticks + 1 },
             PushReply.OK { ServerTime := env.now s.ticks, IDMappings := [] })) := by
  have h1 : ∀ i ∈ [item], i.IsNew = false := by simp [hNew]
  refine ⟨⟨?_, ?_⟩, ⟨?_, ?_⟩, ⟨?_, ?_⟩, ⟨?_, ?_⟩, ?_, ?_, ?_, ?_⟩
  · rw [Push_deletion]
    simp only [insertIgnoreSyncDeletion_folders]
    exact mem_filter_ne Folder.ID X s.db.folders
  · rw [Push_folder_updates _ _ _ h1, Push_deletion]
    simp only [List.foldl_cons, List.foldl_nil]
    apply updateFolders_missing item X _ hId
    rw [insertIgnoreSyncDeletion_folders]
    exact find?_filter_ne Folder.ID X s.db.folders
  · rw [Push_deletion]
    simp only [insertIgnoreSyncDeletion_tags]
    exact mem_filter_ne Tag.ID X s.db.tags
  · rw [Push_tag_updates _ _ _ h1, Push_deletion]
    simp only [List.foldl_cons, List.foldl_nil]
    apply updateTags_missing env item X _ hId
    rw [insertIgnoreSyncDeletion_tags]
    exact find?_filter_ne Tag.ID X s.db.tags
  · rw [Push_deletion]
    simp only [insertIgnoreSyncDeletion_snippets]
    exact mem_filter_ne Snippet.ID X s.db.snippets
  · rw [Push_snippet_updates _ _ _ h1, Push_deletion]
    simp only [List.foldl_cons, List.foldl_nil]
    apply updateSnippets_missing item X _ hId
    rw [insertIgnoreSyncDeletion_snippets]
    exact find?_filter_ne Snippet.ID X s.db.snippets
  · rw [Push_deletion]
    simp only [insertIgnoreSyncDeletion_snippet_contents]
    exact mem_filter_ne SnippetContent.ID X s.db.snippet_contents
  · rw [Push_snippetContent_updates _ _ _ h1, Push_deletion]
    simp only [List.foldl_cons, List.foldl_nil]
    apply updateSnippetContents_missing item X _ hId
    rw [insertIgnoreSyncDeletion_snippet_contents]
    exact find?_filter_ne SnippetContent.ID X s.db.snippet_contents
  · intro h
    have hf : s.db.folders.find? (fun x => x.ID == X) = none := by
      rw [List.find?_eq_none]; intro x hx; simpa using h x hx
    rw [Push_folder_updates _ _ _ h1]
    simp [updateFolders_missing item X _ hId hf]
  · intro h
    have hf : s.db.tags.find? (fun x => x.ID == X) = none := by
      rw [List.find?_eq_none]; intro x hx; simpa using h x hx
    rw [Push_tag_updates _ _ _ h1]
    simp [updateTags_missing env item X _ hId hf]
  · intro h
    have hf : s.db.snippets.find? (fun x => x.ID == X) = none := by
      rw [List.find?_eq_none]; intro x hx; simpa using h x hx
    rw [Push_snippet_updates _ _ _ h1]
    simp [updateSnippets_missing item X _ hId hf]
  · intro h
    have hf : s.db.snippet_contents.find? (fun x => x.ID == X) = none := by
      rw [List.find?_eq_none]; intro x hx; simpa using h x hx
    rw [Push_snippetContent_updates _ _ _ h1]
    simp [updateSnippetContents_missing item X _ hId hf]

/-- Witness of C3: the sample folder is deleted and then updated with a later stamp; and
an update for an identity that was never stored. -/
theorem no_resurrection_witness :
    (Push sampleEnv (Push sampleEnv sampleServer (deletionsRequest [⟨"folders", "f1", 40⟩])).1
        (foldersRequest [renameItem "f1" "Home" 50])).1.db
      = (Push sampleEnv sampleServer (deletionsRequest [⟨"folders", "f1", 40⟩])).1.db
    ∧ (Push sampleEnv (Push sampleEnv sampleServer (deletionsRequest [⟨"folders", "f1", 40⟩])).1
        (foldersRequest [renameItem "f1" "Home" 50])).1.db.folders = []
    ∧ Push sampleEnv sampleServer (tagsRequest [renameItem "t9" "perl" 50])
      = ({ sampleServer with ticks := 1 },
         PushReply.OK { ServerTime := 1700000000000, IDMappings := [] }) :=
  ⟨(no_resurrection sampleEnv sampleServer "f1" 40 (renameItem "f1" "Home" 50) rfl rfl).1.2,
   by decide,
   (no_resurrection sampleEnv sampleServer "t9" 40 (renameItem "t9" "perl" 50)
      rfl rfl).2.2.2.2.2.1 (by decide)⟩

/-! ## C4: idempotence of updates -/

/-- C4: for every store state and every update item of any of the four kinds, pushing
the item twice, in one push or in two pushes in a row, leaves the database that pushing
it once leaves. -/
theorem update_idempotent (env : Env) (s : Server) (item : PushChangeItem)
    (hNew : item.IsNew = false) :
    ((Push env s (foldersRequest [item, item])).1.db
        = (Push env s (foldersRequest [item])).1.db
      ∧ (Push env (Push env s (foldersRequest [item])).1 (foldersRequest [item])).1.db
        = (Push env s (foldersRequest [item])).1.db)
    ∧ ((Push env s (tagsRequest [item, item])).1.db
        = (Push env s (tagsRequest [item])).1.db
      ∧ (Push env (Push env s (tagsRequest [item])).1 (tagsRequest [item])).1.db
        = (Push env s (tagsRequest [item])).1.db)
    ∧ ((Push env s (snippetsRequest [item, item])).1.db
        = (Push env s (snippetsRequest [item])).1.db
      ∧ (Push env (Push env s (snippetsRequest [item])).1 (snippetsRequest [item])).1.db
        = (Push env s (snippetsRequest [item])).1.db)
    ∧ ((Push env s (snippetContentsRequest [item, item])).1.db
        = (Push env s (snippetContentsRequest [item])).1.db
      ∧ (Push env (Push env s (snippetContentsRequest [item])).1
            (snippetContentsRequest [item])).1.db
        = (Push env s (snippetContentsRequest [item])).1.db) := by
  have h1 : ∀ i ∈ [item], i.IsNew = false := by simp [hNew]
  have h2 : ∀ i ∈ [item, item], i.IsNew = false := by simp [hNew]
  refine ⟨⟨?_, ?_⟩, ⟨?_, ?_⟩, ⟨?_, ?_⟩, ⟨?_, ?_⟩⟩
  · simp only [Push_folder_updates _ _ _ h1, Push_folder_updates _ _ _ h2, List.foldl_cons,
      List.foldl_nil, updateFolders_idem]
  · simp only [Push_folder_updates _ _ _ h1, List.foldl_cons, List.foldl_nil,
      updateFolders_idem]
  · simp only [Push_tag_updates _ _ _ h1, Push_tag_updates _ _ _ h2, List.foldl_cons,
      List.foldl_nil, updateTags_idem]
  · simp only [Push_tag_updates _ _ _ h1, List.foldl_cons, List.foldl_nil, updateTags_idem]
  · simp only [Push_snippet_updates _ _ _ h1, Push_snippet_updates _ _ _ h2, List.foldl_cons,
      List.foldl_nil, updateSnippets_idem]
  · simp only [Push_snippet_updates _ _ _ h1, List.foldl_cons, List.foldl_nil,
      updateSnippets_idem]
  · simp only [Push_snippetContent_updates _ _ _ h1, Push_snippetContent_updates _ _ _ h2,
      List.foldl_cons, List.foldl_nil, updateSnippetContents_idem]
  · simp only [Push_snippetContent_updates _ _ _ h1, List.foldl_cons, List.foldl_nil,
      updateSnippetContents_idem]

/-- Witness of C4: a newer update of the sample folder pushed twice, and the refused
renaming of the sample tag pushed twice. -/
theorem update_idempotent_witness :
    (Push sampleEnv sampleServer (foldersRequest
        [renameItem "f1" "Home" 30, renameItem "f1" "Home" 30])).1.db
      = (Push sampleEnv sampleServer (foldersRequest [renameItem "f1" "Home" 30])).1.db
    ∧ (Push sampleEnv sampleServer (foldersRequest [renameItem "f1" "Home" 30])).1.db.folders
      = [{ sampleFolder with
           Name := "Home", DefaultLanguage := "", IsOpen := 0, UpdatedAt := 30 }]
    ∧ (Push sampleEnv (Push sampleEnv sampleServer (tagsRequest [renameItem "t1" "rust" 30])).1
        (tagsRequest [renameItem "t1" "rust" 30])).1.db
      = (Push sampleEnv sampleServer (tagsRequest [renameItem "t1" "rust" 30])).1.db :=
  ⟨(update_idempotent sampleEnv sampleServer (renameItem "f1" "Home" 30) rfl).1.1,
   by decide,
   (update_idempotent sampleEnv sampleServer (renameItem "t1" "rust" 30) rfl).2.1.2⟩

/-! ## C5: order independence of two updates with different stamps -/

/-- C5 (amended): let `A` and `B` be update items for `X` with different `updatedAt`, the
greater of which exceeds the stamp of the row loaded for `X`.  Applied as `A` then `B`
or as `B` then `A`, in one push or in one push each, they leave the same database: the
rows with identity `X` carry the fields and stamp of the item with the greater
`updatedAt`, everything else is as before.  For tags this is stated when no other tag
carries a name that the store, under the collation of the column, takes for the name of
that item. -/
theorem lww_order_independent (env : Env) (s : Server) (oneBatch : Bool) (X : String)
    (A B : PushChangeItem) (hA : A.IsNew = false) (hB : B.IsNew = false)
    (hAX : A.ServerID = some X) (hBX : B.ServerID = some X)
    (hne : getInt64 A.Data "updatedAt" ≠ getInt64 B.Data "updatedAt") :
    (∀ e : Folder, s.db.folders.find? (fun x => x.ID == X) = some e →
      e.UpdatedAt < max (getInt64 A.Data "updatedAt") (getInt64 B.Data "updatedAt") →
      applyItems env s foldersRequest oneBatch [A, B]
        = { s.db with folders := (s.db.folders.map
              (fun x => if x.ID = X then x.overwrite (laterOf A B).Data else x)) }
      ∧ applyItems env s foldersRequest oneBatch [B, A]
        = { s.db with folders := (s.db.folders.map
              (fun x => if x.ID = X then x.overwrite (laterOf A B).Data else x)) })
    ∧ (∀ e : Tag, s.db.tags.find? (fun x => x.ID == X) = some e →
      e.UpdatedAt < max (getInt64 A.Data "updatedAt") (getInt64 B.Data "updatedAt") →
      (∀ y ∈ s.db.tags, y.ID ≠ X →
        env.sameName y.Name (getString (laterOf A B).Data "name") = false) →
      applyItems env s tagsRequest oneBatch [A, B]
        = { s.db with tags := (s.db.tags.map
              (fun x => if x.ID = X then x.overwrite (laterOf A B).Data else x)) }
      ∧ applyItems env s tagsRequest oneBatch [B, A]
        = { s.db with tags := (s.db.tags.map
              (fun x => if x.ID = X then x.overwrite (laterOf A B).Data else x)) })
    ∧ (∀ e : Snippet, s.db.snippets.find? (fun x => x.ID == X) = some e →
      e.UpdatedAt < max (getInt64 A.Data "updatedAt") (getInt64 B.Data "updatedAt") →
      applyItems env s snippetsRequest oneBatch [A, B]
        = { s.db with snippets := (s.db.snippets.map
              (fun x => if x.ID = X then x.overwrite (laterOf A B).Data else x)) }
      ∧ applyItems env s snippetsRequest oneBatch [B, A]
        = { s.db with snippets := (s.db.snippets.map
              (fun x => if x.ID = X then x.overwrite (laterOf A B).Data else x)) })
    ∧ (∀ e : SnippetContent, s.db.snippet_contents.find? (fun x => x.ID == X) = some e →
      e.UpdatedAt < max (getInt64 A.Data "updatedAt") (getInt64 B.Data "updatedAt") →
      applyItems env s snippetContentsRequest oneBatch [A, B]
        = { s.db with snippet_contents := (s.db.snippet_contents.map
              (fun x => if x.ID = X then x.overwrite (laterOf A B).Data else x)) }
      ∧ applyItems env s snippetContentsRequest oneBatch [B, A]
        = { s.db with snippet_contents := (s.db.snippet_contents.map
              (fun x => if x.ID = X then x.overwrite (laterOf A B).Data else x)) }) := by
  have hAB : ∀ i ∈ [A, B], i.IsNew = false := by simp [hA, hB]
  have hBA : ∀ i ∈ [B, A], i.IsNew = false := by simp [hA, hB]
  rcases lt_or_gt_of_ne hne with hlt | hgt
  · -- `B` carries the greater stamp
    have hl : laterOf A B = B := by simp [laterOf, not_lt.mpr (le_of_lt hlt)]
    have hm : max (getInt64 A.Data "updatedAt") (getInt64 B.Data "updatedAt")
        = getInt64 B.Data "updatedAt" := max_eq_right (le_of_lt hlt)
    rw [hl, hm]
    refine ⟨?_, ?_, ?_, ?_⟩
    · intro e he hst
      have h := updateFolders_later_wins B A X s.db e hBX hAX hlt he hst
      simp only [applyItems_folders env s oneBatch _ hAB, applyItems_folders env s oneBatch _ hBA,
        List.foldl_cons, List.foldl_nil]
      exact ⟨h.2, h.1⟩
    · intro e he hst hfree
      have h := updateTags_later_wins env B A X s.db e hBX hAX hlt he hst hfree
      simp only [applyItems_tags env s oneBatch _ hAB, applyItems_tags env s oneBatch _ hBA,
        List.foldl_cons, List.foldl_nil]
      exact ⟨h.2, h.1⟩
    · intro e he hst
      have h := updateSnippets_later_wins B A X s.db e hBX hAX hlt he hst
      simp only [applyItems_snippets env s oneBatch _ hAB,
        applyItems_snippets env s oneBatch _ hBA, List.foldl_cons, List.foldl_nil]
      exact ⟨h.2, h.1⟩
    · intro e he hst
      have h := updateSnippetContents_later_wins B A X s.db e hBX hAX hlt he hst
      simp only [applyItems_snippetContents env s oneBatch _ hAB,
        applyItems_snippetContents env s oneBatch _ hBA, List.foldl_cons, List.foldl_nil]
      exact ⟨h.2, h.1⟩
  · -- `A` carries the greater stamp
    have hl : laterOf A B = A := by simp [laterOf, hgt]
    have hm : max (getInt64 A.Data "updatedAt") (getInt64 B.Data "updatedAt")
        = getInt64 A.Data "updatedAt" := max_eq_left (le_of_lt hgt)
    rw [hl, hm]
    refine ⟨?_, ?_, ?_, ?_⟩
    · intro e he hst
      have h := updateFolders_later_wins A B X s.db e hAX hBX hgt he hst
      simp only [applyItems_folders env s oneBatch _ hAB, applyItems_folders env s oneBatch _ hBA,
        List.foldl_cons, List.foldl_nil]
      exact h
    · intro e he hst hfree
      have h := updateTags_later_wins env A B X s.db e hAX hBX hgt he hst hfree
      simp only [applyItems_tags env s oneBatch _ hAB, applyItems_tags env s oneBatch _ hBA,
        List.foldl_cons, List.foldl_nil]
      exact h
    · intro e he hst
      have h := updateSnippets_later_wins A B X s.db e hAX hBX hgt he hst
      simp only [applyItems_snippets env s oneBatch _ hAB,
        applyItems_snippets env s oneBatch _ hBA, List.foldl_cons, List.foldl_nil]
      exact h
    · intro e he hst
      have h := updateSnippetContents_later_wins A B X s.db e hAX hBX hgt he hst
      simp only [applyItems_snippetContents env s oneBatch _ hAB,
        applyItems_snippetContents env s oneBatch _ hBA, List.foldl_cons, List.foldl_nil]
      exact h

/-- Witness of C5: the sample folder (stamp 20) receives updates stamped 30 and 40, in one
push each, in both orders; and the sample tag receives them in one push. -/
theorem lww_order_independent_witness :
    (applyItems sampleEnv sampleServer foldersRequest false
        [renameItem "f1" "Home" 30, renameItem "f1" "Office" 40]
      = applyItems sampleEnv sampleServer foldersRequest false
        [renameItem "f1" "Office" 40, renameItem "f1" "Home" 30])
    ∧ (applyItems sampleEnv sampleServer foldersRequest false
        [renameItem "f1" "Home" 30, renameItem "f1" "Office" 40]).folders
      = [{ sampleFolder with
           Name := "Office", DefaultLanguage := "", IsOpen := 0, UpdatedAt := 40 }]
    ∧ (applyItems sampleEnv sampleServer tagsRequest true
        [renameItem "t1" "golang" 40, renameItem "t1" "gopher" 30]).tags
      = [{ sampleTag with Name := "golang", UpdatedAt := 40 }, otherTag] := by
  have hF := (lww_order_independent sampleEnv sampleServer false "f1"
    (renameItem "f1" "Home" 30) (renameItem "f1" "Office" 40) rfl rfl rfl rfl (by decide)).1
    sampleFolder (by decide) (by decide)
  have hT := (lww_order_independent sampleEnv sampleServer true "t1"
    (renameItem "t1" "golang" 40) (renameItem "t1" "gopher" 30) rfl rfl rfl rfl
    (by decide)).2.1 sampleTag (by decide) (by decide) (by decide)
  refine ⟨hF.1.trans hF.2.symm, ?_, ?_⟩
  · rw [hF.1]; decide
  · rw [hT.1]; decide

/-- Counterexample to C5 as stated: tag `t1` is stored with stamp 20; `A` renames it to the
name of tag `t2` with stamp 40 and `B` renames it to `golang` with stamp 30.  In both
orders the tag ends with the name and stamp of `B`, the update with the smaller stamp. -/
theorem lww_later_tag_refused :
    sampleServer.db.tags.find? (fun x => x.ID == "t1") = some sampleTag
    ∧ getInt64 (renameItem "t1" "rust" 40).Data "updatedAt"
        ≠ getInt64 (renameItem "t1" "golang" 30).Data "updatedAt"
    ∧ sampleTag.UpdatedAt < max (getInt64 (renameItem "t1" "rust" 40).Data "updatedAt")
        (getInt64 (renameItem "t1" "golang" 30).Data "updatedAt")
    ∧ (applyItems sampleEnv sampleServer tagsRequest false
        [renameItem "t1" "rust" 40, renameItem "t1" "golang" 30]).tags
      = [{ sampleTag with Name := "golang", UpdatedAt := 30 }, otherTag]
    ∧ (applyItems sampleEnv sampleServer tagsRequest false
        [renameItem "t1" "golang" 30, renameItem "t1" "rust" 40]).tags
      = [{ sampleTag with Name := "golang", UpdatedAt := 30 }, otherTag]
    ∧ (applyItems sampleEnv sampleServer tagsRequest true
        [renameItem "t1" "rust" 40, renameItem "t1" "golang" 30]).tags
      = [{ sampleTag with Name := "golang", UpdatedAt := 30 }, otherTag] := by
  decide

/-! ## C6: two updates with the same stamp -/

/-- C6 (amended): let `A` and `B` be update items for `X` with the same `updatedAt`,
applied in one push or in one push each.  When that stamp is at most the stamp of the row
loaded for `X`, the database is as before in both orders.  When it is greater, the item
applied first is what the rows with identity `X` carry and the second one is discarded
(for tags: when no other tag carries a name that the store, under the collation of the
column, takes for the name of the first item). -/
theorem lww_tie (env : Env) (s : Server) (oneBatch : Bool) (X : String)
    (A B : PushChangeItem) (hA : A.IsNew = false) (hB : B.IsNew = false)
    (hAX : A.ServerID = some X) (hBX : B.ServerID = some X)
    (htie : getInt64 A.Data "updatedAt" = getInt64 B.Data "updatedAt") :
    (∀ e : Folder, s.db.folders.find? (fun x => x.ID == X) = some e →
      (getInt64 A.Data "updatedAt" ≤ e.UpdatedAt →
        applyItems env s foldersRequest oneBatch [A, B] = s.db
        ∧ applyItems env s foldersRequest oneBatch [B, A] = s.db)
      ∧ (e.UpdatedAt < getInt64 A.Data "updatedAt" →
        applyItems env s foldersRequest oneBatch [A, B]
          = { s.db with folders := (s.db.folders.map
                (fun x => if x.ID = X then x.overwrite A.Data else x)) }
        ∧ applyItems env s foldersRequest oneBatch [B, A]
          = { s.db with folders := (s.db.folders.map
                (fun x => if x.ID = X then x.overwrite B.Data else x)) }))
    ∧ (∀ e : Tag, s.db.tags.find? (fun x => x.ID == X) = some e →
      (getInt64 A.Data "updatedAt" ≤ e.UpdatedAt →
        applyItems env s tagsRequest oneBatch [A, B] = s.db
        ∧ applyItems env s tagsRequest oneBatch [B, A] = s.db)
      ∧ (e.UpdatedAt < getInt64 A.Data "updatedAt" →
        ((∀ y ∈ s.db.tags, y.ID ≠ X →
            env.sameName y.Name (getString A.Data "name") = false) →
          applyItems env s tagsRequest oneBatch [A, B]
            = { s.db with tags := (s.db.tags.map
                  (fun x => if x.ID = X then x.overwrite A.Data else x)) })
        ∧ ((∀ y ∈ s.db.tags, y.ID ≠ X →
            env.sameName y.Name (getString B.Data "name") = false) →
          applyItems env s tagsRequest oneBatch [B, A]
            = { s.db with tags := (s.db.tags.map
                  (fun x => if x.ID = X then x.overwrite B.Data else x)) })))
    ∧ (∀ e : Snippet, s.db.snippets.find? (fun x => x.ID == X) = some e →
      (getInt64 A.Data "updatedAt" ≤ e.UpdatedAt →
        applyItems env s snippetsRequest oneBatch [A, B] = s.db
        ∧ applyItems env s snippetsRequest oneBatch [B, A] = s.db)
      ∧ (e.UpdatedAt < getInt64 A.Data "updatedAt" →
        applyItems env s snippetsRequest oneBatch [A, B]
          = { s.db with snippets := (s.db.snippets.map
                (fun x => if x.ID = X then x.overwrite A.Data else x)) }
        ∧ applyItems env s snippetsRequest oneBatch [B, A]
          = { s.db with snippets := (s.db.snippets.map
                (fun x => if x.ID = X then x.overwrite B.Data else x)) }))
    ∧ (∀ e : SnippetContent, s.db.snippet_contents.find? (fun x => x.ID == X) = some e →
      (getInt64 A.Data "updatedAt" ≤ e.UpdatedAt →
        applyItems env s snippetContentsRequest oneBatch [A, B] = s.db
        ∧ applyItems env s snippetContentsRequest oneBatch [B, A] = s.db)
      ∧ (e.UpdatedAt < getInt64 A.Data "updatedAt" →
        applyItems env s snippetContentsRequest oneBatch [A, B]
          = { s.db with snippet_contents := (s.db.snippet_contents.map
                (fun x => if x.ID = X then x.overwrite A.Data else x)) }
        ∧ applyItems env s snippetContentsRequest oneBatch [B, A]
          = { s.db with snippet_contents := (s.db.snippet_contents.map
                (fun x => if x.ID = X then x.overwrite B.Data else x)) })) := by
  have hAB : ∀ i ∈ [A, B], i.IsNew = false := by simp [hA, hB]
  have hBA : ∀ i ∈ [B, A], i.IsNew = false := by simp [hA, hB]
  refine ⟨?_, ?_, ?_, ?_⟩
  · intro e he
    simp only [applyItems_folders env s oneBatch _ hAB, applyItems_folders env s oneBatch _ hBA,
      List.foldl_cons, List.foldl_nil]
    constructor
    · intro ht
      have hsA := updateFolders_stale A X s.db e hAX he ht
      have hsB := updateFolders_stale B X s.db e hBX he (htie ▸ ht)
      simp only [hsA, hsB, and_self]
    · intro hst
      exact ⟨updateFolders_first_wins A B X s.db e hAX hBX (le_of_eq htie.symm) he hst,
        updateFolders_first_wins B A X s.db e hBX hAX (le_of_eq htie) he (htie ▸ hst)⟩
  · intro e he
    simp only [applyItems_tags env s oneBatch _ hAB, applyItems_tags env s oneBatch _ hBA,
      List.foldl_cons, List.foldl_nil]
    constructor
    · intro ht
      have hsA := updateTags_stale env A X s.db e hAX he ht
      have hsB := updateTags_stale env B X s.db e hBX he (htie ▸ ht)
      simp only [hsA, hsB, and_self]
    · intro hst
      exact ⟨updateTags_first_wins env A B X s.db e hAX hBX (le_of_eq htie.symm) he hst,
        updateTags_first_wins env B A X s.db e hBX hAX (le_of_eq htie) he (htie ▸ hst)⟩
  · intro e he
    simp only [applyItems_snippets env s oneBatch _ hAB,
      applyItems_snippets env s oneBatch _ hBA, List.foldl_cons, List.foldl_nil]
    constructor
    · intro ht
      have hsA := updateSnippets_stale A X s.db e hAX he ht
      have hsB := updateSnippets_stale B X s.db e hBX he (htie ▸ ht)
      simp only [hsA, hsB, and_self]
    · intro hst
      exact ⟨updateSnippets_first_wins A B X s.db e hAX hBX (le_of_eq htie.symm) he hst,
        updateSnippets_first_wins B A X s.db e hBX hAX (le_of_eq htie) he (htie ▸ hst)⟩
  · intro e he
    simp only [applyItems_snippetContents env s oneBatch _ hAB,
      applyItems_snippetContents env s oneBatch _ hBA, List.foldl_cons, List.foldl_nil]
    constructor
    · intro ht
      have hsA := updateSnippetContents_stale A X s.db e hAX he ht
      have hsB := updateSnippetContents_stale B X s.db e hBX he (htie ▸ ht)
      simp only [hsA, hsB, and_self]
    · intro hst
      exact ⟨updateSnippetContents_first_wins A B X s.db e hAX hBX (le_of_eq htie.symm) he hst,
        updateSnippetContents_first_wins B A X s.db e hBX hAX (le_of_eq htie) he (htie ▸ hst)⟩

/-- Witness of C6: two updates of the sample folder (stamp 20) with the same stamp: tied
with the stored stamp they change nothing, above it the first one applied stays. -/
theorem lww_tie_witness :
    applyItems sampleEnv sampleServer foldersRequest true
        [renameItem "f1" "Home" 20, renameItem "f1" "Office" 20] = sampleDB
    ∧ applyItems sampleEnv sampleServer foldersRequest true
        [renameItem "f1" "Office" 20, renameItem "f1" "Home" 20] = sampleDB
    ∧ (applyItems sampleEnv sampleServer snippetsRequest false
        [renameItem "s1" "hi" 30, renameItem "s1" "ho" 30]).snippets
      = [{ sampleSnippet with Name := "hi", FolderID := none, UpdatedAt := 30 }, otherSnippet] := by
  have hF := ((lww_tie sampleEnv sampleServer true "f1" (renameItem "f1" "Home" 20)
    (renameItem "f1" "Office" 20) rfl rfl rfl rfl (by decide)).1
    sampleFolder (by decide)).1 (by decide)
  have hS := ((lww_tie sampleEnv sampleServer false "s1" (renameItem "s1" "hi" 30)
    (renameItem "s1" "ho" 30) rfl rfl rfl rfl (by decide)).2.2.1
    sampleSnippet (by decide)).2 (by decide)
  refine ⟨hF.1, hF.2, ?_⟩
  rw [hS.1]; decide

/-- Counterexample to C6 as stated: the sample folder is stored with the name `Work` and
stamp 20; `A` and `B` both carry stamp 30 and the names `Home` and `Office`.  After `A`
then `B` the folder is named `Home`, after `B` then `A` it is named `Office`: in neither
order is it the folder that was stored. -/
theorem lww_tie_first_applied_wins :
    sampleServer.db.folders.find? (fun x => x.ID == "f1") = some sampleFolder
    ∧ getInt64 (renameItem "f1" "Home" 30).Data "updatedAt"
        = getInt64 (renameItem "f1" "Office" 30).Data "updatedAt"
    ∧ (applyItems sampleEnv sampleServer foldersRequest false
        [renameItem "f1" "Home" 30, renameItem "f1" "Office" 30]).folders
      = [{ sampleFolder with
           Name := "Home", DefaultLanguage := "", IsOpen := 0, UpdatedAt := 30 }]
    ∧ (applyItems sampleEnv sampleServer foldersRequest false
        [renameItem "f1" "Office" 30, renameItem "f1" "Home" 30]).folders
      = [{ sampleFolder with
           Name := "Office", DefaultLanguage := "", IsOpen := 0, UpdatedAt := 30 }]
    ∧ (applyItems sampleEnv sampleServer foldersRequest true
        [renameItem "f1" "Home" 30, renameItem "f1" "Office" 30]).folders
      ≠ sampleServer.db.folders := by
  decide

/-! ## C7, C8: cascading deletions -/

/-- C7: after a push of the deletion item `("snippets", X, deletedAt)` the store holds no
snippet with identity `X`, no snippet content and no snippet-tag row whose snippet is
`X`; the other snippets, snippet contents and snippet-tag rows are the ones stored
before, unchanged and in their order, and folders and tags are as before. -/
theorem snippet_delete_cascade (env : Env) (s : Server) (X : String) (deletedAt : Int) :
    (Push env s (deletionsRequest [⟨"snippets", X, deletedAt⟩])).1.db.snippets
        = s.db.snippets.filter (fun x => x.ID != X)
    ∧ (Push env s (deletionsRequest [⟨"snippets", X, deletedAt⟩])).1.db.snippet_contents
        = s.db.snippet_contents.filter (fun c => c.SnippetID != X)
    ∧ (Push env s (deletionsRequest [⟨"snippets", X, deletedAt⟩])).1.db.snippet_tags
        = s.db.snippet_tags.filter (fun st => st.SnippetID != X)
    ∧ (Push env s (deletionsRequest [⟨"snippets", X, deletedAt⟩])).1.db.folders = s.db.folders
    ∧ (Push env s (deletionsRequest [⟨"snippets", X, deletedAt⟩])).1.db.tags = s.db.tags
    ∧ (∀ x ∈ (Push env s (deletionsRequest [⟨"snippets", X, deletedAt⟩])).1.db.snippets,
        x.ID ≠ X)
    ∧ (∀ c ∈ (Push env s
          (deletionsRequest [⟨"snippets", X, deletedAt⟩])).1.db.snippet_contents,
        c.SnippetID ≠ X)
    ∧ (∀ st ∈ (Push env s (deletionsRequest [⟨"snippets", X, deletedAt⟩])).1.db.snippet_tags,
        st.SnippetID ≠ X) := by
  rw [Push_deletion]
  simp only [insertIgnoreSyncDeletion_snippets, insertIgnoreSyncDeletion_snippet_contents,
    insertIgnoreSyncDeletion_snippet_tags, insertIgnoreSyncDeletion_folders,
    insertIgnoreSyncDeletion_tags]
  refine ⟨rfl, rfl, rfl, rfl, rfl, ?_, ?_, ?_⟩
  · exact mem_filter_ne Snippet.ID X s.db.snippets
  · exact mem_filter_ne SnippetContent.SnippetID X s.db.snippet_contents
  · exact mem_filter_ne SnippetTag.SnippetID X s.db.snippet_tags

/-- C8: after a push of the deletion item `("tags", X, deletedAt)` the store holds no tag
with identity `X` and no snippet-tag row whose tag is `X`; the other tags and the
snippet-tag rows of other tags are the ones stored before, and snippets, snippet contents
and folders are exactly as before. -/
theorem tag_delete_cascade (env : Env) (s : Server) (X : String) (deletedAt : Int) :
    (Push env s (deletionsRequest [⟨"tags", X, deletedAt⟩])).1.db.tags
        = s.db.tags.filter (fun x => x.ID != X)
    ∧ (Push env s (deletionsRequest [⟨"tags", X, deletedAt⟩])).1.db.snippet_tags
        = s.db.snippet_tags.filter (fun st => st.TagID != X)
    ∧ (Push env s (deletionsRequest [⟨"tags", X, deletedAt⟩])).1.db.snippets = s.db.snippets
    ∧ (Push env s (deletionsRequest [⟨"tags", X, deletedAt⟩])).1.db.snippet_contents
        = s.db.snippet_contents
    ∧ (Push env s (deletionsRequest [⟨"tags", X, deletedAt⟩])).1.db.folders = s.db.folders
    ∧ (∀ x ∈ (Push env s (deletionsRequest [⟨"tags", X, deletedAt⟩])).1.db.tags, x.ID ≠ X)
    ∧ (∀ st ∈ (Push env s (deletionsRequest [⟨"tags", X, deletedAt⟩])).1.db.snippet_tags,
        st.TagID ≠ X) := by
  rw [Push_deletion]
  simp only [insertIgnoreSyncDeletion_snippets, insertIgnoreSyncDeletion_snippet_contents,
    insertIgnoreSyncDeletion_snippet_tags, insertIgnoreSyncDeletion_folders,
    insertIgnoreSyncDeletion_tags]
  refine ⟨rfl, rfl, rfl, rfl, rfl, ?_, ?_⟩
  · exact mem_filter_ne Tag.ID X s.db.tags
  · exact mem_filter_ne SnippetTag.TagID X s.db.snippet_tags

/-! ## C9: tombstones are written once -/

/-- C9: in a store whose tombstones have pairwise different `record_id` (the unique index
`uk_table_record`) and for an identity source whose next value is not the identity of a
stored tombstone, pushing a deletion item once, twice in one push or in two pushes in a
row is answered 200 each time; the second application leaves the database the first one
left; exactly one tombstone records the `recordId` of the item; and when none recorded it
before, that tombstone is the one written for the item. -/
theorem tombstone_idempotent (env : Env) (s : Server) (del : SyncDeletionData)
    (hUnique : (s.db.sync_deletions.map SyncDeletion.RecordID).Nodup)
    (hFresh : ∀ x ∈ s.db.sync_deletions, x.ID ≠ env.uuid s.uuids) :
    (Push env s (deletionsRequest [del])).2
        = PushReply.OK { ServerTime := env.now s.ticks, IDMappings := [] }
    ∧ (Push env (Push env s (deletionsRequest [del])).1 (deletionsRequest [del])).2
        = PushReply.OK { ServerTime := env.now (s.ticks + 1), IDMappings := [] }
    ∧ (Push env s (deletionsRequest [del, del])).2
        = PushReply.OK { ServerTime := env.now s.ticks, IDMappings := [] }
    ∧ (Push env (Push env s (deletionsRequest [del])).1 (deletionsRequest [del])).1.db
        = (Push env s (deletionsRequest [del])).1.db
    ∧ (Push env s (deletionsRequest [del, del])).1.db
        = (Push env s (deletionsRequest [del])).1.db
    ∧ ((Push env s (deletionsRequest [del])).1.db.sync_deletions.filter
          (fun x => x.RecordID == del.RecordID)).length = 1
    ∧ ((∀ x ∈ s.db.sync_deletions, x.RecordID ≠ del.RecordID) →
        (Push env s (deletionsRequest [del])).1.db.sync_deletions
          = s.db.sync_deletions ++
            [{ ID := env.uuid s.uuids, EntityTable := del.TableName
               RecordID := del.RecordID, DeletedAt := del.DeletedAt }]) := by
  have hFresh2 : ∀ x ∈ (deleteRecord s.db del).sync_deletions,
      x.ID ≠ (SyncDeletion.mk (env.uuid s.uuids) del.TableName del.RecordID del.DeletedAt).ID := by
    rw [deleteRecord_sync_deletions]; exact hFresh
  have hrec := recorded_after_insertIgnore (deleteRecord s.db del)
    ⟨env.uuid s.uuids, del.TableName, del.RecordID, del.DeletedAt⟩ hFresh2
  have hnd := nodup_after_insertIgnore (deleteRecord s.db del)
    ⟨env.uuid s.uuids, del.TableName, del.RecordID, del.DeletedAt⟩
    (by rw [deleteRecord_sync_deletions]; exact hUnique)
  have hsecond : ∀ u : String,
      (deleteRecord ((deleteRecord s.db del).insertIgnoreSyncDeletion
          ⟨env.uuid s.uuids, del.TableName, del.RecordID, del.DeletedAt⟩)
        del).insertIgnoreSyncDeletion ⟨u, del.TableName, del.RecordID, del.DeletedAt⟩
      = (deleteRecord s.db del).insertIgnoreSyncDeletion
          ⟨env.uuid s.uuids, del.TableName, del.RecordID, del.DeletedAt⟩ := by
    intro u
    rw [deleteRecord_insertIgnore, deleteRecord_idem]
    exact insertIgnoreSyncDeletion_of_recorded _ _ hrec
  refine ⟨?_, ?_, ?_, ?_, ?_, ?_, ?_⟩
  · rw [Push_deletion]
  · rw [Push_deletion, Push_deletion]
  · rw [Push_deletion_twice]
  · rw [Push_deletion, Push_deletion]
    exact hsecond _
  · rw [Push_deletion, Push_deletion_twice]
    exact hsecond _
  · rw [Push_deletion]
    exact length_filter_key_eq_one SyncDeletion.RecordID del.RecordID _ hnd hrec
  · intro hnone
    rw [Push_deletion]
    simp only
    rw [insertIgnoreSyncDeletion_of_new _ _ hFresh2
      (by rw [deleteRecord_sync_deletions]; exact hnone), deleteRecord_sync_deletions]

/-- Witness of C9: the sample folder is deleted twice in a store without tombstones, and
once in the store left by the deletion of a tag, which holds one tombstone. -/
theorem tombstone_idempotent_witness :
    (Push sampleEnv (Push sampleEnv sampleServer (deletionsRequest [⟨"folders", "f1", 40⟩])).1
        (deletionsRequest [⟨"folders", "f1", 40⟩])).1.db
      = (Push sampleEnv sampleServer (deletionsRequest [⟨"folders", "f1", 40⟩])).1.db
    ∧ (Push sampleEnv sampleServer
        (deletionsRequest [⟨"folders", "f1", 40⟩, ⟨"folders", "f1", 40⟩])).1.db.sync_deletions
      = [{ ID := "u", EntityTable := "folders", RecordID := "f1", DeletedAt := 40 }]
    ∧ (Push sampleEnv (Push sampleEnv sampleServer (deletionsRequest [⟨"tags", "t2", 35⟩])).1
        (deletionsRequest [⟨"folders", "f1", 40⟩])).1.db.sync_deletions
      = [{ ID := "u", EntityTable := "tags", RecordID := "t2", DeletedAt := 35 },
         { ID := "uu", EntityTable := "folders", RecordID := "f1", DeletedAt := 40 }] := by
  have h := tombstone_idempotent sampleEnv sampleServer ⟨"folders", "f1", 40⟩
    (by decide) (by decide)
  have h2 := tombstone_idempotent sampleEnv
    (Push sampleEnv sampleServer (deletionsRequest [⟨"tags", "t2", 35⟩])).1
    ⟨"folders", "f1", 40⟩ (by decide) (by decide)
  refine ⟨h.2.2.2.1, ?_, ?_⟩
  · rw [h.2.2.2.2.1]
    decide
  · rw [h2.2.2.2.2.2.2 (by decide)]
    decide

/-! ## C10: identity mappings -/

theorem Push_ok_inv (env : Env) (s s' : Server) (req : PushRequest) (resp : PushResponse)
    (h : Push env s req = (s', PushReply.OK resp)) :
    ∃ tx, pushItems env req { db := s.db, uuids := s.uuids, ticks := s.ticks, idMappings := [] }
        = Except.ok tx ∧ resp.IDMappings = tx.idMappings ∧ s'.db = tx.db := by
  unfold Push at h
  split at h
  · cases h
  · rename_i tx htx
    refine ⟨tx, htx, ?_⟩
    cases h
    exact ⟨rfl, rfl⟩

/-- C10: for every push answered 200, the identity mappings are, table after table
(folders, tags, snippets, snippet contents) and in the order of the request, one mapping
per item with `isNew = true`: the `i`-th mapping of a table pairs the local reference of
the `i`-th new item of that table with the value the identity source gave for it, which
is the identity of the row the `Create` of that item inserted.  So a request with `N`
new items of a table is answered `N` mappings for that table, with the local references
of those items in their order.  When the identity source never repeats a value the
identities of the mappings are pairwise different, and when none of its coming values
is an identity of the store before the push, none of the mapped identities is.  When
the request holds no deletion item, the identities in each table after the push are
those before the push followed by the mapped identities of that table. -/
theorem id_mappings_correct (env : Env) (s s' : Server) (req : PushRequest)
    (resp : PushResponse) (h : Push env s req = (s', PushReply.OK resp)) :
    resp.IDMappings
      = mintedMappings env "folders" s.uuids req.Changes.Folders
        ++ mintedMappings env "tags" (s.uuids + countNew req.Changes.Folders) req.Changes.Tags
        ++ mintedMappings env "snippets"
            (s.uuids + countNew req.Changes.Folders + countNew req.Changes.Tags)
            req.Changes.Snippets
        ++ mintedMappings env "snippet_contents"
            (s.uuids + countNew req.Changes.Folders + countNew req.Changes.Tags
              + countNew req.Changes.Snippets)
            req.Changes.SnippetContents
    ∧ (resp.IDMappings.filter (fun m => m.TableName == "folders")
        = mintedMappings env "folders" s.uuids req.Changes.Folders
      ∧ resp.IDMappings.filter (fun m => m.TableName == "tags")
        = mintedMappings env "tags" (s.uuids + countNew req.Changes.Folders) req.Changes.Tags
      ∧ resp.IDMappings.filter (fun m => m.TableName == "snippets")
        = mintedMappings env "snippets"
            (s.uuids + countNew req.Changes.Folders + countNew req.Changes.Tags)
            req.Changes.Snippets
      ∧ resp.IDMappings.filter (fun m => m.TableName == "snippet_contents")
        = mintedMappings env "snippet_contents"
            (s.uuids + countNew req.Changes.Folders + countNew req.Changes.Tags
              + countNew req.Changes.Snippets)
            req.Changes.SnippetContents)
    ∧ ((resp.IDMappings.filter (fun m => m.TableName == "folders")).length
        = (req.Changes.Folders.filter (fun i => i.IsNew)).length
      ∧ (resp.IDMappings.filter (fun m => m.TableName == "tags")).length
        = (req.Changes.Tags.filter (fun i => i.IsNew)).length
      ∧ (resp.IDMappings.filter (fun m => m.TableName == "snippets")).length
        = (req.Changes.Snippets.filter (fun i => i.IsNew)).length
      ∧ (resp.IDMappings.filter (fun m => m.TableName == "snippet_contents")).length
        = (req.Changes.SnippetContents.filter (fun i => i.IsNew)).length)
    ∧ ((resp.IDMappings.filter (fun m => m.TableName == "folders")).map (fun m => m.LocalID)
        = (req.Changes.Folders.filter (fun i => i.IsNew)).map (fun i => i.LocalID)
      ∧ (resp.IDMappings.filter (fun m => m.TableName == "tags")).map (fun m => m.LocalID)
        = (req.Changes.Tags.filter (fun i => i.IsNew)).map (fun i => i.LocalID)
      ∧ (resp.IDMappings.filter (fun m => m.TableName == "snippets")).map (fun m => m.LocalID)
        = (req.Changes.Snippets.filter (fun i => i.IsNew)).map (fun i => i.LocalID)
      ∧ (resp.IDMappings.filter (fun m => m.TableName == "snippet_contents")).map
          (fun m => m.LocalID)
        = (req.Changes.SnippetContents.filter (fun i => i.IsNew)).map (fun i => i.LocalID))
    ∧ ((∀ i j, env.uuid i = env.uuid j → i = j) →
        (resp.IDMappings.map (fun m => m.ServerID)).Nodup)
    ∧ ((∀ k, s.uuids ≤ k → env.uuid k ∉ s.db.identities) →
        ∀ m ∈ resp.IDMappings, m.ServerID ∉ s.db.identities)
    ∧ (req.Deletions = [] →
        s'.db.folders.map Folder.ID = s.db.folders.map Folder.ID
            ++ (resp.IDMappings.filter (fun m => m.TableName == "folders")).map
                (fun m => m.ServerID)
        ∧ s'.db.tags.map Tag.ID = s.db.tags.map Tag.ID
            ++ (resp.IDMappings.filter (fun m => m.TableName == "tags")).map
                (fun m => m.ServerID)
        ∧ s'.db.snippets.map Snippet.ID = s.db.snippets.map Snippet.ID
            ++ (resp.IDMappings.filter (fun m => m.TableName == "snippets")).map
                (fun m => m.ServerID)
        ∧ s'.db.snippet_contents.map SnippetContent.ID
            = s.db.snippet_contents.map SnippetContent.ID
            ++ (resp.IDMappings.filter (fun m => m.TableName == "snippet_contents")).map
                (fun m => m.ServerID))
    ∧ (∀ (tx tx' : Tx) (item : PushChangeItem), item.IsNew = true →
        (pushFolder env tx item = Except.ok tx' →
          ∃ r, tx'.db.folders = tx.db.folders ++ [r] ∧ r.ID = env.uuid tx.uuids
            ∧ tx'.idMappings = tx.idMappings ++ [⟨"folders", item.LocalID, r.ID⟩])
        ∧ (pushTag env tx item = Except.ok tx' →
          ∃ r, tx'.db.tags = tx.db.tags ++ [r] ∧ r.ID = env.uuid tx.uuids
            ∧ tx'.idMappings = tx.idMappings ++ [⟨"tags", item.LocalID, r.ID⟩])
        ∧ (pushSnippet env tx item = Except.ok tx' →
          ∃ r, tx'.db.snippets = tx.db.snippets ++ [r] ∧ r.ID = env.uuid tx.uuids
            ∧ tx'.idMappings = tx.idMappings ++ [⟨"snippets", item.LocalID, r.ID⟩])
        ∧ (pushSnippetContent env tx item = Except.ok tx' →
          ∃ r, tx'.db.snippet_contents = tx.db.snippet_contents ++ [r]
            ∧ r.ID = env.uuid tx.uuids
            ∧ tx'.idMappings = tx.idMappings
                ++ [⟨"snippet_contents", item.LocalID, r.ID⟩])) := by
  obtain ⟨tx, htx, hresp, hdb⟩ := Push_ok_inv env s s' req resp h
  have hall := pushItems_idMappings env req _ tx htx
  simp only [List.nil_append] at hall
  rw [← hresp] at hall
  have hF : resp.IDMappings.filter (fun m => m.TableName == "folders")
      = mintedMappings env "folders" s.uuids req.Changes.Folders := by
    rw [hall]
    simp only [List.filter_append, mintedMappings_filter_same,
      mintedMappings_filter_other env "folders" "tags" _ _ (by decide),
      mintedMappings_filter_other env "folders" "snippets" _ _ (by decide),
      mintedMappings_filter_other env "folders" "snippet_contents" _ _ (by decide),
      List.append_nil]
  have hT : resp.IDMappings.filter (fun m => m.TableName == "tags")
      = mintedMappings env "tags" (s.uuids + countNew req.Changes.Folders)
          req.Changes.Tags := by
    rw [hall]
    simp only [List.filter_append, mintedMappings_filter_same,
      mintedMappings_filter_other env "tags" "folders" _ _ (by decide),
      mintedMappings_filter_other env "tags" "snippets" _ _ (by decide),
      mintedMappings_filter_other env "tags" "snippet_contents" _ _ (by decide),
      List.append_nil, List.nil_append]
  have hS : resp.IDMappings.filter (fun m => m.TableName == "snippets")
      = mintedMappings env "snippets"
          (s.uuids + countNew req.Changes.Folders + countNew req.Changes.Tags)
          req.Changes.Snippets := by
    rw [hall]
    simp only [List.filter_append, mintedMappings_filter_same,
      mintedMappings_filter_other env "snippets" "folders" _ _ (by decide),
      mintedMappings_filter_other env "snippets" "tags" _ _ (by decide),
      mintedMappings_filter_other env "snippets" "snippet_contents" _ _ (by decide),
      List.append_nil, List.nil_append]
  have hC : resp.IDMappings.filter (fun m => m.TableName == "snippet_contents")
      = mintedMappings env "snippet_contents"
          (s.uuids + countNew req.Changes.Folders + countNew req.Changes.Tags
            + countNew req.Changes.Snippets)
          req.Changes.SnippetContents := by
    rw [hall]
    simp only [List.filter_append, mintedMappings_filter_same,
      mintedMappings_filter_other env "snippet_contents" "folders" _ _ (by decide),
      mintedMappings_filter_other env "snippet_contents" "tags" _ _ (by decide),
      mintedMappings_filter_other env "snippet_contents" "snippets" _ _ (by decide),
      List.append_nil, List.nil_append]
  have hids := minted_serverIDs_range env s.uuids req.Changes.Folders req.Changes.Tags
    req.Changes.Snippets req.Changes.SnippetContents
  rw [← hall] at hids
  refine ⟨hall, ⟨hF, hT, hS, hC⟩, ?_, ?_, ?_, ?_, ?_, ?_⟩
  · rw [hF, hT, hS, hC]
    simp only [mintedMappings_length]
    exact ⟨rfl, rfl, rfl, rfl⟩
  · rw [hF, hT, hS, hC]
    simp only [mintedMappings_localIDs, and_self]
  · intro hinj
    rw [hids]
    exact List.Nodup.map (fun i j hij => hinj i j hij) (List.nodup_range' _ _)
  · intro hfresh m hm
    have hmem : m.ServerID ∈ resp.IDMappings.map (fun m => m.ServerID) :=
      List.mem_map_of_mem _ hm
    rw [hids] at hmem
    obtain ⟨k, hk, hku⟩ := List.mem_map.mp hmem
    rw [← hku]
    exact hfresh k (List.mem_range'_1.mp hk).1
  · intro hdel
    have hid := pushItems_identities env req _ tx hdel htx
    rw [hF, hT, hS, hC, hdb]
    exact hid
  · intro tx tx' item hNew
    refine ⟨?_, ?_, ?_, ?_⟩
    · intro hp
      have hn := pushFolder_new env tx tx' item hNew hp
      exact ⟨_, by rw [hn.1], rfl, hn.2.1⟩
    · intro hp
      have hn := pushTag_new env tx tx' item hNew hp
      exact ⟨_, by rw [hn.1], rfl, hn.2.1⟩
    · intro hp
      have hn := pushSnippet_new env tx tx' item hNew hp
      exact ⟨_, by rw [hn.1], rfl, hn.2.1⟩
    · intro hp
      have hn := pushSnippetContent_new env tx tx' item hNew hp
      exact ⟨_, by rw [hn.1], rfl, hn.2.1⟩

/-- Witness of C10: the sample request holds two new folders and one new tag; the push is
answered 200 with two mappings for folders and one for tags, with the local references
of the new items and three different identities that the store did not hold.  A push
of a new folder and a new snippet without deletions leaves them stored under the mapped
identities. -/
theorem id_mappings_correct_witness :
    (Push sampleEnv sampleServer sampleRequest).2
      = PushReply.OK
          { ServerTime := 1700000000003
            IDMappings :=
              [⟨"folders", 1, "u"⟩, ⟨"folders", 2, "uu"⟩, ⟨"tags", 1, "uuu"⟩] }
    ∧ ([⟨"folders", 1, "u"⟩, ⟨"folders", 2, "uu"⟩, ⟨"tags", 1, "uuu"⟩].filter
          (fun m : IDMapping => m.TableName == "folders")).length
        = (sampleRequest.Changes.Folders.filter (fun i => i.IsNew)).length
    ∧ (∀ m ∈ [(⟨"folders", 1, "u"⟩ : IDMapping), ⟨"folders", 2, "uu"⟩, ⟨"tags", 1, "uuu"⟩],
        m.ServerID ∉ sampleServer.db.identities)
    ∧ (Push sampleEnv sampleServer sampleCreates).2
      = PushReply.OK
          { ServerTime := 1700000000002
            IDMappings := [⟨"folders", 1, "u"⟩, ⟨"snippets", 7, "uu"⟩] }
    ∧ (Push sampleEnv sampleServer sampleCreates).1.db.folders.map Folder.ID = ["f1", "u"]
    ∧ (Push sampleEnv sampleServer sampleCreates).1.db.snippets.map Snippet.ID
        = ["s1", "s2", "uu"] := by
  have hreply : (Push sampleEnv sampleServer sampleRequest).2
      = PushReply.OK
          { ServerTime := 1700000000003
            IDMappings :=
              [⟨"folders", 1, "u"⟩, ⟨"folders", 2, "uu"⟩, ⟨"tags", 1, "uuu"⟩] } := by
    decide
  have hreply2 : (Push sampleEnv sampleServer sampleCreates).2
      = PushReply.OK
          { ServerTime := 1700000000002
            IDMappings := [⟨"folders", 1, "u"⟩, ⟨"snippets", 7, "uu"⟩] } := by
    decide
  have h := id_mappings_correct sampleEnv sampleServer
    (Push sampleEnv sampleServer sampleRequest).1 sampleRequest
    { ServerTime := 1700000000003
      IDMappings := [⟨"folders", 1, "u"⟩, ⟨"folders", 2, "uu"⟩, ⟨"tags", 1, "uuu"⟩] }
    (Prod.ext rfl hreply)
  have h2 := (id_mappings_correct sampleEnv sampleServer
    (Push sampleEnv sampleServer sampleCreates).1 sampleCreates
    { ServerTime := 1700000000002
      IDMappings := [⟨"folders", 1, "u"⟩, ⟨"snippets", 7, "uu"⟩] }
    (Prod.ext rfl hreply2)).2.2.2.2.2.2.1 rfl
  refine ⟨hreply, h.2.2.1.1, h.2.2.2.2.2.1 ?_, hreply2, ?_, ?_⟩
  · intro k _ hmem
    have hhead : ∀ x ∈ sampleServer.db.identities, x.data.head? ≠ some 'u' := by decide
    exact hhead _ hmem (by simp [sampleEnv, List.replicate_succ])
  · rw [h2.1]; decide
  · rw [h2.2.2.1]; decide

/-! ## C11, C12: what a pull returns -/

/-- C11: for every store state and every watermark, `Pull` leaves the store as it is and
each collection of its answer holds exactly the stored rows of that kind whose stamp
(`UpdatedAt` for folders, tags, snippets and snippet contents, `CreatedAt` for
snippet-tag rows, `DeletedAt` for tombstones) is strictly greater than `LastSyncAt`, each
with the fields of the stored row. -/
theorem pull_delta_exact (env : Env) (s : Server) (req : PullRequest) :
    (Pull env s req).1.db = s.db
    ∧ (∀ x, x ∈ (Pull env s req).2.Changes.Folders ↔
        ∃ f ∈ s.db.folders, req.LastSyncAt < f.UpdatedAt
          ∧ x = { ID := f.ID, Name := f.Name, DefaultLanguage := f.DefaultLanguage
                  ParentID := f.ParentID, IsOpen := f.IsOpen, OrderIndex := f.OrderIndex
                  Icon := f.Icon, CreatedAt := f.CreatedAt, UpdatedAt := f.UpdatedAt })
    ∧ (∀ x, x ∈ (Pull env s req).2.Changes.Tags ↔
        ∃ t ∈ s.db.tags, req.LastSyncAt < t.UpdatedAt
          ∧ x = { ID := t.ID, Name := t.Name, CreatedAt := t.CreatedAt
                  UpdatedAt := t.UpdatedAt })
    ∧ (∀ x, x ∈ (Pull env s req).2.Changes.Snippets ↔
        ∃ n ∈ s.db.snippets, req.LastSyncAt < n.UpdatedAt
          ∧ x = { ID := n.ID, Name := n.Name, Description := n.Description
                  FolderID := n.FolderID, IsDeleted := n.IsDeleted
                  IsFavorites := n.IsFavorites, CreatedAt := n.CreatedAt
                  UpdatedAt := n.UpdatedAt })
    ∧ (∀ x, x ∈ (Pull env s req).2.Changes.SnippetContents ↔
        ∃ c ∈ s.db.snippet_contents, req.LastSyncAt < c.UpdatedAt
          ∧ x = { ID := c.ID, SnippetID := c.SnippetID, Label := c.Label, Value := c.Value
                  Language := c.Language, CreatedAt := c.CreatedAt
                  UpdatedAt := c.UpdatedAt })
    ∧ (∀ x, x ∈ (Pull env s req).2.Changes.SnippetTags ↔
        ∃ st ∈ s.db.snippet_tags, req.LastSyncAt < st.CreatedAt
          ∧ x = { SnippetID := st.SnippetID, TagID := st.TagID, CreatedAt := st.CreatedAt })
    ∧ (∀ x, x ∈ (Pull env s req).2.Deletions ↔
        ∃ d ∈ s.db.sync_deletions, req.LastSyncAt < d.DeletedAt
          ∧ x = { TableName := d.EntityTable, RecordID := d.RecordID
                  DeletedAt := d.DeletedAt })
    ∧ (Pull env s req).2.Changes.Folders.length
        = (s.db.folders.filter (fun f => req.LastSyncAt < f.UpdatedAt)).length
    ∧ (Pull env s req).2.Changes.Tags.length
        = (s.db.tags.filter (fun t => req.LastSyncAt < t.UpdatedAt)).length
    ∧ (Pull env s req).2.Changes.Snippets.length
        = (s.db.snippets.filter (fun n => req.LastSyncAt < n.UpdatedAt)).length
    ∧ (Pull env s req).2.Changes.SnippetContents.length
        = (s.db.snippet_contents.filter (fun c => req.LastSyncAt < c.UpdatedAt)).length
    ∧ (Pull env s req).2.Changes.SnippetTags.length
        = (s.db.snippet_tags.filter (fun st => req.LastSyncAt < st.CreatedAt)).length
    ∧ (Pull env s req).2.Deletions.length
        = (s.db.sync_deletions.filter (fun d => req.LastSyncAt < d.DeletedAt)).length := by
  refine ⟨rfl, ?_, ?_, ?_, ?_, ?_, ?_, ?_, ?_, ?_, ?_, ?_, ?_⟩
  · intro x
    simp only [Pull, List.mem_map, List.mem_filter, toSyncFolderData, gt_iff_lt,
      decide_eq_true_eq]
    constructor
    · rintro ⟨f, ⟨hf, ht⟩, rfl⟩; exact ⟨f, hf, ht, rfl⟩
    · rintro ⟨f, hf, ht, rfl⟩; exact ⟨f, ⟨hf, ht⟩, rfl⟩
  · intro x
    simp only [Pull, List.mem_map, List.mem_filter, toSyncTagData, gt_iff_lt,
      decide_eq_true_eq]
    constructor
    · rintro ⟨f, ⟨hf, ht⟩, rfl⟩; exact ⟨f, hf, ht, rfl⟩
    · rintro ⟨f, hf, ht, rfl⟩; exact ⟨f, ⟨hf, ht⟩, rfl⟩
  · intro x
    simp only [Pull, List.mem_map, List.mem_filter, toSyncSnippetData, gt_iff_lt,
      decide_eq_true_eq]
    constructor
    · rintro ⟨f, ⟨hf, ht⟩, rfl⟩; exact ⟨f, hf, ht, rfl⟩
    · rintro ⟨f, hf, ht, rfl⟩; exact ⟨f, ⟨hf, ht⟩, rfl⟩
  · intro x
    simp only [Pull, List.mem_map, List.mem_filter, toSyncSnippetContentData, gt_iff_lt,
      decide_eq_true_eq]
    constructor
    · rintro ⟨f, ⟨hf, ht⟩, rfl⟩; exact ⟨f, hf, ht, rfl⟩
    · rintro ⟨f, hf, ht, rfl⟩; exact ⟨f, ⟨hf, ht⟩, rfl⟩
  · intro x
    simp only [Pull, List.mem_map, List.mem_filter, toSyncSnippetTagData, gt_iff_lt,
      decide_eq_true_eq]
    constructor
    · rintro ⟨f, ⟨hf, ht⟩, rfl⟩; exact ⟨f, hf, ht, rfl⟩
    · rintro ⟨f, hf, ht, rfl⟩; exact ⟨f, ⟨hf, ht⟩, rfl⟩
  · intro x
    simp only [Pull, List.mem_map, List.mem_filter, toSyncDeletionData, gt_iff_lt,
      decide_eq_true_eq]
    constructor
    · rintro ⟨f, ⟨hf, ht⟩, rfl⟩; exact ⟨f, hf, ht, rfl⟩
    · rintro ⟨f, hf, ht, rfl⟩; exact ⟨f, ⟨hf, ht⟩, rfl⟩
  · simp [Pull]
  · simp [Pull]
  · simp [Pull]
  · simp [Pull]
  · simp [Pull]
  · simp [Pull]

theorem map_filter_eq_map_iff {α β : Type} (f : α → β) (p : α → Bool) (l : List α) :
    (l.filter p).map f = l.map f ↔ ∀ a ∈ l, p a = true := by
  constructor
  · intro h
    have hlen : (l.filter p).length = l.length := by
      have := congrArg List.length h
      simpa using this
    exact List.filter_length_eq_length.mp hlen
  · intro h
    rw [List.filter_eq_self.mpr h]

/-- C12 (amended): for every store state, the changes `Pull` returns for `LastSyncAt = 0`
are the changes `Full` returns exactly when every stored folder, tag, snippet and snippet
content has `UpdatedAt > 0` and every stored snippet-tag row has `CreatedAt > 0`. -/
theorem pull_zero_eq_full_iff (env : Env) (s : Server) :
    (Pull env s { LastSyncAt := 0 }).2.Changes = (Full env s).2.Changes ↔
      ((∀ f ∈ s.db.folders, 0 < f.UpdatedAt)
        ∧ (∀ n ∈ s.db.snippets, 0 < n.UpdatedAt)
        ∧ (∀ c ∈ s.db.snippet_contents, 0 < c.UpdatedAt)
        ∧ (∀ t ∈ s.db.tags, 0 < t.UpdatedAt)
        ∧ (∀ st ∈ s.db.snippet_tags, 0 < st.CreatedAt)) := by
  simp only [Pull, Full, PullChanges.mk.injEq, map_filter_eq_map_iff, gt_iff_lt,
    decide_eq_true_eq]

/-- Witness of C12: every stamp of the sample store is positive, and `Pull` with
`LastSyncAt = 0` returns what `Full` returns. -/
theorem pull_zero_eq_full_witness :
    (Pull sampleEnv sampleServer { LastSyncAt := 0 }).2.Changes
      = (Full sampleEnv sampleServer).2.Changes :=
  (pull_zero_eq_full_iff sampleEnv sampleServer).mpr (by decide)

/-- Counterexample to C12 as stated: a relationship item without `createdAt` binds with
`CreatedAt = 0` and is stored so; in the store left by that push, `Full` returns four
snippet-tag rows and `Pull` with `LastSyncAt = 0` returns three of them. -/
theorem pull_zero_misses_zero_stamp :
    (Push sampleEnv sampleServer
        (snippetTagsRequest [{ SnippetServerID := "s2", TagServerID := "t2", IsNew := true
                               CreatedAt := 0 }])).2
      = PushReply.OK { ServerTime := 1700000000000, IDMappings := [] }
    ∧ (Full sampleEnv (Push sampleEnv sampleServer
        (snippetTagsRequest [{ SnippetServerID := "s2", TagServerID := "t2", IsNew := true
                               CreatedAt := 0 }])).1).2.Changes.SnippetTags
      = [{ SnippetID := "s1", TagID := "t1", CreatedAt := 15 },
         { SnippetID := "s2", TagID := "t1", CreatedAt := 16 },
         { SnippetID := "s1", TagID := "t2", CreatedAt := 17 },
         { SnippetID := "s2", TagID := "t2", CreatedAt := 0 }]
    ∧ (Pull sampleEnv (Push sampleEnv sampleServer
        (snippetTagsRequest [{ SnippetServerID := "s2", TagServerID := "t2", IsNew := true
                               CreatedAt := 0 }])).1 { LastSyncAt := 0 }).2.Changes.SnippetTags
      = [{ SnippetID := "s1", TagID := "t1", CreatedAt := 15 },
         { SnippetID := "s2", TagID := "t1", CreatedAt := 16 },
         { SnippetID := "s1", TagID := "t2", CreatedAt := 17 }] := by
  decide

/-! ## C13, C14: a write the store refuses -/

/-- A push that answers 500 leaves the database as it was: the only error `Push` looks
at is the one of `Create`, and it rolls the transaction back. -/
theorem push_failed_create_rolls_back (env : Env) (s : Server) (req : PushRequest)
    (h : (Push env s req).2 = PushReply.InternalServerError) :
    (Push env s req).1.db = s.db := by
  unfold Push at h ⊢
  split
  · rfl
  · rename_i tx htx
    rw [htx] at h
    cases h

/-- C13, the code at the failing input: the store refuses the update that renames tag
`t1` to `rust`, the name of tag `t2`; the push is answered 200 with the mapping of the
new folder, the folder is stored and tag `t1` is as before. -/
theorem push_refused_update_commits :
    sampleDB.updateTag sampleEnv.sameName "t1" "rust" 30 = none
    ∧ (Push sampleEnv sampleServer refusedRenameRequest).2
      = PushReply.OK
          { ServerTime := 1700000000001, IDMappings := [⟨"folders", 1, "u"⟩] }
    ∧ (Push sampleEnv sampleServer refusedRenameRequest).1.db.folders
      = [sampleFolder,
         { ID := "u", Name := "Inbox", DefaultLanguage := "", ParentID := none, IsOpen := 0
           OrderIndex := 0, Icon := none, CreatedAt := 50, UpdatedAt := 50 }]
    ∧ (Push sampleEnv sampleServer refusedRenameRequest).1.db.tags = [sampleTag, otherTag]
    ∧ (Push sampleEnv sampleServer refusedRenameRequest).1.db ≠ sampleServer.db := by
  decide

/-- C14, the code at the failing input: in the first push the renaming of `t1` to `rust`
is refused (tag `t2` holds the name) and `t2` is renamed; in the second push of the same
request the name is free and `t1` is renamed: the database after two pushes is not the
database after one. -/
theorem push_retry_applies_refused_update :
    (Push sampleEnv sampleServer swapNamesRequest).2
      = PushReply.OK { ServerTime := 1700000000000, IDMappings := [] }
    ∧ (Push sampleEnv sampleServer swapNamesRequest).1.db.tags
      = [sampleTag, { otherTag with Name := "c", UpdatedAt := 30 }]
    ∧ (Push sampleEnv (Push sampleEnv sampleServer swapNamesRequest).1 swapNamesRequest).2
      = PushReply.OK { ServerTime := 1700000000001, IDMappings := [] }
    ∧ (Push sampleEnv (Push sampleEnv sampleServer swapNamesRequest).1
        swapNamesRequest).1.db.tags
      = [{ sampleTag with Name := "rust", UpdatedAt := 30 },
         { otherTag with Name := "c", UpdatedAt := 30 }]
    ∧ (Push sampleEnv (Push sampleEnv sampleServer swapNamesRequest).1
        swapNamesRequest).1.db
      ≠ (Push sampleEnv sampleServer swapNamesRequest).1.db := by
  decide

/-! ## C15, C16: a new folder -/

/-- What a push of one new folder item commits when the drawn identity is not the
identity of a stored folder. -/
theorem Push_new_folder (env : Env) (s : Server) (item : PushChangeItem)
    (hNew : item.IsNew = true) (hfresh : ∀ x ∈ s.db.folders, x.ID ≠ env.uuid s.uuids) :
    Push env s (foldersRequest [item])
      = ({ db := { s.db with folders := s.db.folders ++
                    [{ ID := env.uuid s.uuids
                       Name := getString item.Data "name"
                       DefaultLanguage := getString item.Data "defaultLanguage"
                       ParentID := getStringPtr item.Data "parentId"
                       IsOpen := getInt item.Data "isOpen"
                       OrderIndex := getInt item.Data "orderIndex"
                       Icon := getStringPtr item.Data "icon"
                       CreatedAt := autoTime (env.now s.ticks) (getInt64 item.Data "createdAt")
                       UpdatedAt := autoTime (env.now s.ticks)
                         (getInt64 item.Data "updatedAt") }] }
           uuids := s.uuids + 1, ticks := s.ticks + 1 + 1 },
         PushReply.OK
           { ServerTime := env.now (s.ticks + 1)
             IDMappings := [⟨"folders", item.LocalID, env.uuid s.uuids⟩] }) := by
  have hany : s.db.folders.any (fun x => x.ID == env.uuid s.uuids) = false := by
    rw [List.any_eq_false]
    intro x hx
    simpa using hfresh x hx
  have hp : pushItems env (foldersRequest [item])
      { db := s.db, uuids := s.uuids, ticks := s.ticks, idMappings := [] }
      = Except.ok
          { db := { s.db with folders := s.db.folders ++
                    [{ ID := env.uuid s.uuids
                       Name := getString item.Data "name"
                       DefaultLanguage := getString item.Data "defaultLanguage"
                       ParentID := getStringPtr item.Data "parentId"
                       IsOpen := getInt item.Data "isOpen"
                       OrderIndex := getInt item.Data "orderIndex"
                       Icon := getStringPtr item.Data "icon"
                       CreatedAt := autoTime (env.now s.ticks) (getInt64 item.Data "createdAt")
                       UpdatedAt := autoTime (env.now s.ticks)
                         (getInt64 item.Data "updatedAt") }] }
            uuids := s.uuids + 1, ticks := s.ticks + 1
            idMappings := [⟨"folders", item.LocalID, env.uuid s.uuids⟩] } := by
    rw [pushItems_folders]
    simp [pushFolder, hNew, DB.createFolder, hany]
  exact Push_of_pushItems_ok env s _ _ hp

/-- A push of one new folder item is answered 200 only when the drawn identity is not the
identity of a stored folder. -/
theorem Push_new_folder_ok_fresh (env : Env) (s s' : Server) (item : PushChangeItem)
    (resp : PushResponse) (hNew : item.IsNew = true)
    (h : Push env s (foldersRequest [item]) = (s', PushReply.OK resp)) :
    ∀ x ∈ s.db.folders, x.ID ≠ env.uuid s.uuids := by
  by_contra hcon
  have hany : s.db.folders.any (fun x => x.ID == env.uuid s.uuids) = true := by
    rw [List.any_eq_true]
    push_neg at hcon
    obtain ⟨x, hx, hid⟩ := hcon
    exact ⟨x, hx, by simp [hid]⟩
  have hp : pushItems env (foldersRequest [item])
      { db := s.db, uuids := s.uuids, ticks := s.ticks, idMappings := [] }
      = Except.error { db := s.db, uuids := s.uuids + 1, ticks := s.ticks + 1,
                       idMappings := [] } := by
    rw [pushItems_folders]
    simp [pushFolder, hNew, DB.createFolder, hany]
  simp [Push, hp] at h

/-- C15 (amended): a body that does not bind is answered 400 and nothing is applied.  A
body that binds is never answered 400, whatever the data of its items hold: an entry
that is missing or of another type is read as the empty string, `nil` or 0.  So a new
folder whose data has no name is stored with the empty name and mapped, and an update
whose `updatedAt` is a string is read as stamped 0 and discarded as stale by a row
with a stamp of 0 or more. -/
theorem push_reads_defaults (env : Env) (s : Server) :
    PushHandler env s none = (s, HandlerReply.BadRequest)
    ∧ (∀ req, PushHandler env s (some req)
        = ((Push env s req).1, HandlerReply.Bound (Push env s req).2))
    ∧ (∀ (data : Data) (key : String), (∀ str, data key ≠ some (Value.string str)) →
        getString data key = "" ∧ getStringPtr data key = none)
    ∧ (∀ (data : Data) (key : String), (∀ f, data key ≠ some (Value.float64 f)) →
        (∀ n, data key ≠ some (Value.int n)) → (∀ n, data key ≠ some (Value.int64 n)) →
        getInt data key = 0 ∧ getInt64 data key = 0)
    ∧ (∀ item : PushChangeItem, item.IsNew = true → item.Data "name" = none →
        (∀ x ∈ s.db.folders, x.ID ≠ env.uuid s.uuids) →
        (PushHandler env s (some (foldersRequest [item]))).2
          = HandlerReply.Bound (PushReply.OK
              { ServerTime := env.now (s.ticks + 1)
                IDMappings := [⟨"folders", item.LocalID, env.uuid s.uuids⟩] })
        ∧ ∃ f ∈ (PushHandler env s (some (foldersRequest [item]))).1.db.folders,
            f.ID = env.uuid s.uuids ∧ f.Name = "")
    ∧ (∀ (item : PushChangeItem) (X str : String) (e : Folder), item.IsNew = false →
        item.ServerID = some X → item.Data "updatedAt" = some (Value.string str) →
        s.db.folders.find? (fun x => x.ID == X) = some e → 0 ≤ e.UpdatedAt →
        PushHandler env s (some (foldersRequest [item]))
          = ({ s with ticks := s.ticks + 1 },
             HandlerReply.Bound (PushReply.OK
               { ServerTime := env.now s.ticks, IDMappings := [] }))) := by
  refine ⟨rfl, fun _ => rfl, ?_, ?_, ?_, ?_⟩
  · intro data key h
    unfold getString getStringPtr
    cases hd : data key with
    | none => exact ⟨rfl, rfl⟩
    | some v =>
      cases v with
      | string str => exact absurd hd (h str)
      | _ => exact ⟨rfl, rfl⟩
  · intro data key hf hi hj
    unfold getInt getInt64
    cases hd : data key with
    | none => exact ⟨rfl, rfl⟩
    | some v =>
      cases v with
      | float64 f => exact absurd hd (hf f)
      | int n => exact absurd hd (hi n)
      | int64 n => exact absurd hd (hj n)
      | _ => exact ⟨rfl, rfl⟩
  · intro item hNew hname hfresh
    have hp := Push_new_folder env s item hNew hfresh
    constructor
    · simp only [PushHandler, hp]
    · simp only [PushHandler, hp]
      exact ⟨_, List.mem_append_right _ (List.mem_singleton_self _), rfl,
        by simp [getString, hname]⟩
  · intro item X str e hNew hId hstamp he hpos
    have h1 : ∀ i ∈ [item], i.IsNew = false := by simp [hNew]
    have hz : getInt64 item.Data "updatedAt" = 0 := by simp [getInt64, hstamp]
    simp only [PushHandler, Push_folder_updates env s [item] h1, List.foldl_cons,
      List.foldl_nil]
    rw [updateFolders_stale item X s.db e hId he (by rw [hz]; exact hpos)]

/-- Witness of C15: the two items pushed to the sample store. -/
theorem push_reads_defaults_witness :
    (∃ f ∈ (PushHandler sampleEnv sampleServer
          (some (foldersRequest [bareNewItem]))).1.db.folders, f.ID = "u" ∧ f.Name = "")
    ∧ PushHandler sampleEnv sampleServer (some (foldersRequest [stringStampItem]))
      = ({ sampleServer with ticks := 1 },
         HandlerReply.Bound (PushReply.OK
           { ServerTime := 1700000000000, IDMappings := [] })) :=
  ⟨((push_reads_defaults sampleEnv sampleServer).2.2.2.2.1 bareNewItem rfl rfl
      (by decide)).2,
   (push_reads_defaults sampleEnv sampleServer).2.2.2.2.2 stringStampItem "f1" "30"
      sampleFolder rfl rfl rfl (by decide) (by decide)⟩

/-- Counterexample to C15 as stated: a new folder item whose data is the empty object is
answered 200 with a mapping and a folder with the empty name is stored; an update item
whose `updatedAt` is the string `30` is answered 200 and changes nothing. -/
theorem push_accepts_missing_name :
    PushHandler sampleEnv sampleServer (some (foldersRequest [bareNewItem]))
      = ({ db := { sampleDB with
                   folders := [sampleFolder,
                     { ID := "u", Name := "", DefaultLanguage := "", ParentID := none
                       IsOpen := 0, OrderIndex := 0, Icon := none
                       CreatedAt := 1700000000, UpdatedAt := 1700000000 }] }
           uuids := 1, ticks := 2 },
         HandlerReply.Bound (PushReply.OK
           { ServerTime := 1700000000001, IDMappings := [⟨"folders", 5, "u"⟩] }))
    ∧ PushHandler sampleEnv sampleServer (some (foldersRequest [stringStampItem]))
      = ({ db := sampleDB, uuids := 0, ticks := 1 },
         HandlerReply.Bound (PushReply.OK
           { ServerTime := 1700000000000, IDMappings := [] })) := by
  decide

/-- C16 (amended): a push of one new folder item that is answered 200 returns exactly one
mapping, of table `folders`, with the local reference of the item and the drawn
identity.  A following `Pull` with `LastSyncAt = 0` holds a folder with that identity and
the pushed name exactly when the `UpdatedAt` under which the folder was stored is
greater than 0: the `updatedAt` of the data when that is a number other than 0, else
the Unix time of the server.  In particular it does when the `updatedAt` of the data is
greater than 0. -/
theorem push_new_folder_then_pull (env : Env) (s s' : Server) (item : PushChangeItem)
    (resp : PushResponse) (hNew : item.IsNew = true)
    (h : Push env s (foldersRequest [item]) = (s', PushReply.OK resp)) :
    resp.IDMappings = [⟨"folders", item.LocalID, env.uuid s.uuids⟩]
    ∧ ((∃ f ∈ (Pull env s' { LastSyncAt := 0 }).2.Changes.Folders,
          f.ID = env.uuid s.uuids ∧ f.Name = getString item.Data "name")
        ↔ 0 < autoTime (env.now s.ticks) (getInt64 item.Data "updatedAt"))
    ∧ (0 < getInt64 item.Data "updatedAt" →
        ∃ f ∈ (Pull env s' { LastSyncAt := 0 }).2.Changes.Folders,
          f.ID = env.uuid s.uuids ∧ f.Name = getString item.Data "name") := by
  have hfresh := Push_new_folder_ok_fresh env s s' item resp hNew h
  rw [Push_new_folder env s item hNew hfresh] at h
  have hs : s' = _ := (Prod.mk.inj h).1.symm
  have hr : resp = _ := (PushReply.OK.inj (Prod.mk.inj h).2).symm
  have hiff : (∃ f ∈ (Pull env s' { LastSyncAt := 0 }).2.Changes.Folders,
        f.ID = env.uuid s.uuids ∧ f.Name = getString item.Data "name")
      ↔ 0 < autoTime (env.now s.ticks) (getInt64 item.Data "updatedAt") := by
    rw [hs]
    simp only [Pull, List.mem_map, List.mem_filter, List.mem_append, List.mem_singleton,
      gt_iff_lt, decide_eq_true_eq]
    constructor
    · rintro ⟨f, ⟨g, ⟨hg | hg, hpos⟩, rfl⟩, hid, _⟩
      · exact absurd hid (hfresh g hg)
      · rw [hg] at hpos; exact hpos
    · intro hpos
      exact ⟨_, ⟨_, ⟨Or.inr rfl, hpos⟩, rfl⟩, rfl, rfl⟩
  refine ⟨by rw [hr], hiff, ?_⟩
  intro hpos
  apply hiff.mpr
  have hne : getInt64 item.Data "updatedAt" ≠ 0 := ne_of_gt hpos
  simpa [autoTime, hne] using hpos

/-- Witness of C16: a new folder named `Inbox` with `updatedAt = 50` is pushed to the
sample store and pulled. -/
theorem push_new_folder_then_pull_witness :
    (Push sampleEnv sampleServer (foldersRequest [newItem 1 "Inbox" 50])).2
      = PushReply.OK { ServerTime := 1700000000001, IDMappings := [⟨"folders", 1, "u"⟩] }
    ∧ ∃ f ∈ (Pull sampleEnv (Push sampleEnv sampleServer
          (foldersRequest [newItem 1 "Inbox" 50])).1 { LastSyncAt := 0 }).2.Changes.Folders,
        f.ID = "u" ∧ f.Name = "Inbox" := by
  have hreply : (Push sampleEnv sampleServer (foldersRequest [newItem 1 "Inbox" 50])).2
      = PushReply.OK { ServerTime := 1700000000001, IDMappings := [⟨"folders", 1, "u"⟩] } := by
    decide
  exact ⟨hreply, (push_new_folder_then_pull sampleEnv sampleServer
    (Push sampleEnv sampleServer (foldersRequest [newItem 1 "Inbox" 50])).1
    (newItem 1 "Inbox" 50) _ rfl (Prod.ext rfl hreply)).2.2 (by decide)⟩

/-- Counterexample to C16 as stated: a new folder named `Work` whose data carry
`updatedAt = -1` is pushed to the sample store; the push is answered 200 with one
mapping and the folder is stored, but `Pull` with `LastSyncAt = 0` returns the sample
folder only. -/
theorem pull_zero_misses_new_folder :
    (Push sampleEnv sampleServer (foldersRequest [negativeStampItem])).2
      = PushReply.OK { ServerTime := 1700000000001, IDMappings := [⟨"folders", 1, "u"⟩] }
    ∧ (Push sampleEnv sampleServer (foldersRequest [negativeStampItem])).1.db.folders
      = [sampleFolder,
         { ID := "u", Name := "Work", DefaultLanguage := "", ParentID := none, IsOpen := 0
           OrderIndex := 0, Icon := none, CreatedAt := 1700000000, UpdatedAt := -1 }]
    ∧ (Pull sampleEnv (Push sampleEnv sampleServer (foldersRequest [negativeStampItem])).1
        { LastSyncAt := 0 }).2.Changes.Folders
      = [toSyncFolderData sampleFolder] := by
  decide

/-! ## C17: a deletion reaches the next pull -/

/-- What the code does with a deletion of a folder: after a push of the deletion item
`("folders", X, d)`, a `Pull` with any watermark returns no folder with identity `X`; and
when no stored tombstone recorded `X` before the push and the drawn identity is not that
of a stored tombstone, a `Pull` with a watermark below `d` returns the entry
`("folders", X, d)` among its deletions. -/
theorem deletion_propagates (env : Env) (s : Server) (X : String) (d t : Int) :
    (∀ f ∈ (Pull env (Push env s (deletionsRequest [⟨"folders", X, d⟩])).1
          { LastSyncAt := t }).2.Changes.Folders, f.ID ≠ X)
    ∧ ((∀ x ∈ s.db.sync_deletions, x.RecordID ≠ X) →
        (∀ x ∈ s.db.sync_deletions, x.ID ≠ env.uuid s.uuids) → t < d →
        (⟨"folders", X, d⟩ : SyncDeletionData)
          ∈ (Pull env (Push env s (deletionsRequest [⟨"folders", X, d⟩])).1
              { LastSyncAt := t }).2.Deletions) := by
  constructor
  · intro f hf
    rw [Push_deletion] at hf
    simp only [Pull, List.mem_map, List.mem_filter, insertIgnoreSyncDeletion_folders] at hf
    obtain ⟨g, ⟨hg, _⟩, rfl⟩ := hf
    exact mem_filter_ne Folder.ID X s.db.folders g hg
  · intro hnone hfresh ht
    rw [Push_deletion]
    simp only [Pull, List.mem_map, List.mem_filter]
    refine ⟨⟨env.uuid s.uuids, "folders", X, d⟩, ⟨?_, by simpa using ht⟩, rfl⟩
    rw [insertIgnoreSyncDeletion_of_new _ _
      (by rw [deleteRecord_sync_deletions]; exact hfresh)
      (by rw [deleteRecord_sync_deletions]; exact hnone)]
    simp

/-- The sample folder is deleted with `deletedAt = 40` and the store, which holds no
tombstone, is pulled with the watermark 10. -/
theorem deletion_propagates_witness :
    (⟨"folders", "f1", 40⟩ : SyncDeletionData)
      ∈ (Pull sampleEnv (Push sampleEnv sampleServer
          (deletionsRequest [⟨"folders", "f1", 40⟩])).1 { LastSyncAt := 10 }).2.Deletions
    ∧ (Pull sampleEnv (Push sampleEnv sampleServer
          (deletionsRequest [⟨"folders", "f1", 40⟩])).1
        { LastSyncAt := 10 }).2.Changes.Folders = [] :=
  ⟨(deletion_propagates sampleEnv sampleServer "f1" 40 10).2 (by decide) (by decide)
      (by decide),
   by decide⟩

/-- C17, the code at the failing input: the store holds folder `f1` and a tombstone
stamped 5 that records `f1` under the table name `folder`.  The deletion item
`("folders", "f1", 40)` removes the folder; its tombstone is dropped by `INSERT IGNORE`,
because the unique index named `uk_table_record` covers `record_id` alone; and a `Pull`
with the watermark 10 returns no deletion at all, where the claim has it return the
entry `("folders", "f1")`. -/
theorem deletion_hidden_by_older_tombstone :
    mislabelledServer.db.folders = [sampleFolder]
    ∧ mislabelledServer.db.sync_deletions
      = [{ ID := "u", EntityTable := "folder", RecordID := "f1", DeletedAt := 5 }]
    ∧ (Push sampleEnv mislabelledServer (deletionsRequest [⟨"folders", "f1", 40⟩])).2
      = PushReply.OK { ServerTime := 1700000000001, IDMappings := [] }
    ∧ (Push sampleEnv mislabelledServer
        (deletionsRequest [⟨"folders", "f1", 40⟩])).1.db.folders = []
    ∧ (Push sampleEnv mislabelledServer
        (deletionsRequest [⟨"folders", "f1", 40⟩])).1.db.sync_deletions
      = [{ ID := "u", EntityTable := "folder", RecordID := "f1", DeletedAt := 5 }]
    ∧ (Pull sampleEnv (Push sampleEnv mislabelledServer
          (deletionsRequest [⟨"folders", "f1", 40⟩])).1 { LastSyncAt := 10 }).2.Deletions
      = [] := by
  decide

/-! ## C19: relationship items -/

theorem Push_snippetTag (env : Env) (s : Server) (item : PushSnippetTagItem)
    (hNew : item.IsNew = true) :
    Push env s (snippetTagsRequest [item])
      = ({ db := s.db.insertIgnoreSnippetTag
                  { SnippetID := item.SnippetServerID, TagID := item.TagServerID
                    CreatedAt := item.CreatedAt }
           uuids := s.uuids, ticks := s.ticks + 1 },
         PushReply.OK { ServerTime := env.now s.ticks, IDMappings := [] }) := by
  have hp : pushItems env (snippetTagsRequest [item])
      { db := s.db, uuids := s.uuids, ticks := s.ticks, idMappings := [] }
      = Except.ok
          { db := s.db.insertIgnoreSnippetTag
                    { SnippetID := item.SnippetServerID, TagID := item.TagServerID
                      CreatedAt := item.CreatedAt }
            uuids := s.uuids, ticks := s.ticks, idMappings := [] } := by
    simp [pushItems, snippetTagsRequest, pushSnippetTag, hNew]
    rfl
  exact Push_of_pushItems_ok env s _ _ hp

theorem Push_snippetTag_twice (env : Env) (s : Server) (item : PushSnippetTagItem)
    (hNew : item.IsNew = true) :
    Push env s (snippetTagsRequest [item, item])
      = ({ db := (s.db.insertIgnoreSnippetTag
                  { SnippetID := item.SnippetServerID, TagID := item.TagServerID
                    CreatedAt := item.CreatedAt }).insertIgnoreSnippetTag
                  { SnippetID := item.SnippetServerID, TagID := item.TagServerID
                    CreatedAt := item.CreatedAt }
           uuids := s.uuids, ticks := s.ticks + 1 },
         PushReply.OK { ServerTime := env.now s.ticks, IDMappings := [] }) := by
  have hp : pushItems env (snippetTagsRequest [item, item])
      { db := s.db, uuids := s.uuids, ticks := s.ticks, idMappings := [] }
      = Except.ok
          { db := (s.db.insertIgnoreSnippetTag
                    { SnippetID := item.SnippetServerID, TagID := item.TagServerID
                      CreatedAt := item.CreatedAt }).insertIgnoreSnippetTag
                    { SnippetID := item.SnippetServerID, TagID := item.TagServerID
                      CreatedAt := item.CreatedAt }
            uuids := s.uuids, ticks := s.ticks, idMappings := [] } := by
    simp [pushItems, snippetTagsRequest, pushSnippetTag, hNew]
    rfl
  exact Push_of_pushItems_ok env s _ _ hp

theorem insertIgnoreSnippetTag_of_present (db : DB) (st : SnippetTag)
    (h : ∃ x ∈ db.snippet_tags, x.SnippetID = st.SnippetID ∧ x.TagID = st.TagID) :
    db.insertIgnoreSnippetTag st = db := by
  obtain ⟨x, hx, h1, h2⟩ := h
  have : db.snippet_tags.any (fun x => x.SnippetID == st.SnippetID && x.TagID == st.TagID)
      = true := by
    rw [List.any_eq_true]
    exact ⟨x, hx, by simp [h1, h2]⟩
  simp [DB.insertIgnoreSnippetTag, this]

theorem insertIgnoreSnippetTag_of_absent (db : DB) (st : SnippetTag)
    (h : ∀ x ∈ db.snippet_tags, ¬ (x.SnippetID = st.SnippetID ∧ x.TagID = st.TagID)) :
    db.insertIgnoreSnippetTag st = { db with snippet_tags := db.snippet_tags ++ [st] } := by
  have : db.snippet_tags.any (fun x => x.SnippetID == st.SnippetID && x.TagID == st.TagID)
      = false := by
    rw [List.any_eq_false]
    intro x hx
    have := h x hx
    simpa using this
  simp [DB.insertIgnoreSnippetTag, this]

theorem present_after_insertIgnoreSnippetTag (db : DB) (st : SnippetTag) :
    ∃ x ∈ (db.insertIgnoreSnippetTag st).snippet_tags,
      x.SnippetID = st.SnippetID ∧ x.TagID = st.TagID := by
  by_cases h : ∃ x ∈ db.snippet_tags, x.SnippetID = st.SnippetID ∧ x.TagID = st.TagID
  · rw [insertIgnoreSnippetTag_of_present db st h]; exact h
  · have hab : ∀ x ∈ db.snippet_tags, ¬ (x.SnippetID = st.SnippetID ∧ x.TagID = st.TagID) :=
      fun x hx hp => h ⟨x, hx, hp⟩
    rw [insertIgnoreSnippetTag_of_absent db st hab]
    exact ⟨st, by simp, rfl, rfl⟩

theorem length_filter_pair_eq_one (S T : String) (l : List SnippetTag)
    (hnd : (l.map (fun x => (x.SnippetID, x.TagID))).Nodup)
    (hex : ∃ x ∈ l, x.SnippetID = S ∧ x.TagID = T) :
    (l.filter (fun x => x.SnippetID == S && x.TagID == T)).length = 1 := by
  induction l with
  | nil => obtain ⟨x, hx, _⟩ := hex; cases hx
  | cons a l ih =>
    rw [List.map_cons, List.nodup_cons] at hnd
    by_cases ha : a.SnippetID = S ∧ a.TagID = T
    · have hnone : l.filter (fun x => x.SnippetID == S && x.TagID == T) = [] := by
        rw [List.filter_eq_nil_iff]
        intro x hx hkx
        have hkx2 : x.SnippetID = S ∧ x.TagID = T := by simpa using hkx
        apply hnd.1
        rw [List.mem_map]
        exact ⟨x, hx, by rw [hkx2.1, hkx2.2, ha.1, ha.2]⟩
      simp [List.filter_cons, ha.1, ha.2, hnone]
    · obtain ⟨x, hx, hkx⟩ := hex
      have hxl : x ∈ l := by
        rcases List.mem_cons.mp hx with h | h
        · exact absurd (h ▸ hkx) ha
        · exact h
      have hb : (a.SnippetID == S && a.TagID == T) = false := by
        simpa using ha
      simp [List.filter_cons, hb, ih hnd.2 ⟨x, hxl, hkx⟩]

theorem nodup_after_insertIgnoreSnippetTag (db : DB) (st : SnippetTag)
    (hnd : (db.snippet_tags.map (fun x => (x.SnippetID, x.TagID))).Nodup) :
    ((db.insertIgnoreSnippetTag st).snippet_tags.map
      (fun x => (x.SnippetID, x.TagID))).Nodup := by
  by_cases h : ∃ x ∈ db.snippet_tags, x.SnippetID = st.SnippetID ∧ x.TagID = st.TagID
  · rw [insertIgnoreSnippetTag_of_present db st h]; exact hnd
  · have hab : ∀ x ∈ db.snippet_tags, ¬ (x.SnippetID = st.SnippetID ∧ x.TagID = st.TagID) :=
      fun x hx hp => h ⟨x, hx, hp⟩
    rw [insertIgnoreSnippetTag_of_absent db st hab]
    simp only [List.map_append, List.map_cons, List.map_nil]
    rw [List.nodup_append]
    refine ⟨hnd, List.nodup_singleton _, ?_⟩
    intro a ha hb
    rw [List.mem_singleton] at hb
    obtain ⟨x, hx, hxa⟩ := List.mem_map.mp ha
    apply hab x hx
    rw [hb] at hxa
    exact ⟨(Prod.mk.inj hxa).1, (Prod.mk.inj hxa).2⟩

/-- C19: in a store whose snippet-tag rows have pairwise different pairs (the primary
key), a push of one relationship item with `isNew = true` is answered 200 and leaves
exactly one row for the pair of the item.  When a row for the pair was stored the
database is as before, that row and its `createdAt` included; when none was stored the
row of the item is appended.  Pushing the item twice, in one push or in two pushes in a
row, leaves the database that pushing it once leaves. -/
theorem relationship_insert_if_absent (env : Env) (s : Server) (item : PushSnippetTagItem)
    (hNew : item.IsNew = true)
    (hUnique : (s.db.snippet_tags.map (fun x => (x.SnippetID, x.TagID))).Nodup) :
    (Push env s (snippetTagsRequest [item])).2
        = PushReply.OK { ServerTime := env.now s.ticks, IDMappings := [] }
    ∧ ((Push env s (snippetTagsRequest [item])).1.db.snippet_tags.filter
          (fun x => x.SnippetID == item.SnippetServerID && x.TagID == item.TagServerID)).length
        = 1
    ∧ ((∃ x ∈ s.db.snippet_tags,
          x.SnippetID = item.SnippetServerID ∧ x.TagID = item.TagServerID) →
        (Push env s (snippetTagsRequest [item])).1.db = s.db)
    ∧ ((∀ x ∈ s.db.snippet_tags,
          ¬ (x.SnippetID = item.SnippetServerID ∧ x.TagID = item.TagServerID)) →
        (Push env s (snippetTagsRequest [item])).1.db
          = { s.db with snippet_tags := s.db.snippet_tags ++
                [{ SnippetID := item.SnippetServerID, TagID := item.TagServerID
                   CreatedAt := item.CreatedAt }] })
    ∧ (Push env (Push env s (snippetTagsRequest [item])).1 (snippetTagsRequest [item])).2
        = PushReply.OK { ServerTime := env.now (s.ticks + 1), IDMappings := [] }
    ∧ (Push env (Push env s (snippetTagsRequest [item])).1 (snippetTagsRequest [item])).1.db
        = (Push env s (snippetTagsRequest [item])).1.db
    ∧ (Push env s (snippetTagsRequest [item, item])).1.db
        = (Push env s (snippetTagsRequest [item])).1.db := by
  have hpres := present_after_insertIgnoreSnippetTag s.db
    { SnippetID := item.SnippetServerID, TagID := item.TagServerID
      CreatedAt := item.CreatedAt }
  have hnd := nodup_after_insertIgnoreSnippetTag s.db
    { SnippetID := item.SnippetServerID, TagID := item.TagServerID
      CreatedAt := item.CreatedAt } hUnique
  have hagain := insertIgnoreSnippetTag_of_present _
    { SnippetID := item.SnippetServerID, TagID := item.TagServerID
      CreatedAt := item.CreatedAt } hpres
  refine ⟨?_, ?_, ?_, ?_, ?_, ?_, ?_⟩
  · rw [Push_snippetTag env s item hNew]
  · rw [Push_snippetTag env s item hNew]
    exact length_filter_pair_eq_one _ _ _ hnd hpres
  · intro h
    rw [Push_snippetTag env s item hNew]
    exact insertIgnoreSnippetTag_of_present s.db _ h
  · intro h
    rw [Push_snippetTag env s item hNew]
    exact insertIgnoreSnippetTag_of_absent s.db _ h
  · rw [Push_snippetTag env _ item hNew, Push_snippetTag env s item hNew]
  · rw [Push_snippetTag env _ item hNew, Push_snippetTag env s item hNew]
    exact hagain
  · rw [Push_snippetTag_twice env s item hNew, Push_snippetTag env s item hNew]
    exact hagain

/-- Witness of C19: the pair `(s2, t2)` is not associated in the sample store and is
appended; the pair `(s1, t1)` is, with `createdAt = 15`, and stays as stored. -/
theorem relationship_insert_if_absent_witness :
    (Push sampleEnv sampleServer
        (snippetTagsRequest [⟨"s2", "t2", true, 99⟩])).1.db.snippet_tags
      = [{ SnippetID := "s1", TagID := "t1", CreatedAt := 15 },
         { SnippetID := "s2", TagID := "t1", CreatedAt := 16 },
         { SnippetID := "s1", TagID := "t2", CreatedAt := 17 },
         { SnippetID := "s2", TagID := "t2", CreatedAt := 99 }]
    ∧ (Push sampleEnv sampleServer (snippetTagsRequest [⟨"s1", "t1", true, 99⟩])).1.db
      = sampleDB := by
  have h1 := (relationship_insert_if_absent sampleEnv sampleServer ⟨"s2", "t2", true, 99⟩
    rfl (by decide)).2.2.2.1 (by decide)
  have h2 := (relationship_insert_if_absent sampleEnv sampleServer ⟨"s1", "t1", true, 99⟩
    rfl (by decide)).2.2.1 (by decide)
  exact ⟨by rw [h1]; decide, h2⟩

/-! ## The deletion loop -/

theorem mem_insertIgnoreSyncDeletion (db : DB) (d x : SyncDeletion)
    (hx : x ∈ (db.insertIgnoreSyncDeletion d).sync_deletions) :
    x ∈ db.sync_deletions ∨ x = d := by
  unfold DB.insertIgnoreSyncDeletion at hx
  split at hx
  · exact Or.inl hx
  · rcases List.mem_append.mp hx with h | h
    · exact Or.inl h
    · exact Or.inr (List.mem_singleton.mp h)

theorem mem_insertIgnoreSyncDeletion_of_mem (db : DB) (d x : SyncDeletion)
    (hx : x ∈ db.sync_deletions) : x ∈ (db.insertIgnoreSyncDeletion d).sync_deletions := by
  unfold DB.insertIgnoreSyncDeletion
  split
  · exact hx
  · exact List.mem_append_left _ hx

theorem pushDeletion_sync_deletions (env : Env) (tx : Tx) (del : SyncDeletionData) :
    (pushDeletion env tx del).db.sync_deletions
      = (tx.db.insertIgnoreSyncDeletion
          { ID := env.uuid tx.uuids, EntityTable := del.TableName
            RecordID := del.RecordID, DeletedAt := del.DeletedAt }).sync_deletions := by
  unfold pushDeletion
  simp only
  unfold DB.insertIgnoreSyncDeletion
  rw [deleteRecord_sync_deletions]
  split
  · exact deleteRecord_sync_deletions tx.db del
  · simp only [deleteRecord_sync_deletions]

theorem recorded_pushDeletion (env : Env) (tx : Tx) (del : SyncDeletionData)
    (hInv : freshFrom env tx.uuids tx.db) :
    (pushDeletion env tx del).db.recorded del.RecordID := by
  unfold DB.recorded
  rw [pushDeletion_sync_deletions]
  exact recorded_after_insertIgnore tx.db
    { ID := env.uuid tx.uuids, EntityTable := del.TableName
      RecordID := del.RecordID, DeletedAt := del.DeletedAt }
    (fun x hx => hInv x hx tx.uuids (Nat.le_refl _))

theorem mem_pushDeletion_of_mem (env : Env) (tx : Tx) (del : SyncDeletionData)
    (x : SyncDeletion) (hx : x ∈ tx.db.sync_deletions) :
    x ∈ (pushDeletion env tx del).db.sync_deletions := by
  rw [pushDeletion_sync_deletions]
  exact mem_insertIgnoreSyncDeletion_of_mem _ _ _ hx

theorem freshFrom_pushDeletion (env : Env) (tx : Tx) (del : SyncDeletionData)
    (hinj : ∀ i j, env.uuid i = env.uuid j → i = j)
    (hInv : freshFrom env tx.uuids tx.db) :
    freshFrom env (pushDeletion env tx del).uuids (pushDeletion env tx del).db := by
  intro x hx j hj
  have hu : (pushDeletion env tx del).uuids = tx.uuids + 1 := rfl
  rw [hu] at hj
  rw [pushDeletion_sync_deletions] at hx
  rcases mem_insertIgnoreSyncDeletion _ _ _ hx with h | h
  · exact hInv x h j (by omega)
  · rw [h]
    intro heq
    have := hinj _ _ heq
    omega

/-- The tombstones after the deletion loop: the stored ones are kept, every deletion item
is recorded, and the identities to come are still unused. -/
theorem foldl_pushDeletion_tombstones (env : Env)
    (hinj : ∀ i j, env.uuid i = env.uuid j → i = j) (dels : List SyncDeletionData) (tx : Tx)
    (hInv : freshFrom env tx.uuids tx.db) :
    (∀ x ∈ tx.db.sync_deletions, x ∈ (dels.foldl (pushDeletion env) tx).db.sync_deletions)
    ∧ (∀ del ∈ dels, (dels.foldl (pushDeletion env) tx).db.recorded del.RecordID)
    ∧ freshFrom env (dels.foldl (pushDeletion env) tx).uuids
        (dels.foldl (pushDeletion env) tx).db := by
  induction dels generalizing tx with
  | nil => exact ⟨fun x hx => hx, fun del hd => absurd hd (List.not_mem_nil _), hInv⟩
  | cons a rest ih =>
    rw [List.foldl_cons]
    have hInv1 := freshFrom_pushDeletion env tx a hinj hInv
    have h1 := ih (pushDeletion env tx a) hInv1
    refine ⟨fun x hx => h1.1 x (mem_pushDeletion_of_mem env tx a x hx), ?_, h1.2.2⟩
    intro del hd
    rcases List.mem_cons.mp hd with h | h
    · obtain ⟨x, hx, hr⟩ := recorded_pushDeletion env tx a hInv
      rw [h]
      exact ⟨x, h1.1 x hx, hr⟩
    · exact h1.2.1 del h

/-- A deletion item removes rows and inserts none: every row of an entity table or of
`snippet_tags` after the round was there before. -/
theorem pushDeletion_shrinks (env : Env) (tx : Tx) (del : SyncDeletionData) :
    (∀ x ∈ (pushDeletion env tx del).db.folders, x ∈ tx.db.folders)
    ∧ (∀ x ∈ (pushDeletion env tx del).db.tags, x ∈ tx.db.tags)
    ∧ (∀ x ∈ (pushDeletion env tx del).db.snippets, x ∈ tx.db.snippets)
    ∧ (∀ x ∈ (pushDeletion env tx del).db.snippet_contents, x ∈ tx.db.snippet_contents)
    ∧ (∀ x ∈ (pushDeletion env tx del).db.snippet_tags, x ∈ tx.db.snippet_tags) := by
  unfold pushDeletion
  simp only [insertIgnoreSyncDeletion_folders, insertIgnoreSyncDeletion_tags,
    insertIgnoreSyncDeletion_snippets, insertIgnoreSyncDeletion_snippet_contents,
    insertIgnoreSyncDeletion_snippet_tags]
  unfold deleteRecord
  split_ifs <;>
    exact ⟨fun x hx => by first | exact hx | exact (List.mem_filter.mp hx).1,
      fun x hx => by first | exact hx | exact (List.mem_filter.mp hx).1,
      fun x hx => by first | exact hx | exact (List.mem_filter.mp hx).1,
      fun x hx => by first | exact hx | exact (List.mem_filter.mp hx).1,
      fun x hx => by first | exact hx | exact (List.mem_filter.mp hx).1⟩

theorem foldl_pushDeletion_shrinks (env : Env) (dels : List SyncDeletionData) (tx : Tx) :
    (∀ x ∈ (dels.foldl (pushDeletion env) tx).db.folders, x ∈ tx.db.folders)
    ∧ (∀ x ∈ (dels.foldl (pushDeletion env) tx).db.tags, x ∈ tx.db.tags)
    ∧ (∀ x ∈ (dels.foldl (pushDeletion env) tx).db.snippets, x ∈ tx.db.snippets)
    ∧ (∀ x ∈ (dels.foldl (pushDeletion env) tx).db.snippet_contents,
        x ∈ tx.db.snippet_contents)
    ∧ (∀ x ∈ (dels.foldl (pushDeletion env) tx).db.snippet_tags, x ∈ tx.db.snippet_tags) := by
  induction dels generalizing tx with
  | nil => exact ⟨fun x hx => hx, fun x hx => hx, fun x hx => hx, fun x hx => hx,
      fun x hx => hx⟩
  | cons a rest ih =>
    rw [List.foldl_cons]
    have h1 := ih (pushDeletion env tx a)
    have h0 := pushDeletion_shrinks env tx a
    exact ⟨fun x hx => h0.1 x (h1.1 x hx), fun x hx => h0.2.1 x (h1.2.1 x hx),
      fun x hx => h0.2.2.1 x (h1.2.2.1 x hx), fun x hx => h0.2.2.2.1 x (h1.2.2.2.1 x hx),
      fun x hx => h0.2.2.2.2 x (h1.2.2.2.2 x hx)⟩

/-- What holds of the database right after the round of a deletion item holds after the
whole loop, when it is a property that removing rows cannot break. -/
theorem foldl_pushDeletion_establishes (env : Env) (P : DB → Prop) (del : SyncDeletionData)
    (hkeep : ∀ tx d, P tx.db → P (pushDeletion env tx d).db)
    (hdel : ∀ tx, P (pushDeletion env tx del).db)
    (dels : List SyncDeletionData) (tx : Tx) (hmem : del ∈ dels) :
    P (dels.foldl (pushDeletion env) tx).db := by
  induction dels generalizing tx with
  | nil => exact absurd hmem (List.not_mem_nil _)
  | cons a rest ih =>
    rw [List.foldl_cons]
    rcases List.mem_cons.mp hmem with h | h
    · subst h
      have hkeepAll : ∀ (l : List SyncDeletionData) (tx : Tx), P tx.db →
          P (l.foldl (pushDeletion env) tx).db := by
        intro l
        induction l with
        | nil => intro tx hp; exact hp
        | cons b l ihl =>
          intro tx hp
          rw [List.foldl_cons]
          exact ihl _ (hkeep tx b hp)
      exact hkeepAll rest _ (hdel tx)
    · exact ih _ h

/-! ## The loops before the deletion loop -/

theorem pushItems_split (env : Env) (req : PushRequest) (tx : Tx) :
    pushItems env req tx
      = match pushItems env { Changes := req.Changes, Deletions := [] } tx with
        | Except.ok tx4 => Except.ok (req.Deletions.foldl (pushDeletion env) tx4)
        | Except.error e => Except.error e := by
  unfold pushItems
  cases h1 : req.Changes.Folders.foldlM (pushFolder env) tx with
  | error e => rfl
  | ok tx1 =>
  simp only [bind, Except.bind]
  cases h2 : req.Changes.Tags.foldlM (pushTag env) tx1 with
  | error e => rfl
  | ok tx2 =>
  simp only
  cases h3 : req.Changes.Snippets.foldlM (pushSnippet env) tx2 with
  | error e => rfl
  | ok tx3 =>
  simp only
  cases h4 : req.Changes.SnippetContents.foldlM (pushSnippetContent env) tx3 with
  | error e => rfl
  | ok tx4 => rfl

theorem foldlM_keeps_tombstones (f : Tx → PushChangeItem → Except Tx Tx)
    (hstep : ∀ tx i tx', f tx i = Except.ok tx' →
      tx'.db.sync_deletions = tx.db.sync_deletions ∧ tx.uuids ≤ tx'.uuids)
    (items : List PushChangeItem) (tx tx' : Tx) (h : items.foldlM f tx = Except.ok tx') :
    tx'.db.sync_deletions = tx.db.sync_deletions ∧ tx.uuids ≤ tx'.uuids := by
  induction items generalizing tx with
  | nil =>
    have h2 : (Except.ok tx : Except Tx Tx) = Except.ok tx' := h
    cases h2
    exact ⟨rfl, Nat.le_refl _⟩
  | cons i items ih =>
    rw [List.foldlM_cons] at h
    cases hf : f tx i with
    | error e => rw [hf] at h; cases h
    | ok tx1 =>
      rw [hf] at h
      have h' : items.foldlM f tx1 = Except.ok tx' := h
      have hrec := ih tx1 h'
      have h1 := hstep tx i tx1 hf
      exact ⟨hrec.1.trans h1.1, Nat.le_trans h1.2 hrec.2⟩

theorem pushFolder_keeps_tombstones (env : Env) (tx tx' : Tx) (i : PushChangeItem)
    (hf : pushFolder env tx i = Except.ok tx') :
    tx'.db.sync_deletions = tx.db.sync_deletions ∧ tx.uuids ≤ tx'.uuids := by
  cases hn : i.IsNew with
  | true =>
    have hx := pushFolder_new env tx tx' i hn hf
    rw [hx.1, hx.2.2]
    exact ⟨rfl, Nat.le_succ _⟩
  | false =>
    rw [pushFolder_update env tx i hn] at hf
    cases hf
    unfold updateFolders
    cases i.ServerID <;> exact ⟨rfl, Nat.le_refl _⟩

theorem pushTag_keeps_tombstones (env : Env) (tx tx' : Tx) (i : PushChangeItem)
    (hf : pushTag env tx i = Except.ok tx') :
    tx'.db.sync_deletions = tx.db.sync_deletions ∧ tx.uuids ≤ tx'.uuids := by
  cases hn : i.IsNew with
  | true =>
    have hx := pushTag_new env tx tx' i hn hf
    rw [hx.1, hx.2.2]
    exact ⟨rfl, Nat.le_succ _⟩
  | false =>
    rw [pushTag_update env tx i hn] at hf
    cases hf
    unfold updateTags
    cases i.ServerID <;> exact ⟨rfl, Nat.le_refl _⟩

theorem pushSnippet_keeps_tombstones (env : Env) (tx tx' : Tx) (i : PushChangeItem)
    (hf : pushSnippet env tx i = Except.ok tx') :
    tx'.db.sync_deletions = tx.db.sync_deletions ∧ tx.uuids ≤ tx'.uuids := by
  cases hn : i.IsNew with
  | true =>
    have hx := pushSnippet_new env tx tx' i hn hf
    rw [hx.1, hx.2.2]
    exact ⟨rfl, Nat.le_succ _⟩
  | false =>
    rw [pushSnippet_update env tx i hn] at hf
    cases hf
    unfold updateSnippets
    cases i.ServerID <;> exact ⟨rfl, Nat.le_refl _⟩

theorem pushSnippetContent_keeps_tombstones (env : Env) (tx tx' : Tx) (i : PushChangeItem)
    (hf : pushSnippetContent env tx i = Except.ok tx') :
    tx'.db.sync_deletions = tx.db.sync_deletions ∧ tx.uuids ≤ tx'.uuids := by
  cases hn : i.IsNew with
  | true =>
    have hx := pushSnippetContent_new env tx tx' i hn hf
    rw [hx.1, hx.2.2]
    exact ⟨rfl, Nat.le_succ _⟩
  | false =>
    rw [pushSnippetContent_update env tx i hn] at hf
    cases hf
    unfold updateSnippetContents
    cases i.ServerID <;> exact ⟨rfl, Nat.le_refl _⟩

theorem foldl_pushSnippetTag_keeps_tombstones (items : List PushSnippetTagItem) (tx : Tx) :
    (items.foldl pushSnippetTag tx).db.sync_deletions = tx.db.sync_deletions := by
  induction items generalizing tx with
  | nil => rfl
  | cons i items ih =>
    rw [List.foldl_cons, ih]
    unfold pushSnippetTag
    split
    · simp only
      rw [insertIgnoreSnippetTag_eq]
    · rfl

/-- The loops of a push without deletion items leave the tombstones as they are and draw
identities forward only. -/
theorem pushItems_keeps_tombstones (env : Env) (req : PushRequest) (tx tx' : Tx)
    (hdel : req.Deletions = []) (h : pushItems env req tx = Except.ok tx') :
    tx'.db.sync_deletions = tx.db.sync_deletions ∧ tx.uuids ≤ tx'.uuids := by
  unfold pushItems at h
  cases h1 : req.Changes.Folders.foldlM (pushFolder env) tx with
  | error e => rw [h1] at h; cases h
  | ok tx1 =>
  rw [h1] at h
  cases h2 : req.Changes.Tags.foldlM (pushTag env) tx1 with
  | error e => simp only [bind, Except.bind, h2] at h; cases h
  | ok tx2 =>
  simp only [bind, Except.bind, h2] at h
  cases h3 : req.Changes.Snippets.foldlM (pushSnippet env) tx2 with
  | error e => simp only [h3] at h; cases h
  | ok tx3 =>
  simp only [h3] at h
  cases h4 : req.Changes.SnippetContents.foldlM (pushSnippetContent env) tx3 with
  | error e => simp only [h4] at h; cases h
  | ok tx4 =>
  simp only [h4, hdel, List.foldl_nil] at h
  have h5 : tx' = List.foldl pushSnippetTag tx4 req.Changes.SnippetTags :=
    (Except.ok.inj h).symm
  have k1 := foldlM_keeps_tombstones (pushFolder env)
    (fun tx i tx' hf => pushFolder_keeps_tombstones env tx tx' i hf) _ tx tx1 h1
  have k2 := foldlM_keeps_tombstones (pushTag env)
    (fun tx i tx' hf => pushTag_keeps_tombstones env tx tx' i hf) _ tx1 tx2 h2
  have k3 := foldlM_keeps_tombstones (pushSnippet env)
    (fun tx i tx' hf => pushSnippet_keeps_tombstones env tx tx' i hf) _ tx2 tx3 h3
  have k4 := foldlM_keeps_tombstones (pushSnippetContent env)
    (fun tx i tx' hf => pushSnippetContent_keeps_tombstones env tx tx' i hf) _ tx3 tx4 h4
  have k5 := foldl_pushSnippetTag_keeps_tombstones req.Changes.SnippetTags tx4
  have u5 := (foldl_pushSnippetTag req.Changes.SnippetTags tx4).2
  rw [h5, k5, u5, k4.1, k3.1, k2.1, k1.1]
  exact ⟨rfl, Nat.le_trans k1.2 (Nat.le_trans k2.2 (Nat.le_trans k3.2 k4.2))⟩

/-- A committed push, seen as the loops before the deletion loop followed by the
deletion loop. -/
theorem Push_ok_phases (env : Env) (s s' : Server) (req : PushRequest) (resp : PushResponse)
    (h : Push env s req = (s', PushReply.OK resp)) :
    ∃ tx4, pushItems env { Changes := req.Changes, Deletions := [] }
        { db := s.db, uuids := s.uuids, ticks := s.ticks, idMappings := [] } = Except.ok tx4
      ∧ s'.db = (req.Deletions.foldl (pushDeletion env) tx4).db := by
  obtain ⟨tx, htx, _, hdb⟩ := Push_ok_inv env s s' req resp h
  rw [pushItems_split] at htx
  split at htx
  · rename_i tx4 h4
    exact ⟨tx4, h4, by rw [hdb, ← Except.ok.inj htx]⟩
  · cases htx

/-! ## What the round of a deletion item removes -/

theorem pushDeletion_folders (env : Env) (tx : Tx) (X : String) (d : Int) :
    ∀ x ∈ (pushDeletion env tx ⟨"folders", X, d⟩).db.folders, x.ID ≠ X := by
  unfold pushDeletion
  simp only [insertIgnoreSyncDeletion_folders]
  exact mem_filter_ne Folder.ID X tx.db.folders

theorem pushDeletion_tags (env : Env) (tx : Tx) (X : String) (d : Int) :
    (∀ x ∈ (pushDeletion env tx ⟨"tags", X, d⟩).db.tags, x.ID ≠ X)
    ∧ (∀ x ∈ (pushDeletion env tx ⟨"tags", X, d⟩).db.snippet_tags, x.TagID ≠ X) := by
  unfold pushDeletion
  simp only [insertIgnoreSyncDeletion_tags, insertIgnoreSyncDeletion_snippet_tags]
  exact ⟨mem_filter_ne Tag.ID X tx.db.tags, mem_filter_ne SnippetTag.TagID X tx.db.snippet_tags⟩

theorem pushDeletion_snippets (env : Env) (tx : Tx) (X : String) (d : Int) :
    (∀ x ∈ (pushDeletion env tx ⟨"snippets", X, d⟩).db.snippets, x.ID ≠ X)
    ∧ (∀ x ∈ (pushDeletion env tx ⟨"snippets", X, d⟩).db.snippet_contents, x.SnippetID ≠ X)
    ∧ (∀ x ∈ (pushDeletion env tx ⟨"snippets", X, d⟩).db.snippet_tags, x.SnippetID ≠ X) := by
  unfold pushDeletion
  simp only [insertIgnoreSyncDeletion_snippets, insertIgnoreSyncDeletion_snippet_contents,
    insertIgnoreSyncDeletion_snippet_tags]
  exact ⟨mem_filter_ne Snippet.ID X tx.db.snippets,
    mem_filter_ne SnippetContent.SnippetID X tx.db.snippet_contents,
    mem_filter_ne SnippetTag.SnippetID X tx.db.snippet_tags⟩

theorem pushDeletion_snippet_contents (env : Env) (tx : Tx) (X : String) (d : Int) :
    ∀ x ∈ (pushDeletion env tx ⟨"snippet_contents", X, d⟩).db.snippet_contents, x.ID ≠ X := by
  unfold pushDeletion
  simp only [insertIgnoreSyncDeletion_snippet_contents]
  exact mem_filter_ne SnippetContent.ID X tx.db.snippet_contents

/-- A row of a table that only its own deletion items touch: when it is gone after the
deletion loop, a tombstone records its identity. -/
theorem foldl_pushDeletion_gone_recorded {α : Type} (env : Env) (proj : DB → List α)
    (key : α → String) (table : String)
    (hproj : ∀ (tx : Tx) (del : SyncDeletionData),
      proj (pushDeletion env tx del).db
        = if del.TableName = table then (proj tx.db).filter (fun x => key x != del.RecordID)
          else proj tx.db)
    (hinj : ∀ i j, env.uuid i = env.uuid j → i = j)
    (dels : List SyncDeletionData) (tx : Tx) (hInv : freshFrom env tx.uuids tx.db)
    (x : α) (hx : x ∈ proj tx.db)
    (hgone : ∀ y ∈ proj (dels.foldl (pushDeletion env) tx).db, key y ≠ key x) :
    (dels.foldl (pushDeletion env) tx).db.recorded (key x) := by
  induction dels generalizing tx with
  | nil => exact absurd rfl (hgone x hx)
  | cons a rest ih =>
    rw [List.foldl_cons] at hgone ⊢
    have hInv1 := freshFrom_pushDeletion env tx a hinj hInv
    by_cases hstill : x ∈ proj (pushDeletion env tx a).db
    · exact ih (pushDeletion env tx a) hInv1 hstill hgone
    · have hrec : (pushDeletion env tx a).db.recorded (key x) := by
        rw [hproj tx a] at hstill
        by_cases ht : a.TableName = table
        · rw [if_pos ht] at hstill
          have hk : key x = a.RecordID := by
            by_contra hne
            apply hstill
            rw [List.mem_filter]
            exact ⟨hx, by simpa using hne⟩
          rw [hk]
          exact recorded_pushDeletion env tx a hInv
        · rw [if_neg ht] at hstill
          exact absurd hx hstill
      obtain ⟨r, hr, hrx⟩ := hrec
      exact ⟨r, (foldl_pushDeletion_tombstones env hinj rest _ hInv1).1 r hr, hrx⟩

theorem pushDeletion_folders_eq (env : Env) (tx : Tx) (del : SyncDeletionData) :
    (pushDeletion env tx del).db.folders
      = if del.TableName = "folders" then
          tx.db.folders.filter (fun x => x.ID != del.RecordID)
        else tx.db.folders := by
  unfold pushDeletion
  simp only [insertIgnoreSyncDeletion_folders]
  unfold deleteRecord
  split_ifs <;> rfl

theorem pushDeletion_tags_eq (env : Env) (tx : Tx) (del : SyncDeletionData) :
    (pushDeletion env tx del).db.tags
      = if del.TableName = "tags" then tx.db.tags.filter (fun x => x.ID != del.RecordID)
        else tx.db.tags := by
  unfold pushDeletion
  simp only [insertIgnoreSyncDeletion_tags]
  unfold deleteRecord
  by_cases ht : del.TableName = "tags"
  · simp [ht]
  · simp only [ht, if_false]
    split_ifs <;> rfl

theorem pushDeletion_snippets_eq (env : Env) (tx : Tx) (del : SyncDeletionData) :
    (pushDeletion env tx del).db.snippets
      = if del.TableName = "snippets" then
          tx.db.snippets.filter (fun x => x.ID != del.RecordID)
        else tx.db.snippets := by
  unfold pushDeletion
  simp only [insertIgnoreSyncDeletion_snippets]
  unfold deleteRecord
  by_cases ht : del.TableName = "snippets"
  · simp [ht]
  · simp only [ht, if_false]
    split_ifs <;> rfl

/-! ## C18: which removed records a tombstone covers -/

theorem mem_ids_of_append {α : Type} (key : α → String) (l l' : List α) (extra : List String)
    (h : l'.map key = l.map key ++ extra) (x : α) (hx : x ∈ l) :
    ∃ y ∈ l', key y = key x := by
  have hm : key x ∈ l'.map key := by
    rw [h]
    exact List.mem_append_left _ (List.mem_map_of_mem key hx)
  obtain ⟨y, hy, hk⟩ := List.mem_map.mp hm
  exact ⟨y, hy, hk⟩

/-- Coverage after a push answered 200: stored tombstones are kept, every deletion item is
recorded, and a folder, tag or snippet that is gone is recorded. -/
theorem Push_ok_coverage (env : Env) (s s' : Server) (req : PushRequest)
    (resp : PushResponse) (h : Push env s req = (s', PushReply.OK resp))
    (hinj : ∀ i j, env.uuid i = env.uuid j → i = j)
    (hfresh : ∀ x ∈ s.db.sync_deletions, ∀ k, s.uuids ≤ k → x.ID ≠ env.uuid k) :
    (∀ x ∈ s.db.sync_deletions, x ∈ s'.db.sync_deletions)
    ∧ (∀ del ∈ req.Deletions, ∃ x ∈ s'.db.sync_deletions, x.RecordID = del.RecordID)
    ∧ (∀ f ∈ s.db.folders, (∀ y ∈ s'.db.folders, y.ID ≠ f.ID) →
        ∃ x ∈ s'.db.sync_deletions, x.RecordID = f.ID)
    ∧ (∀ t ∈ s.db.tags, (∀ y ∈ s'.db.tags, y.ID ≠ t.ID) →
        ∃ x ∈ s'.db.sync_deletions, x.RecordID = t.ID)
    ∧ (∀ n ∈ s.db.snippets, (∀ y ∈ s'.db.snippets, y.ID ≠ n.ID) →
        ∃ x ∈ s'.db.sync_deletions, x.RecordID = n.ID) := by
  obtain ⟨tx4, h4, hdb⟩ := Push_ok_phases env s s' req resp h
  have hk := pushItems_keeps_tombstones env _ _ tx4 rfl h4
  have hid := pushItems_identities env _ _ tx4 rfl h4
  simp only at hk hid
  have hInv : freshFrom env tx4.uuids tx4.db := by
    intro x hx j hj
    rw [hk.1] at hx
    exact hfresh x hx j (Nat.le_trans hk.2 hj)
  have hT := foldl_pushDeletion_tombstones env hinj req.Deletions tx4 hInv
  rw [hdb]
  refine ⟨?_, hT.2.1, ?_, ?_, ?_⟩
  · intro x hx
    exact hT.1 x (by rw [hk.1]; exact hx)
  · intro f hf hgone
    obtain ⟨y, hy, hyf⟩ := mem_ids_of_append Folder.ID _ _ _ hid.1 f hf
    rw [← hyf]
    apply foldl_pushDeletion_gone_recorded env (fun db => db.folders) Folder.ID "folders"
      (pushDeletion_folders_eq env) hinj req.Deletions tx4 hInv y hy
    intro z hz
    rw [hyf]
    exact hgone z hz
  · intro t ht hgone
    obtain ⟨y, hy, hyf⟩ := mem_ids_of_append Tag.ID _ _ _ hid.2.1 t ht
    rw [← hyf]
    apply foldl_pushDeletion_gone_recorded env (fun db => db.tags) Tag.ID "tags"
      (pushDeletion_tags_eq env) hinj req.Deletions tx4 hInv y hy
    intro z hz
    rw [hyf]
    exact hgone z hz
  · intro n hn hgone
    obtain ⟨y, hy, hyf⟩ := mem_ids_of_append Snippet.ID _ _ _ hid.2.2.1 n hn
    rw [← hyf]
    apply foldl_pushDeletion_gone_recorded env (fun db => db.snippets) Snippet.ID "snippets"
      (pushDeletion_snippets_eq env) hinj req.Deletions tx4 hInv y hy
    intro z hz
    rw [hyf]
    exact hgone z hz

/-- C18 (amended): in a run where the identity source never repeats a value and none of
its coming values is the identity of a stored tombstone, after every push every stored
tombstone is still there, and every folder, tag and snippet that was stored before the
push and is not stored after it has a tombstone recording its identity; after a push
answered 200 every deletion item of the request has a tombstone recording its
`recordId`.  (Snippet contents removed with their snippet are not covered.) -/
theorem tombstone_coverage (env : Env) (s : Server) (req : PushRequest)
    (hinj : ∀ i j, env.uuid i = env.uuid j → i = j)
    (hfresh : ∀ x ∈ s.db.sync_deletions, ∀ k, s.uuids ≤ k → x.ID ≠ env.uuid k) :
    (∀ x ∈ s.db.sync_deletions, x ∈ (Push env s req).1.db.sync_deletions)
    ∧ (∀ f ∈ s.db.folders, (∀ y ∈ (Push env s req).1.db.folders, y.ID ≠ f.ID) →
        ∃ x ∈ (Push env s req).1.db.sync_deletions, x.RecordID = f.ID)
    ∧ (∀ t ∈ s.db.tags, (∀ y ∈ (Push env s req).1.db.tags, y.ID ≠ t.ID) →
        ∃ x ∈ (Push env s req).1.db.sync_deletions, x.RecordID = t.ID)
    ∧ (∀ n ∈ s.db.snippets, (∀ y ∈ (Push env s req).1.db.snippets, y.ID ≠ n.ID) →
        ∃ x ∈ (Push env s req).1.db.sync_deletions, x.RecordID = n.ID)
    ∧ (∀ resp, (Push env s req).2 = PushReply.OK resp → ∀ del ∈ req.Deletions,
        ∃ x ∈ (Push env s req).1.db.sync_deletions, x.RecordID = del.RecordID) := by
  cases hr : (Push env s req).2 with
  | InternalServerError =>
    have hdb := push_failed_create_rolls_back env s req hr
    rw [hdb]
    refine ⟨fun x hx => hx, ?_, ?_, ?_, ?_⟩
    · intro f hf hgone
      exact absurd rfl (hgone f hf)
    · intro t ht hgone
      exact absurd rfl (hgone t ht)
    · intro n hn hgone
      exact absurd rfl (hgone n hn)
    · intro resp hresp
      cases hresp
  | OK resp =>
    have h := Push_ok_coverage env s _ req resp (Prod.ext rfl hr) hinj hfresh
    exact ⟨h.1, h.2.2.1, h.2.2.2.1, h.2.2.2.2, fun _ _ => h.2.1⟩

/-- The sample identity source never repeats a value. -/
theorem sampleEnv_uuid_injective : ∀ i j, sampleEnv.uuid i = sampleEnv.uuid j → i = j := by
  intro i j h
  have h1 : (sampleEnv.uuid i).length = (sampleEnv.uuid j).length := by rw [h]
  simpa [sampleEnv, String.length] using h1

theorem tombstone_coverage_witness :
    (∃ x ∈ (Push sampleEnv sampleServer
        (deletionsRequest [⟨"snippets", "s1", 40⟩, ⟨"folders", "f1", 41⟩])).1.db.sync_deletions,
      x.RecordID = sampleSnippet.ID)
    ∧ (∃ x ∈ (Push sampleEnv sampleServer
        (deletionsRequest [⟨"snippets", "s1", 40⟩, ⟨"folders", "f1", 41⟩])).1.db.sync_deletions,
      x.RecordID = sampleFolder.ID) :=
  ⟨(tombstone_coverage sampleEnv sampleServer
      (deletionsRequest [⟨"snippets", "s1", 40⟩, ⟨"folders", "f1", 41⟩])
      sampleEnv_uuid_injective
      (fun x hx => absurd hx (List.not_mem_nil x))).2.2.2.1 sampleSnippet (by decide)
      (by decide),
   (tombstone_coverage sampleEnv sampleServer
      (deletionsRequest [⟨"snippets", "s1", 40⟩, ⟨"folders", "f1", 41⟩])
      sampleEnv_uuid_injective
      (fun x hx => absurd hx (List.not_mem_nil x))).2.1 sampleFolder (by decide)
      (by decide)⟩

/-- Counterexample to C18 as stated: the deletion item `("snippets", "s1", 40)` removes
the snippet `s1` and, by cascade, its content `c1`.  The push is answered 200, the log
holds the one tombstone of `s1`, and no tombstone records `c1`. -/
theorem cascade_leaves_no_tombstone :
    sampleContent ∈ sampleServer.db.snippet_contents
    ∧ (Push sampleEnv sampleServer (deletionsRequest [⟨"snippets", "s1", 40⟩])).2
      = PushReply.OK { ServerTime := 1700000000000, IDMappings := [] }
    ∧ (Push sampleEnv sampleServer
        (deletionsRequest [⟨"snippets", "s1", 40⟩])).1.db.snippet_contents = [otherContent]
    ∧ (Push sampleEnv sampleServer
        (deletionsRequest [⟨"snippets", "s1", 40⟩])).1.db.sync_deletions
      = [{ ID := "u", EntityTable := "snippets", RecordID := "s1", DeletedAt := 40 }]
    ∧ ¬ ∃ x ∈ (Push sampleEnv sampleServer
          (deletionsRequest [⟨"snippets", "s1", 40⟩])).1.db.sync_deletions,
        x.RecordID = sampleContent.ID := by
  decide

/-! ## C20: deletions are applied last -/

/-- A push whose four lists of change items hold no new item goes through all its loops:
no `Create` is issued, and nothing else can fail. -/
theorem pushItems_updates_ok (env : Env) (req : PushRequest) (tx : Tx)
    (hF : ∀ i ∈ req.Changes.Folders, i.IsNew = false)
    (hT : ∀ i ∈ req.Changes.Tags, i.IsNew = false)
    (hS : ∀ i ∈ req.Changes.Snippets, i.IsNew = false)
    (hC : ∀ i ∈ req.Changes.SnippetContents, i.IsNew = false) :
    ∃ tx', pushItems env req tx = Except.ok tx' := by
  unfold pushItems
  rw [foldlM_updates (pushFolder env) updateFolders req.Changes.Folders
    (fun i hi tx => pushFolder_update env tx i (hF i hi)) tx]
  simp only [bind, Except.bind]
  rw [foldlM_updates (pushTag env) (updateTags env) req.Changes.Tags
    (fun i hi tx => pushTag_update env tx i (hT i hi))]
  simp only
  rw [foldlM_updates (pushSnippet env) updateSnippets req.Changes.Snippets
    (fun i hi tx => pushSnippet_update env tx i (hS i hi))]
  simp only
  rw [foldlM_updates (pushSnippetContent env) updateSnippetContents req.Changes.SnippetContents
    (fun i hi tx => pushSnippetContent_update env tx i (hC i hi))]
  exact ⟨_, rfl⟩

/-- C20: deletion items are applied after every change item and relationship item of the
same push.  A push whose change items are all update items is answered 200.  After a push
answered 200, whatever its change items and relationship items are (an update item for `X`
with any stamp, a relationship item for the snippet `X`), for a deletion item of the
request with the record identity `X`: named `folders`, no folder `X` is stored; named
`tags`, no tag `X` and no relationship row of the tag `X`; named `snippets`, no snippet
`X`, no content of the snippet `X` and no relationship row of the snippet `X`; named
`snippet_contents`, no content `X`; and, when the identity source never repeats a value
and none of its coming values is the identity of a stored tombstone, a tombstone records
`X`. -/
theorem deletions_applied_last (env : Env) (s : Server) (req : PushRequest) :
    ((∀ i ∈ req.Changes.Folders, i.IsNew = false) →
      (∀ i ∈ req.Changes.Tags, i.IsNew = false) →
      (∀ i ∈ req.Changes.Snippets, i.IsNew = false) →
      (∀ i ∈ req.Changes.SnippetContents, i.IsNew = false) →
      ∃ resp, (Push env s req).2 = PushReply.OK resp)
    ∧ (∀ resp, (Push env s req).2 = PushReply.OK resp → ∀ X d,
      ((⟨"folders", X, d⟩ : SyncDeletionData) ∈ req.Deletions →
        ∀ y ∈ (Push env s req).1.db.folders, y.ID ≠ X)
      ∧ ((⟨"tags", X, d⟩ : SyncDeletionData) ∈ req.Deletions →
        (∀ y ∈ (Push env s req).1.db.tags, y.ID ≠ X)
        ∧ (∀ y ∈ (Push env s req).1.db.snippet_tags, y.TagID ≠ X))
      ∧ ((⟨"snippets", X, d⟩ : SyncDeletionData) ∈ req.Deletions →
        (∀ y ∈ (Push env s req).1.db.snippets, y.ID ≠ X)
        ∧ (∀ y ∈ (Push env s req).1.db.snippet_contents, y.SnippetID ≠ X)
        ∧ (∀ y ∈ (Push env s req).1.db.snippet_tags, y.SnippetID ≠ X))
      ∧ ((⟨"snippet_contents", X, d⟩ : SyncDeletionData) ∈ req.Deletions →
        ∀ y ∈ (Push env s req).1.db.snippet_contents, y.ID ≠ X)
      ∧ ((∀ i j, env.uuid i = env.uuid j → i = j) →
        (∀ x ∈ s.db.sync_deletions, ∀ k, s.uuids ≤ k → x.ID ≠ env.uuid k) →
        ∀ t, (⟨t, X, d⟩ : SyncDeletionData) ∈ req.Deletions →
          ∃ x ∈ (Push env s req).1.db.sync_deletions, x.RecordID = X)) := by
  constructor
  · intro hF hT hS hC
    obtain ⟨tx', h⟩ := pushItems_updates_ok env req
      { db := s.db, uuids := s.uuids, ticks := s.ticks, idMappings := [] } hF hT hS hC
    exact ⟨_, congrArg Prod.snd (Push_of_pushItems_ok env s req tx' h)⟩
  · intro resp hok X d
    have h : Push env s req = ((Push env s req).1, PushReply.OK resp) := Prod.ext rfl hok
    obtain ⟨tx4, h4, hdb⟩ := Push_ok_phases env s _ req resp h
    rw [hdb]
    refine ⟨?_, ?_, ?_, ?_, ?_⟩
    · intro hmem
      exact foldl_pushDeletion_establishes env (fun db => ∀ y ∈ db.folders, y.ID ≠ X)
        ⟨"folders", X, d⟩
        (fun tx e hP y hy => hP y ((pushDeletion_shrinks env tx e).1 y hy))
        (fun tx => pushDeletion_folders env tx X d) req.Deletions tx4 hmem
    · intro hmem
      exact foldl_pushDeletion_establishes env
        (fun db => (∀ y ∈ db.tags, y.ID ≠ X) ∧ (∀ y ∈ db.snippet_tags, y.TagID ≠ X))
        ⟨"tags", X, d⟩
        (fun tx e hP => ⟨fun y hy => hP.1 y ((pushDeletion_shrinks env tx e).2.1 y hy),
          fun y hy => hP.2 y ((pushDeletion_shrinks env tx e).2.2.2.2 y hy)⟩)
        (fun tx => pushDeletion_tags env tx X d) req.Deletions tx4 hmem
    · intro hmem
      exact foldl_pushDeletion_establishes env
        (fun db => (∀ y ∈ db.snippets, y.ID ≠ X)
          ∧ (∀ y ∈ db.snippet_contents, y.SnippetID ≠ X)
          ∧ (∀ y ∈ db.snippet_tags, y.SnippetID ≠ X))
        ⟨"snippets", X, d⟩
        (fun tx e hP => ⟨fun y hy => hP.1 y ((pushDeletion_shrinks env tx e).2.2.1 y hy),
          fun y hy => hP.2.1 y ((pushDeletion_shrinks env tx e).2.2.2.1 y hy),
          fun y hy => hP.2.2 y ((pushDeletion_shrinks env tx e).2.2.2.2 y hy)⟩)
        (fun tx => pushDeletion_snippets env tx X d) req.Deletions tx4 hmem
    · intro hmem
      exact foldl_pushDeletion_establishes env
        (fun db => ∀ y ∈ db.snippet_contents, y.ID ≠ X)
        ⟨"snippet_contents", X, d⟩
        (fun tx e hP y hy => hP y ((pushDeletion_shrinks env tx e).2.2.2.1 y hy))
        (fun tx => pushDeletion_snippet_contents env tx X d) req.Deletions tx4 hmem
    · intro hinj hfresh t hmem
      have hk := pushItems_keeps_tombstones env _ _ tx4 rfl h4
      simp only at hk
      have hInv : freshFrom env tx4.uuids tx4.db := by
        intro x hx j hj
        rw [hk.1] at hx
        exact hfresh x hx j (Nat.le_trans hk.2 hj)
      exact (foldl_pushDeletion_tombstones env hinj req.Deletions tx4 hInv).2.1 _ hmem

theorem deletions_applied_last_witness :
    (∃ resp, (Push sampleEnv sampleServer updateAndDeleteRequest).2 = PushReply.OK resp)
    ∧ (∀ y ∈ (Push sampleEnv sampleServer updateAndDeleteRequest).1.db.folders, y.ID ≠ "f1")
    ∧ ((∀ y ∈ (Push sampleEnv sampleServer updateAndDeleteRequest).1.db.snippets, y.ID ≠ "s2")
      ∧ (∀ y ∈ (Push sampleEnv sampleServer updateAndDeleteRequest).1.db.snippet_contents,
          y.SnippetID ≠ "s2")
      ∧ (∀ y ∈ (Push sampleEnv sampleServer updateAndDeleteRequest).1.db.snippet_tags,
          y.SnippetID ≠ "s2"))
    ∧ (∃ x ∈ (Push sampleEnv sampleServer updateAndDeleteRequest).1.db.sync_deletions,
        x.RecordID = "f1")
    ∧ (∃ x ∈ (Push sampleEnv sampleServer updateAndDeleteRequest).1.db.sync_deletions,
        x.RecordID = "s2") :=
  ⟨(deletions_applied_last sampleEnv sampleServer updateAndDeleteRequest).1
      (by decide) (by decide) (by decide) (by decide),
   ((deletions_applied_last sampleEnv sampleServer updateAndDeleteRequest).2 _
      (by decide : _ = PushReply.OK { ServerTime := 1700000000000, IDMappings := [] })
      "f1" 40).1 (by decide),
   ((deletions_applied_last sampleEnv sampleServer updateAndDeleteRequest).2 _
      (by decide : _ = PushReply.OK { ServerTime := 1700000000000, IDMappings := [] })
      "s2" 41).2.2.1 (by decide),
   ((deletions_applied_last sampleEnv sampleServer updateAndDeleteRequest).2 _
      (by decide : _ = PushReply.OK { ServerTime := 1700000000000, IDMappings := [] })
      "f1" 40).2.2.2.2 sampleEnv_uuid_injective
      (fun x hx => absurd hx (List.not_mem_nil x)) "folders" (by decide),
   ((deletions_applied_last sampleEnv sampleServer updateAndDeleteRequest).2 _
      (by decide : _ = PushReply.OK { ServerTime := 1700000000000, IDMappings := [] })
      "s2" 41).2.2.2.2 sampleEnv_uuid_injective
      (fun x hx => absurd hx (List.not_mem_nil x)) "snippets" (by decide)⟩

/-! ## C23, C24: what a deletion item removes does not depend on stamps or on the log -/

/-- C23: a deletion item removes its record whatever the stamps are.  A push of the one
deletion item `(T, X, d)`, for `T` one of the four table names, is answered 200 and
leaves in table `T` the rows stored before whose identity is not `X`: neither `d` nor the
`UpdatedAt` of a stored row is looked at.  And after any push answered 200 that holds
such a deletion item, no row of `T` has the identity `X`. -/
theorem deletion_not_gated (env : Env) (s : Server) (X : String) (d : Int) :
    ((Push env s (deletionsRequest [⟨"folders", X, d⟩])).2
        = PushReply.OK { ServerTime := env.now s.ticks, IDMappings := [] }
      ∧ (Push env s (deletionsRequest [⟨"folders", X, d⟩])).1.db.folders
        = s.db.folders.filter (fun x => x.ID != X)
      ∧ ∀ r ∈ s.db.folders, r.ID = X →
          r ∉ (Push env s (deletionsRequest [⟨"folders", X, d⟩])).1.db.folders)
    ∧ ((Push env s (deletionsRequest [⟨"tags", X, d⟩])).2
        = PushReply.OK { ServerTime := env.now s.ticks, IDMappings := [] }
      ∧ (Push env s (deletionsRequest [⟨"tags", X, d⟩])).1.db.tags
        = s.db.tags.filter (fun x => x.ID != X)
      ∧ ∀ r ∈ s.db.tags, r.ID = X →
          r ∉ (Push env s (deletionsRequest [⟨"tags", X, d⟩])).1.db.tags)
    ∧ ((Push env s (deletionsRequest [⟨"snippets", X, d⟩])).2
        = PushReply.OK { ServerTime := env.now s.ticks, IDMappings := [] }
      ∧ (Push env s (deletionsRequest [⟨"snippets", X, d⟩])).1.db.snippets
        = s.db.snippets.filter (fun x => x.ID != X)
      ∧ ∀ r ∈ s.db.snippets, r.ID = X →
          r ∉ (Push env s (deletionsRequest [⟨"snippets", X, d⟩])).1.db.snippets)
    ∧ ((Push env s (deletionsRequest [⟨"snippet_contents", X, d⟩])).2
        = PushReply.OK { ServerTime := env.now s.ticks, IDMappings := [] }
      ∧ (Push env s (deletionsRequest [⟨"snippet_contents", X, d⟩])).1.db.snippet_contents
        = s.db.snippet_contents.filter (fun x => x.ID != X)
      ∧ ∀ r ∈ s.db.snippet_contents, r.ID = X →
          r ∉ (Push env s (deletionsRequest [⟨"snippet_contents", X, d⟩])).1.db.snippet_contents)
    ∧ (∀ req resp, (Push env s req).2 = PushReply.OK resp →
        ((⟨"folders", X, d⟩ : SyncDeletionData) ∈ req.Deletions →
          ∀ y ∈ (Push env s req).1.db.folders, y.ID ≠ X)
        ∧ ((⟨"tags", X, d⟩ : SyncDeletionData) ∈ req.Deletions →
          ∀ y ∈ (Push env s req).1.db.tags, y.ID ≠ X)
        ∧ ((⟨"snippets", X, d⟩ : SyncDeletionData) ∈ req.Deletions →
          ∀ y ∈ (Push env s req).1.db.snippets, y.ID ≠ X)
        ∧ ((⟨"snippet_contents", X, d⟩ : SyncDeletionData) ∈ req.Deletions →
          ∀ y ∈ (Push env s req).1.db.snippet_contents, y.ID ≠ X)) := by
  refine ⟨?_, ?_, ?_, ?_, ?_⟩
  · rw [Push_deletion]
    refine ⟨rfl, insertIgnoreSyncDeletion_folders _ _, ?_⟩
    intro r _ hr hmem
    rw [insertIgnoreSyncDeletion_folders] at hmem
    exact mem_filter_ne Folder.ID X s.db.folders r hmem hr
  · rw [Push_deletion]
    refine ⟨rfl, insertIgnoreSyncDeletion_tags _ _, ?_⟩
    intro r _ hr hmem
    rw [insertIgnoreSyncDeletion_tags] at hmem
    exact mem_filter_ne Tag.ID X s.db.tags r hmem hr
  · rw [Push_deletion]
    refine ⟨rfl, insertIgnoreSyncDeletion_snippets _ _, ?_⟩
    intro r _ hr hmem
    rw [insertIgnoreSyncDeletion_snippets] at hmem
    exact mem_filter_ne Snippet.ID X s.db.snippets r hmem hr
  · rw [Push_deletion]
    refine ⟨rfl, insertIgnoreSyncDeletion_snippet_contents _ _, ?_⟩
    intro r _ hr hmem
    rw [insertIgnoreSyncDeletion_snippet_contents] at hmem
    exact mem_filter_ne SnippetContent.ID X s.db.snippet_contents r hmem hr
  · intro req resp hok
    have h : Push env s req = ((Push env s req).1, PushReply.OK resp) := Prod.ext rfl hok
    obtain ⟨tx4, _, hdb⟩ := Push_ok_phases env s _ req resp h
    rw [hdb]
    refine ⟨?_, ?_, ?_, ?_⟩
    · intro hmem
      exact foldl_pushDeletion_establishes env (fun db => ∀ y ∈ db.folders, y.ID ≠ X)
        ⟨"folders", X, d⟩
        (fun tx e hP y hy => hP y ((pushDeletion_shrinks env tx e).1 y hy))
        (fun tx => pushDeletion_folders env tx X d) req.Deletions tx4 hmem
    · intro hmem
      exact foldl_pushDeletion_establishes env (fun db => ∀ y ∈ db.tags, y.ID ≠ X)
        ⟨"tags", X, d⟩
        (fun tx e hP y hy => hP y ((pushDeletion_shrinks env tx e).2.1 y hy))
        (fun tx => (pushDeletion_tags env tx X d).1) req.Deletions tx4 hmem
    · intro hmem
      exact foldl_pushDeletion_establishes env (fun db => ∀ y ∈ db.snippets, y.ID ≠ X)
        ⟨"snippets", X, d⟩
        (fun tx e hP y hy => hP y ((pushDeletion_shrinks env tx e).2.2.1 y hy))
        (fun tx => (pushDeletion_snippets env tx X d).1) req.Deletions tx4 hmem
    · intro hmem
      exact foldl_pushDeletion_establishes env
        (fun db => ∀ y ∈ db.snippet_contents, y.ID ≠ X)
        ⟨"snippet_contents", X, d⟩
        (fun tx e hP y hy => hP y ((pushDeletion_shrinks env tx e).2.2.2.1 y hy))
        (fun tx => pushDeletion_snippet_contents env tx X d) req.Deletions tx4 hmem

/-- The round of a deletion item whose table name the switch does not know leaves the
five tables of records as they are. -/
theorem deleteRecord_unknown (db : DB) (del : SyncDeletionData)
    (h1 : del.TableName ≠ "folders") (h2 : del.TableName ≠ "tags")
    (h3 : del.TableName ≠ "snippet_contents") (h4 : del.TableName ≠ "snippets") :
    deleteRecord db del = db := by
  unfold deleteRecord
  simp [h1, h2, h3, h4]

/-- C24: a deletion item whose table name is none of `folders`, `tags`,
`snippet_contents`, `snippets` deletes nothing and is still recorded.  Its round leaves
the folders, tags, snippets, snippet contents and snippet-tag rows of any transaction as
they are; a push of that one item is answered 200 and leaves them as stored; when no
stored tombstone records the item's `recordId` (and the drawn identity is not that of a
stored tombstone) the tombstone of the item, under the item's table name, is appended to
the log; when one does, the database is left as it was. -/
theorem unknown_table_tombstoned (env : Env) (s : Server) (del : SyncDeletionData)
    (h1 : del.TableName ≠ "folders") (h2 : del.TableName ≠ "tags")
    (h3 : del.TableName ≠ "snippet_contents") (h4 : del.TableName ≠ "snippets") :
    (∀ tx : Tx, (pushDeletion env tx del).db.folders = tx.db.folders
      ∧ (pushDeletion env tx del).db.tags = tx.db.tags
      ∧ (pushDeletion env tx del).db.snippets = tx.db.snippets
      ∧ (pushDeletion env tx del).db.snippet_contents = tx.db.snippet_contents
      ∧ (pushDeletion env tx del).db.snippet_tags = tx.db.snippet_tags)
    ∧ (Push env s (deletionsRequest [del])).2
        = PushReply.OK { ServerTime := env.now s.ticks, IDMappings := [] }
    ∧ (Push env s (deletionsRequest [del])).1.db.folders = s.db.folders
    ∧ (Push env s (deletionsRequest [del])).1.db.tags = s.db.tags
    ∧ (Push env s (deletionsRequest [del])).1.db.snippets = s.db.snippets
    ∧ (Push env s (deletionsRequest [del])).1.db.snippet_contents = s.db.snippet_contents
    ∧ (Push env s (deletionsRequest [del])).1.db.snippet_tags = s.db.snippet_tags
    ∧ ((∀ x ∈ s.db.sync_deletions, x.RecordID ≠ del.RecordID) →
        (∀ x ∈ s.db.sync_deletions, x.ID ≠ env.uuid s.uuids) →
        (Push env s (deletionsRequest [del])).1.db.sync_deletions
          = s.db.sync_deletions ++
              [{ ID := env.uuid s.uuids, EntityTable := del.TableName
                 RecordID := del.RecordID, DeletedAt := del.DeletedAt }])
    ∧ ((∃ x ∈ s.db.sync_deletions, x.RecordID = del.RecordID) →
        (Push env s (deletionsRequest [del])).1.db = s.db) := by
  refine ⟨?_, ?_⟩
  · intro tx
    unfold pushDeletion
    rw [deleteRecord_unknown tx.db del h1 h2 h3 h4]
    exact ⟨insertIgnoreSyncDeletion_folders _ _, insertIgnoreSyncDeletion_tags _ _,
      insertIgnoreSyncDeletion_snippets _ _, insertIgnoreSyncDeletion_snippet_contents _ _,
      insertIgnoreSyncDeletion_snippet_tags _ _⟩
  · rw [Push_deletion, deleteRecord_unknown s.db del h1 h2 h3 h4]
    refine ⟨rfl, insertIgnoreSyncDeletion_folders _ _, insertIgnoreSyncDeletion_tags _ _,
      insertIgnoreSyncDeletion_snippets _ _, insertIgnoreSyncDeletion_snippet_contents _ _,
      insertIgnoreSyncDeletion_snippet_tags _ _, ?_, ?_⟩
    · intro hrec hid
      rw [insertIgnoreSyncDeletion_of_new s.db _ hid hrec]
    · intro hrec
      exact insertIgnoreSyncDeletion_of_recorded s.db _ hrec

theorem unknown_table_tombstoned_witness :
    ((Push sampleEnv sampleServer
        (deletionsRequest [⟨"snippetContents", "c1", 40⟩])).1.db.snippet_contents
      = [sampleContent, otherContent]
    ∧ (Push sampleEnv sampleServer
        (deletionsRequest [⟨"snippetContents", "c1", 40⟩])).1.db.sync_deletions
      = [{ ID := "u", EntityTable := "snippetContents", RecordID := "c1", DeletedAt := 40 }])
    ∧ (Push sampleEnv mislabelledServer
        (deletionsRequest [⟨"snippetTags", "f1", 41⟩])).1.db = mislabelledServer.db :=
  ⟨⟨(unknown_table_tombstoned sampleEnv sampleServer ⟨"snippetContents", "c1", 40⟩
      (by decide) (by decide) (by decide) (by decide)).2.2.2.2.2.1,
    (unknown_table_tombstoned sampleEnv sampleServer ⟨"snippetContents", "c1", 40⟩
      (by decide) (by decide) (by decide) (by decide)).2.2.2.2.2.2.2.1
      (by decide) (by decide)⟩,
   (unknown_table_tombstoned sampleEnv mislabelledServer ⟨"snippetTags", "f1", 41⟩
      (by decide) (by decide) (by decide) (by decide)).2.2.2.2.2.2.2.2 (by decide)⟩

/-! ## C21: an accepted update writes every mutable field -/

theorem getString_of_not_isString (data : Data) (key : String)
    (h : isString data key = false) :
    getString data key = "" ∧ getStringPtr data key = none := by
  unfold isString at h
  unfold getString getStringPtr
  split at h
  · cases h
  · exact ⟨rfl, rfl⟩

theorem getInt_of_not_isNumber (data : Data) (key : String)
    (h : isNumber data key = false) :
    getInt data key = 0 ∧ getInt64 data key = 0 := by
  unfold isNumber at h
  unfold getInt getInt64
  split at h
  · cases h
  · cases h
  · cases h
  · exact ⟨rfl, rfl⟩

/-- The rows with key `X` of a table whose rows with key `X` were rewritten by `g`. -/
theorem mem_map_overwrite {α : Type} (key : α → String) (X : String) (g : α → α)
    (l : List α) (y : α)
    (hy : y ∈ l.map (fun x => if key x = X then g x else x)) (hyX : key y = X) :
    ∃ x ∈ l, key x = X ∧ y = g x := by
  obtain ⟨x, hx, rfl⟩ := List.mem_map.mp hy
  by_cases hxX : key x = X
  · exact ⟨x, hx, hxX, by simp [hxX]⟩
  · simp only [hxX, if_false] at hyX

theorem exists_map_overwrite {α : Type} (key : α → String) (X : String) (g : α → α)
    (hk : ∀ x, key (g x) = key x) (l : List α) (e : α)
    (he : l.find? (fun x => key x == X) = some e) :
    ∃ y ∈ l.map (fun x => if key x = X then g x else x), key y = X := by
  have hmem : e ∈ l := List.mem_of_find?_eq_some he
  have hid : key e = X := by simpa using List.find?_some he
  exact ⟨g e, List.mem_map.mpr ⟨e, hmem, by simp [hid]⟩, by rw [hk, hid]⟩

/-- C21 (amended): when a push holds one update item for `X` and the row loaded for `X`
has a stamp strictly below the incoming `updatedAt`, then after the push a row with
identity `X` is stored and every such row has, in each mutable field whose key is absent
from the data of the item or holds a value of another type, the default of the field: the
empty string, 0 or null.  For tags this is stated when no other tag carries a name that
the store, under the collation of the column, takes for the incoming name, which is the
empty name when the data holds no name. -/
theorem update_replaces_wholesale (env : Env) (s : Server) (X : String)
    (item : PushChangeItem) (hNew : item.IsNew = false) (hId : item.ServerID = some X) :
    (∀ e : Folder, s.db.folders.find? (fun x => x.ID == X) = some e →
      e.UpdatedAt < getInt64 item.Data "updatedAt" →
      (∃ y ∈ (Push env s (foldersRequest [item])).1.db.folders, y.ID = X)
      ∧ ∀ y ∈ (Push env s (foldersRequest [item])).1.db.folders, y.ID = X →
        (isString item.Data "name" = false → y.Name = "")
        ∧ (isString item.Data "defaultLanguage" = false → y.DefaultLanguage = "")
        ∧ (isString item.Data "parentId" = false → y.ParentID = none)
        ∧ (isNumber item.Data "isOpen" = false → y.IsOpen = 0)
        ∧ (isNumber item.Data "orderIndex" = false → y.OrderIndex = 0)
        ∧ (isString item.Data "icon" = false → y.Icon = none))
    ∧ (∀ e : Tag, s.db.tags.find? (fun x => x.ID == X) = some e →
      e.UpdatedAt < getInt64 item.Data "updatedAt" →
      (∀ y ∈ s.db.tags, y.ID ≠ X →
        env.sameName y.Name (getString item.Data "name") = false) →
      (∃ y ∈ (Push env s (tagsRequest [item])).1.db.tags, y.ID = X)
      ∧ ∀ y ∈ (Push env s (tagsRequest [item])).1.db.tags, y.ID = X →
        (isString item.Data "name" = false → y.Name = ""))
    ∧ (∀ e : Snippet, s.db.snippets.find? (fun x => x.ID == X) = some e →
      e.UpdatedAt < getInt64 item.Data "updatedAt" →
      (∃ y ∈ (Push env s (snippetsRequest [item])).1.db.snippets, y.ID = X)
      ∧ ∀ y ∈ (Push env s (snippetsRequest [item])).1.db.snippets, y.ID = X →
        (isString item.Data "name" = false → y.Name = "")
        ∧ (isString item.Data "description" = false → y.Description = none)
        ∧ (isString item.Data "folderId" = false → y.FolderID = none)
        ∧ (isNumber item.Data "isDeleted" = false → y.IsDeleted = 0)
        ∧ (isNumber item.Data "isFavorites" = false → y.IsFavorites = 0))
    ∧ (∀ e : SnippetContent, s.db.snippet_contents.find? (fun x => x.ID == X) = some e →
      e.UpdatedAt < getInt64 item.Data "updatedAt" →
      (∃ y ∈ (Push env s (snippetContentsRequest [item])).1.db.snippet_contents, y.ID = X)
      ∧ ∀ y ∈ (Push env s (snippetContentsRequest [item])).1.db.snippet_contents, y.ID = X →
        (isString item.Data "snippetId" = false → y.SnippetID = "")
        ∧ (isString item.Data "label" = false → y.Label = none)
        ∧ (isString item.Data "value" = false → y.Value = none)
        ∧ (isString item.Data "language" = false → y.Language = none)) := by
  have h1 : ∀ i ∈ [item], i.IsNew = false := by simp [hNew]
  refine ⟨?_, ?_, ?_, ?_⟩
  · intro e he ht
    have hdb : (Push env s (foldersRequest [item])).1.db.folders
        = s.db.folders.map (fun x => if x.ID = X then x.overwrite item.Data else x) := by
      rw [Push_folder_updates env s [item] h1]
      simp [updateFolders, hId, lwwTable_newer _ _ _ _ _ _ e he ht, setWhere]
    rw [hdb]
    refine ⟨exists_map_overwrite Folder.ID X (fun x => x.overwrite item.Data)
      (fun _ => rfl) _ e he, ?_⟩
    intro y hy hyX
    obtain ⟨x, _, _, rfl⟩ := mem_map_overwrite Folder.ID X
      (fun x => x.overwrite item.Data) _ y hy hyX
    exact ⟨fun h => (getString_of_not_isString _ _ h).1,
      fun h => (getString_of_not_isString _ _ h).1,
      fun h => (getString_of_not_isString _ _ h).2,
      fun h => (getInt_of_not_isNumber _ _ h).1,
      fun h => (getInt_of_not_isNumber _ _ h).1,
      fun h => (getString_of_not_isString _ _ h).2⟩
  · intro e he ht hfree
    have hn : nameTaken env.sameName X (getString item.Data "name") s.db.tags = false :=
      nameTaken_eq_false env.sameName X _ s.db.tags hfree
    have hdb : (Push env s (tagsRequest [item])).1.db.tags
        = s.db.tags.map (fun x => if x.ID = X then x.overwrite item.Data else x) := by
      rw [Push_tag_updates env s [item] h1]
      simp [updateTags, hId, hn, lwwTable_newer _ _ _ _ _ _ e he ht, setWhere]
    rw [hdb]
    refine ⟨exists_map_overwrite Tag.ID X (fun x => x.overwrite item.Data)
      (fun _ => rfl) _ e he, ?_⟩
    intro y hy hyX
    obtain ⟨x, _, _, rfl⟩ := mem_map_overwrite Tag.ID X
      (fun x => x.overwrite item.Data) _ y hy hyX
    exact fun h => (getString_of_not_isString _ _ h).1
  · intro e he ht
    have hdb : (Push env s (snippetsRequest [item])).1.db.snippets
        = s.db.snippets.map (fun x => if x.ID = X then x.overwrite item.Data else x) := by
      rw [Push_snippet_updates env s [item] h1]
      simp [updateSnippets, hId, lwwTable_newer _ _ _ _ _ _ e he ht, setWhere]
    rw [hdb]
    refine ⟨exists_map_overwrite Snippet.ID X (fun x => x.overwrite item.Data)
      (fun _ => rfl) _ e he, ?_⟩
    intro y hy hyX
    obtain ⟨x, _, _, rfl⟩ := mem_map_overwrite Snippet.ID X
      (fun x => x.overwrite item.Data) _ y hy hyX
    exact ⟨fun h => (getString_of_not_isString _ _ h).1,
      fun h => (getString_of_not_isString _ _ h).2,
      fun h => (getString_of_not_isString _ _ h).2,
      fun h => (getInt_of_not_isNumber _ _ h).1,
      fun h => (getInt_of_not_isNumber _ _ h).1⟩
  · intro e he ht
    have hdb : (Push env s (snippetContentsRequest [item])).1.db.snippet_contents
        = s.db.snippet_contents.map
            (fun x => if x.ID = X then x.overwrite item.Data else x) := by
      rw [Push_snippetContent_updates env s [item] h1]
      simp [updateSnippetContents, hId, lwwTable_newer _ _ _ _ _ _ e he ht, setWhere]
    rw [hdb]
    refine ⟨exists_map_overwrite SnippetContent.ID X (fun x => x.overwrite item.Data)
      (fun _ => rfl) _ e he, ?_⟩
    intro y hy hyX
    obtain ⟨x, _, _, rfl⟩ := mem_map_overwrite SnippetContent.ID X
      (fun x => x.overwrite item.Data) _ y hy hyX
    exact ⟨fun h => (getString_of_not_isString _ _ h).1,
      fun h => (getString_of_not_isString _ _ h).2,
      fun h => (getString_of_not_isString _ _ h).2,
      fun h => (getString_of_not_isString _ _ h).2⟩

/-- Witness of C21: an update of the sample folder, snippet and snippet content whose
data holds a newer stamp and nothing else blanks their names, references and bodies. -/
theorem update_replaces_wholesale_witness :
    (∀ y ∈ (Push sampleEnv sampleServer (foldersRequest [stampOnlyItem "f1" 30])).1.db.folders,
        y.ID = "f1" → y.Name = "")
    ∧ (∀ y ∈ (Push sampleEnv sampleServer
          (snippetsRequest [stampOnlyItem "s1" 30])).1.db.snippets,
        y.ID = "s1" → y.FolderID = none)
    ∧ (∀ y ∈ (Push sampleEnv sampleServer
          (snippetContentsRequest [stampOnlyItem "c1" 30])).1.db.snippet_contents,
        y.ID = "c1" → y.Value = none)
    ∧ (∀ y ∈ (Push sampleEnv sampleServer (tagsRequest [stampOnlyItem "t1" 30])).1.db.tags,
        y.ID = "t1" → y.Name = "") :=
  ⟨fun y hy hX => ((((update_replaces_wholesale sampleEnv sampleServer "f1"
      (stampOnlyItem "f1" 30) rfl rfl).1 sampleFolder (by decide) (by decide)).2
      y hy hX).1) (by decide),
   fun y hy hX => ((((update_replaces_wholesale sampleEnv sampleServer "s1"
      (stampOnlyItem "s1" 30) rfl rfl).2.2.1 sampleSnippet (by decide) (by decide)).2
      y hy hX).2.2.1) (by decide),
   fun y hy hX => ((((update_replaces_wholesale sampleEnv sampleServer "c1"
      (stampOnlyItem "c1" 30) rfl rfl).2.2.2 sampleContent (by decide) (by decide)).2
      y hy hX).2.2.1) (by decide),
   fun y hy hX => (((update_replaces_wholesale sampleEnv sampleServer "t1"
      (stampOnlyItem "t1" 30) rfl rfl).2.1 sampleTag (by decide) (by decide) (by decide)).2
      y hy hX) (by decide)⟩

/-- Counterexample to C21 as stated: the store holds a tag with the empty name.  An update
item for tag `t1` whose data holds the newer stamp 30 and nothing else passes the
comparison of stamps, the store refuses the statement that would blank the name, the push
is answered 200 and tag `t1` keeps its name and its stamp. -/
theorem update_keeps_tag_name :
    blankTagServer.db.tags
      = [sampleTag, otherTag,
         { ID := "u", Name := "", CreatedAt := 1700000000, UpdatedAt := 1700000000 }]
    ∧ blankTagServer.db.tags.find? (fun x => x.ID == "t1") = some sampleTag
    ∧ sampleTag.UpdatedAt < getInt64 (stampOnlyItem "t1" 30).Data "updatedAt"
    ∧ (stampOnlyItem "t1" 30).Data "name" = none
    ∧ (Push sampleEnv blankTagServer (tagsRequest [stampOnlyItem "t1" 30])).2
      = PushReply.OK { ServerTime := 1700000000002, IDMappings := [] }
    ∧ (Push sampleEnv blankTagServer (tagsRequest [stampOnlyItem "t1" 30])).1.db.tags
      = blankTagServer.db.tags
    ∧ sampleTag.Name ≠ "" := by
  decide

/-! ## Rows created by a push and what later rounds do to them -/

/-- An update round rewrites rows of the key it names only. -/
theorem mem_lwwTable_other {α : Type} (key : α → String) (stamp : α → Int) (X : String)
    (t : Int) (g : α → α) (refused : Bool) (l : List α) (hk : ∀ x, key (g x) = key x)
    (r : α) (hr : key r ≠ X) :
    r ∈ lwwTable key stamp X t g refused l ↔ r ∈ l := by
  rcases lwwTable_cases key stamp X t g refused l with h | h
  · rw [h]
  · rw [h, setWhere, List.mem_map]
    constructor
    · rintro ⟨x, hx, rfl⟩
      by_cases hxX : key x = X
      · simp only [hxX, beq_self_eq_true, if_true] at hr
        exact absurd (by rw [hk, hxX]) hr
      · simpa [hxX] using hx
    · intro hmem
      exact ⟨r, hmem, by simp [hr]⟩

/-- A fact `Created` survives a step that keeps the mappings and the rows stored under
identities of the source that are in use. -/
theorem Created_of_step {α ρ : Type} (env : Env) (table : String) (rows : DB → List α)
    (key : α → String) (ref : α → ρ) (lo : Nat) (tx tx1 : Tx) (localID : Int) (v : ρ)
    (hmap : ∀ m ∈ tx.idMappings, m ∈ tx1.idMappings)
    (hrows : ∀ sid, (∃ k, lo ≤ k ∧ sid = env.uuid k) → (∃ r ∈ rows tx.db, key r = sid) →
      ∀ r, key r = sid → (r ∈ rows tx1.db ↔ r ∈ rows tx.db))
    (h : Created env table rows key ref lo tx localID v) :
    Created env table rows key ref lo tx1 localID v := by
  obtain ⟨m, hm, ht, hl, hk, hex, hall⟩ := h
  have hiff := hrows m.ServerID hk hex
  obtain ⟨r0, hr0, hr0k⟩ := hex
  refine ⟨m, hmap m hm, ht, hl, hk, ⟨r0, (hiff r0 hr0k).mpr hr0, hr0k⟩, ?_⟩
  intro r hr hrk
  exact hall r ((hiff r hrk).mp hr) hrk

/-- A loop whose rounds insert, per new item, one row under the drawn identity with the
reference read from the data of the item, and rewrite, per other item, only rows of the
identity the item names: when no such item names a coming identity of the source, every
new item of the loop is `Created` at the end. -/
theorem foldlM_created {α ρ : Type} (env : Env) (table : String)
    (f : Tx → PushChangeItem → Except Tx Tx) (rows : DB → List α) (key : α → String)
    (ref : α → ρ) (read : Data → ρ) (lo : Nat)
    (hnew : ∀ tx i tx', i.IsNew = true → f tx i = Except.ok tx' →
      (∃ r, rows tx'.db = rows tx.db ++ [r] ∧ key r = env.uuid tx.uuids
        ∧ ref r = read i.Data)
      ∧ (∀ x ∈ rows tx.db, key x ≠ env.uuid tx.uuids)
      ∧ tx'.idMappings = tx.idMappings ++
          [{ TableName := table, LocalID := i.LocalID, ServerID := env.uuid tx.uuids }]
      ∧ tx'.uuids = tx.uuids + 1)
    (hold : ∀ tx i tx', i.IsNew = false → f tx i = Except.ok tx' →
      tx'.idMappings = tx.idMappings ∧ tx'.uuids = tx.uuids
      ∧ ∀ u, i.ServerID ≠ some u → ∀ r, key r = u → (r ∈ rows tx'.db ↔ r ∈ rows tx.db))
    (items : List PushChangeItem) (tx tx' : Tx) (h : items.foldlM f tx = Except.ok tx')
    (hlo : lo ≤ tx.uuids)
    (hUpd : ∀ u ∈ items, u.IsNew = false → ∀ k, lo ≤ k → u.ServerID ≠ some (env.uuid k)) :
    (∀ localID v, Created env table rows key ref lo tx localID v →
        Created env table rows key ref lo tx' localID v)
    ∧ (∀ i ∈ items, i.IsNew = true →
        Created env table rows key ref lo tx' i.LocalID (read i.Data)) := by
  induction items generalizing tx with
  | nil =>
    have : tx = tx' := by
      have h2 : (Except.ok tx : Except Tx Tx) = Except.ok tx' := h
      exact Except.ok.inj h2
    subst this
    exact ⟨fun _ _ hc => hc, fun i hi => absurd hi (List.not_mem_nil i)⟩
  | cons a rest ih =>
    rw [List.foldlM_cons] at h
    cases hf : f tx a with
    | error e => rw [hf] at h; cases h
    | ok tx1 =>
      rw [hf] at h
      have h' : rest.foldlM f tx1 = Except.ok tx' := h
      have hUpd' : ∀ u ∈ rest, u.IsNew = false → ∀ k, lo ≤ k →
          u.ServerID ≠ some (env.uuid k) :=
        fun u hu => hUpd u (List.mem_cons_of_mem a hu)
      cases hn : a.IsNew with
      | true =>
        obtain ⟨⟨rn, hrows, hkey, href⟩, hfresh, hmaps, huu⟩ := hnew tx a tx1 hn hf
        have hrec := ih tx1 h' (by omega) hUpd'
        have hstep : ∀ localID v, Created env table rows key ref lo tx localID v →
            Created env table rows key ref lo tx1 localID v := by
          intro localID v hc
          apply Created_of_step env table rows key ref lo tx tx1 localID v _ _ hc
          · intro m hm
            rw [hmaps]
            exact List.mem_append_left _ hm
          · rintro sid _ ⟨r0, hr0, hr0k⟩ r hrk
            rw [hrows, List.mem_append, List.mem_singleton]
            constructor
            · rintro (hmem | rfl)
              · exact hmem
              · exact absurd (hr0k.trans (hrk.symm.trans hkey)) (hfresh r0 hr0)
            · exact fun hmem => Or.inl hmem
        have hmine : Created env table rows key ref lo tx1 a.LocalID (read a.Data) := by
          refine ⟨⟨table, a.LocalID, env.uuid tx.uuids⟩, ?_, rfl, rfl, ⟨tx.uuids, hlo, rfl⟩,
            ⟨rn, ?_, hkey⟩, ?_⟩
          · rw [hmaps]
            exact List.mem_append_right _ (List.mem_singleton_self _)
          · rw [hrows]
            exact List.mem_append_right _ (List.mem_singleton_self _)
          · intro r hr hrk
            rw [hrows, List.mem_append, List.mem_singleton] at hr
            rcases hr with hmem | rfl
            · exact absurd hrk (hfresh r hmem)
            · exact href
        refine ⟨fun localID v hc => hrec.1 localID v (hstep localID v hc), ?_⟩
        intro i hi hin
        rcases List.mem_cons.mp hi with rfl | hi'
        · exact hrec.1 _ _ hmine
        · exact hrec.2 i hi' hin
      | false =>
        obtain ⟨hmaps, huu, hrows⟩ := hold tx a tx1 hn hf
        have hrec := ih tx1 h' (by omega) hUpd'
        have hstep : ∀ localID v, Created env table rows key ref lo tx localID v →
            Created env table rows key ref lo tx1 localID v := by
          intro localID v hc
          apply Created_of_step env table rows key ref lo tx tx1 localID v _ _ hc
          · intro m hm
            rw [hmaps]
            exact hm
          · rintro sid ⟨k, hk, rfl⟩ _ r hrk
            exact hrows (env.uuid k) (hUpd a (List.mem_cons_self a rest) hn k hk) r hrk
        refine ⟨fun localID v hc => hrec.1 localID v (hstep localID v hc), ?_⟩
        intro i hi hin
        rcases List.mem_cons.mp hi with rfl | hi'
        · rw [hn] at hin
          cases hin
        · exact hrec.2 i hi' hin

/-! ## The create and update rounds of folders, snippets and snippet contents -/

theorem pushFolder_new_fresh (env : Env) (tx tx' : Tx) (item : PushFolderChangeItem)
    (hNew : item.IsNew = true) (h : pushFolder env tx item = Except.ok tx') :
    ∀ x ∈ tx.db.folders, x.ID ≠ env.uuid tx.uuids := by
  by_contra hcon
  have hany : tx.db.folders.any (fun x => x.ID == env.uuid tx.uuids) = true := by
    rw [List.any_eq_true]
    push_neg at hcon
    obtain ⟨x, hx, hid⟩ := hcon
    exact ⟨x, hx, by simp [hid]⟩
  simp [pushFolder, hNew, DB.createFolder, hany] at h

theorem pushSnippet_new_fresh (env : Env) (tx tx' : Tx) (item : PushSnippetChangeItem)
    (hNew : item.IsNew = true) (h : pushSnippet env tx item = Except.ok tx') :
    ∀ x ∈ tx.db.snippets, x.ID ≠ env.uuid tx.uuids := by
  by_contra hcon
  have hany : tx.db.snippets.any (fun x => x.ID == env.uuid tx.uuids) = true := by
    rw [List.any_eq_true]
    push_neg at hcon
    obtain ⟨x, hx, hid⟩ := hcon
    exact ⟨x, hx, by simp [hid]⟩
  simp [pushSnippet, hNew, DB.createSnippet, hany] at h

theorem pushSnippetContent_new_fresh (env : Env) (tx tx' : Tx)
    (item : PushSnippetContentChangeItem)
    (hNew : item.IsNew = true) (h : pushSnippetContent env tx item = Except.ok tx') :
    ∀ x ∈ tx.db.snippet_contents, x.ID ≠ env.uuid tx.uuids := by
  by_contra hcon
  have hany : tx.db.snippet_contents.any (fun x => x.ID == env.uuid tx.uuids) = true := by
    rw [List.any_eq_true]
    push_neg at hcon
    obtain ⟨x, hx, hid⟩ := hcon
    exact ⟨x, hx, by simp [hid]⟩
  simp [pushSnippetContent, hNew, DB.createSnippetContent, hany] at h

/-- An update round of folders keeps the rows of every identity it does not name. -/
theorem pushFolder_update_other (env : Env) (tx tx' : Tx) (i : PushFolderChangeItem)
    (hn : i.IsNew = false) (hf : pushFolder env tx i = Except.ok tx') :
    tx'.idMappings = tx.idMappings ∧ tx'.uuids = tx.uuids
      ∧ ∀ u, i.ServerID ≠ some u → ∀ r : Folder, r.ID = u →
          (r ∈ tx'.db.folders ↔ r ∈ tx.db.folders) := by
  rw [pushFolder_update env tx i hn] at hf
  cases hf
  refine ⟨rfl, rfl, ?_⟩
  intro u hu r hr
  unfold updateFolders
  cases hs : i.ServerID with
  | none => exact Iff.rfl
  | some X =>
    have hne : r.ID ≠ X := by
      intro hx
      exact hu (by rw [hs, ← hx, hr])
    exact mem_lwwTable_other Folder.ID Folder.UpdatedAt X (getInt64 i.Data "updatedAt")
      (fun x => x.overwrite i.Data) false tx.db.folders (fun _ => rfl) r hne

/-- An update round of snippets keeps the rows of every identity it does not name. -/
theorem pushSnippet_update_other (env : Env) (tx tx' : Tx) (i : PushSnippetChangeItem)
    (hn : i.IsNew = false) (hf : pushSnippet env tx i = Except.ok tx') :
    tx'.idMappings = tx.idMappings ∧ tx'.uuids = tx.uuids
      ∧ ∀ u, i.ServerID ≠ some u → ∀ r : Snippet, r.ID = u →
          (r ∈ tx'.db.snippets ↔ r ∈ tx.db.snippets) := by
  rw [pushSnippet_update env tx i hn] at hf
  cases hf
  refine ⟨rfl, rfl, ?_⟩
  intro u hu r hr
  unfold updateSnippets
  cases hs : i.ServerID with
  | none => exact Iff.rfl
  | some X =>
    have hne : r.ID ≠ X := by
      intro hx
      exact hu (by rw [hs, ← hx, hr])
    exact mem_lwwTable_other Snippet.ID Snippet.UpdatedAt X (getInt64 i.Data "updatedAt")
      (fun x => x.overwrite i.Data) false tx.db.snippets (fun _ => rfl) r hne

/-- An update round of snippet contents keeps the rows of every identity it does not
name. -/
theorem pushSnippetContent_update_other (env : Env) (tx tx' : Tx)
    (i : PushSnippetContentChangeItem)
    (hn : i.IsNew = false) (hf : pushSnippetContent env tx i = Except.ok tx') :
    tx'.idMappings = tx.idMappings ∧ tx'.uuids = tx.uuids
      ∧ ∀ u, i.ServerID ≠ some u → ∀ r : SnippetContent, r.ID = u →
          (r ∈ tx'.db.snippet_contents ↔ r ∈ tx.db.snippet_contents) := by
  rw [pushSnippetContent_update env tx i hn] at hf
  cases hf
  refine ⟨rfl, rfl, ?_⟩
  intro u hu r hr
  unfold updateSnippetContents
  cases hs : i.ServerID with
  | none => exact Iff.rfl
  | some X =>
    have hne : r.ID ≠ X := by
      intro hx
      exact hu (by rw [hs, ← hx, hr])
    exact mem_lwwTable_other SnippetContent.ID SnippetContent.UpdatedAt X (getInt64 i.Data "updatedAt")
      (fun x => x.overwrite i.Data) false tx.db.snippet_contents (fun _ => rfl) r hne

/-- The loop over the folder items: every new folder item is `Created` with the
`parentId` of its data. -/
theorem foldlM_pushFolder_created (env : Env) (lo : Nat) (items : List PushChangeItem)
    (tx tx' : Tx) (h : items.foldlM (pushFolder env) tx = Except.ok tx')
    (hlo : lo ≤ tx.uuids)
    (hUpd : ∀ u ∈ items, u.IsNew = false → ∀ k, lo ≤ k → u.ServerID ≠ some (env.uuid k)) :
    ∀ i ∈ items, i.IsNew = true →
      Created env "folders" (fun db => db.folders) Folder.ID Folder.ParentID lo tx'
        i.LocalID (getStringPtr i.Data "parentId") :=
  (foldlM_created env "folders" (pushFolder env) (fun db => db.folders) Folder.ID
    Folder.ParentID (fun d => getStringPtr d "parentId") lo
    (fun tx i tx' hn hf => by
      have hx := pushFolder_new env tx tx' i hn hf
      refine ⟨⟨_, by rw [hx.1], rfl, rfl⟩, pushFolder_new_fresh env tx tx' i hn hf,
        hx.2.1, hx.2.2⟩)
    (fun tx i tx' hn hf => pushFolder_update_other env tx tx' i hn hf)
    items tx tx' h hlo hUpd).2

/-- The loop over the snippet items: every new snippet item is `Created` with the
`folderId` of its data. -/
theorem foldlM_pushSnippet_created (env : Env) (lo : Nat) (items : List PushChangeItem)
    (tx tx' : Tx) (h : items.foldlM (pushSnippet env) tx = Except.ok tx')
    (hlo : lo ≤ tx.uuids)
    (hUpd : ∀ u ∈ items, u.IsNew = false → ∀ k, lo ≤ k → u.ServerID ≠ some (env.uuid k)) :
    ∀ i ∈ items, i.IsNew = true →
      Created env "snippets" (fun db => db.snippets) Snippet.ID Snippet.FolderID lo tx'
        i.LocalID (getStringPtr i.Data "folderId") :=
  (foldlM_created env "snippets" (pushSnippet env) (fun db => db.snippets) Snippet.ID
    Snippet.FolderID (fun d => getStringPtr d "folderId") lo
    (fun tx i tx' hn hf => by
      have hx := pushSnippet_new env tx tx' i hn hf
      refine ⟨⟨_, by rw [hx.1], rfl, rfl⟩, pushSnippet_new_fresh env tx tx' i hn hf,
        hx.2.1, hx.2.2⟩)
    (fun tx i tx' hn hf => pushSnippet_update_other env tx tx' i hn hf)
    items tx tx' h hlo hUpd).2

/-- The loop over the snippet content items: every new item is `Created` with the
`snippetId` of its data. -/
theorem foldlM_pushSnippetContent_created (env : Env) (lo : Nat)
    (items : List PushChangeItem) (tx tx' : Tx)
    (h : items.foldlM (pushSnippetContent env) tx = Except.ok tx') (hlo : lo ≤ tx.uuids)
    (hUpd : ∀ u ∈ items, u.IsNew = false → ∀ k, lo ≤ k → u.ServerID ≠ some (env.uuid k)) :
    ∀ i ∈ items, i.IsNew = true →
      Created env "snippet_contents" (fun db => db.snippet_contents) SnippetContent.ID
        SnippetContent.SnippetID lo tx' i.LocalID (getString i.Data "snippetId") :=
  (foldlM_created env "snippet_contents" (pushSnippetContent env)
    (fun db => db.snippet_contents) SnippetContent.ID
    SnippetContent.SnippetID (fun d => getString d "snippetId") lo
    (fun tx i tx' hn hf => by
      have hx := pushSnippetContent_new env tx tx' i hn hf
      refine ⟨⟨_, by rw [hx.1], rfl, rfl⟩,
        pushSnippetContent_new_fresh env tx tx' i hn hf, hx.2.1, hx.2.2⟩)
    (fun tx i tx' hn hf => pushSnippetContent_update_other env tx tx' i hn hf)
    items tx tx' h hlo hUpd).2

/-! ## What each loop of `Push` leaves alone -/

theorem foldlM_pushFolder_frame (env : Env) (items : List PushChangeItem) (tx tx' : Tx)
    (h : items.foldlM (pushFolder env) tx = Except.ok tx') :
    (∀ m ∈ tx.idMappings, m ∈ tx'.idMappings) ∧ tx.uuids ≤ tx'.uuids
      ∧ tx'.db.tags = tx.db.tags ∧ tx'.db.snippets = tx.db.snippets
      ∧ tx'.db.snippet_contents = tx.db.snippet_contents := by
  have m := foldlM_mints env "folders" (pushFolder env)
    (fun tx i tx' hn hf => (pushFolder_new env tx tx' i hn hf).2)
    (fun tx i tx' hn hf => by
      rw [pushFolder_update env tx i hn] at hf; cases hf; exact ⟨rfl, rfl⟩)
    _ tx tx' h
  have g := foldlM_grows env "folders" (pushFolder env)
    (fun db => db.folders.map Folder.ID)
    (fun db => (db.tags, db.snippets, db.snippet_contents))
    (fun tx i tx' hn hf => by
      have hx := pushFolder_new env tx tx' i hn hf
      rw [hx.1]; exact ⟨by simp, rfl, hx.2.2⟩)
    (fun tx i tx' hn hf => pushFolder_old_frame env tx tx' i hn hf) _ tx tx' h
  simp only [Prod.mk.injEq] at g
  refine ⟨?_, by omega, g.2.1, g.2.2.1, g.2.2.2⟩
  intro x hx
  rw [m.1]
  exact List.mem_append_left _ hx

theorem foldlM_pushTag_frame (env : Env) (items : List PushChangeItem) (tx tx' : Tx)
    (h : items.foldlM (pushTag env) tx = Except.ok tx') :
    (∀ m ∈ tx.idMappings, m ∈ tx'.idMappings) ∧ tx.uuids ≤ tx'.uuids
      ∧ tx'.db.folders = tx.db.folders ∧ tx'.db.snippets = tx.db.snippets
      ∧ tx'.db.snippet_contents = tx.db.snippet_contents := by
  have m := foldlM_mints env "tags" (pushTag env)
    (fun tx i tx' hn hf => (pushTag_new env tx tx' i hn hf).2)
    (fun tx i tx' hn hf => by
      rw [pushTag_update env tx i hn] at hf; cases hf; exact ⟨rfl, rfl⟩)
    _ tx tx' h
  have g := foldlM_grows env "tags" (pushTag env)
    (fun db => db.tags.map Tag.ID)
    (fun db => (db.folders, db.snippets, db.snippet_contents))
    (fun tx i tx' hn hf => by
      have hx := pushTag_new env tx tx' i hn hf
      rw [hx.1]; exact ⟨by simp, rfl, hx.2.2⟩)
    (fun tx i tx' hn hf => pushTag_old_frame env tx tx' i hn hf) _ tx tx' h
  simp only [Prod.mk.injEq] at g
  refine ⟨?_, by omega, g.2.1, g.2.2.1, g.2.2.2⟩
  intro x hx
  rw [m.1]
  exact List.mem_append_left _ hx

theorem foldlM_pushSnippet_frame (env : Env) (items : List PushChangeItem) (tx tx' : Tx)
    (h : items.foldlM (pushSnippet env) tx = Except.ok tx') :
    (∀ m ∈ tx.idMappings, m ∈ tx'.idMappings) ∧ tx.uuids ≤ tx'.uuids
      ∧ tx'.db.folders = tx.db.folders ∧ tx'.db.tags = tx.db.tags
      ∧ tx'.db.snippet_contents = tx.db.snippet_contents := by
  have m := foldlM_mints env "snippets" (pushSnippet env)
    (fun tx i tx' hn hf => (pushSnippet_new env tx tx' i hn hf).2)
    (fun tx i tx' hn hf => by
      rw [pushSnippet_update env tx i hn] at hf; cases hf; exact ⟨rfl, rfl⟩)
    _ tx tx' h
  have g := foldlM_grows env "snippets" (pushSnippet env)
    (fun db => db.snippets.map Snippet.ID)
    (fun db => (db.folders, db.tags, db.snippet_contents))
    (fun tx i tx' hn hf => by
      have hx := pushSnippet_new env tx tx' i hn hf
      rw [hx.1]; exact ⟨by simp, rfl, hx.2.2⟩)
    (fun tx i tx' hn hf => pushSnippet_old_frame env tx tx' i hn hf) _ tx tx' h
  simp only [Prod.mk.injEq] at g
  refine ⟨?_, by omega, g.2.1, g.2.2.1, g.2.2.2⟩
  intro x hx
  rw [m.1]
  exact List.mem_append_left _ hx

theorem foldlM_pushSnippetContent_frame (env : Env) (items : List PushChangeItem)
    (tx tx' : Tx) (h : items.foldlM (pushSnippetContent env) tx = Except.ok tx') :
    (∀ m ∈ tx.idMappings, m ∈ tx'.idMappings) ∧ tx.uuids ≤ tx'.uuids
      ∧ tx'.db.folders = tx.db.folders ∧ tx'.db.tags = tx.db.tags
      ∧ tx'.db.snippets = tx.db.snippets := by
  have m := foldlM_mints env "snippet_contents" (pushSnippetContent env)
    (fun tx i tx' hn hf => (pushSnippetContent_new env tx tx' i hn hf).2)
    (fun tx i tx' hn hf => by
      rw [pushSnippetContent_update env tx i hn] at hf; cases hf; exact ⟨rfl, rfl⟩)
    _ tx tx' h
  have g := foldlM_grows env "snippet_contents" (pushSnippetContent env)
    (fun db => db.snippet_contents.map SnippetContent.ID)
    (fun db => (db.folders, db.tags, db.snippets))
    (fun tx i tx' hn hf => by
      have hx := pushSnippetContent_new env tx tx' i hn hf
      rw [hx.1]; exact ⟨by simp, rfl, hx.2.2⟩)
    (fun tx i tx' hn hf => pushSnippetContent_old_frame env tx tx' i hn hf) _ tx tx' h
  simp only [Prod.mk.injEq] at g
  refine ⟨?_, by omega, g.2.1, g.2.2.1, g.2.2.2⟩
  intro x hx
  rw [m.1]
  exact List.mem_append_left _ hx

/-- A fact `Created` survives a step that keeps the mappings and the table. -/
theorem Created_frame {α ρ : Type} (env : Env) (table : String) (rows : DB → List α)
    (key : α → String) (ref : α → ρ) (lo : Nat) (tx tx1 : Tx) (localID : Int) (v : ρ)
    (hmap : ∀ m ∈ tx.idMappings, m ∈ tx1.idMappings) (hrows : rows tx1.db = rows tx.db)
    (h : Created env table rows key ref lo tx localID v) :
    Created env table rows key ref lo tx1 localID v :=
  Created_of_step env table rows key ref lo tx tx1 localID v hmap
    (fun _ _ _ r _ => by rw [hrows]) h

/-- The rows created by a transaction, before its deletion items are applied: every new
folder, snippet and snippet content item has its mapping and its row, and the row holds
the reference found in the data of the item. -/
theorem pushItems_created (env : Env) (req : PushRequest) (tx tx' : Tx)
    (hdel : req.Deletions = []) (h : pushItems env req tx = Except.ok tx')
    (hF : ∀ u ∈ req.Changes.Folders, u.IsNew = false → ∀ k, tx.uuids ≤ k →
      u.ServerID ≠ some (env.uuid k))
    (hS : ∀ u ∈ req.Changes.Snippets, u.IsNew = false → ∀ k, tx.uuids ≤ k →
      u.ServerID ≠ some (env.uuid k))
    (hC : ∀ u ∈ req.Changes.SnippetContents, u.IsNew = false → ∀ k, tx.uuids ≤ k →
      u.ServerID ≠ some (env.uuid k)) :
    (∀ i ∈ req.Changes.Folders, i.IsNew = true →
      Created env "folders" (fun db => db.folders) Folder.ID Folder.ParentID tx.uuids tx'
        i.LocalID (getStringPtr i.Data "parentId"))
    ∧ (∀ i ∈ req.Changes.Snippets, i.IsNew = true →
      Created env "snippets" (fun db => db.snippets) Snippet.ID Snippet.FolderID tx.uuids tx'
        i.LocalID (getStringPtr i.Data "folderId"))
    ∧ (∀ i ∈ req.Changes.SnippetContents, i.IsNew = true →
      Created env "snippet_contents" (fun db => db.snippet_contents) SnippetContent.ID
        SnippetContent.SnippetID tx.uuids tx' i.LocalID (getString i.Data "snippetId")) := by
  unfold pushItems at h
  cases h1 : req.Changes.Folders.foldlM (pushFolder env) tx with
  | error e => rw [h1] at h; cases h
  | ok tx1 =>
  rw [h1] at h
  cases h2 : req.Changes.Tags.foldlM (pushTag env) tx1 with
  | error e => simp only [bind, Except.bind, h2] at h; cases h
  | ok tx2 =>
  simp only [bind, Except.bind, h2] at h
  cases h3 : req.Changes.Snippets.foldlM (pushSnippet env) tx2 with
  | error e => simp only [h3] at h; cases h
  | ok tx3 =>
  simp only [h3] at h
  cases h4 : req.Changes.SnippetContents.foldlM (pushSnippetContent env) tx3 with
  | error e => simp only [h4] at h; cases h
  | ok tx4 =>
  simp only [h4, hdel, List.foldl_nil] at h
  have h5 : tx' = List.foldl pushSnippetTag tx4 req.Changes.SnippetTags :=
    (Except.ok.inj h).symm
  have f1 := foldlM_pushFolder_frame env _ tx tx1 h1
  have f2 := foldlM_pushTag_frame env _ tx1 tx2 h2
  have f3 := foldlM_pushSnippet_frame env _ tx2 tx3 h3
  have f4 := foldlM_pushSnippetContent_frame env _ tx3 tx4 h4
  have f5 := foldl_pushSnippetTag_frame req.Changes.SnippetTags tx4
  have m5 : ∀ m ∈ tx4.idMappings, m ∈ tx'.idMappings := by
    intro m hm
    rw [h5, (foldl_pushSnippetTag req.Changes.SnippetTags tx4).1]
    exact hm
  rw [← h5] at f5
  refine ⟨?_, ?_, ?_⟩
  · intro i hi hn
    have c1 := foldlM_pushFolder_created env tx.uuids _ tx tx1 h1 (Nat.le_refl _) hF i hi hn
    have c2 := Created_frame env "folders" (fun db => db.folders) Folder.ID Folder.ParentID
      tx.uuids tx1 tx2 _ _ f2.1 f2.2.2.1 c1
    have c3 := Created_frame env "folders" (fun db => db.folders) Folder.ID Folder.ParentID
      tx.uuids tx2 tx3 _ _ f3.1 f3.2.2.1 c2
    have c4 := Created_frame env "folders" (fun db => db.folders) Folder.ID Folder.ParentID
      tx.uuids tx3 tx4 _ _ f4.1 f4.2.2.1 c3
    exact Created_frame env "folders" (fun db => db.folders) Folder.ID Folder.ParentID
      tx.uuids tx4 tx' _ _ m5 f5.1 c4
  · intro i hi hn
    have c3 := foldlM_pushSnippet_created env tx.uuids _ tx2 tx3 h3
      (Nat.le_trans f1.2.1 f2.2.1) hS i hi hn
    have c4 := Created_frame env "snippets" (fun db => db.snippets) Snippet.ID
      Snippet.FolderID tx.uuids tx3 tx4 _ _ f4.1 f4.2.2.2.2 c3
    exact Created_frame env "snippets" (fun db => db.snippets) Snippet.ID
      Snippet.FolderID tx.uuids tx4 tx' _ _ m5 f5.2.2.1 c4
  · intro i hi hn
    have c4 := foldlM_pushSnippetContent_created env tx.uuids _ tx3 tx4 h4
      (Nat.le_trans f1.2.1 (Nat.le_trans f2.2.1 f3.2.1)) hC i hi hn
    exact Created_frame env "snippet_contents" (fun db => db.snippet_contents)
      SnippetContent.ID SnippetContent.SnippetID tx.uuids tx4 tx' _ _ m5 f5.2.2.2 c4

/-! ## C22: foreign references are stored as they are found -/

/-- The round of a deletion item keeps the folders and snippets it does not name, and
the snippet contents whose identity and whose snippet it does not name. -/
theorem pushDeletion_keeps (env : Env) (tx : Tx) (del : SyncDeletionData) :
    (∀ x ∈ tx.db.folders, del.RecordID ≠ x.ID → x ∈ (pushDeletion env tx del).db.folders)
    ∧ (∀ x ∈ tx.db.snippets, del.RecordID ≠ x.ID →
        x ∈ (pushDeletion env tx del).db.snippets)
    ∧ (∀ x ∈ tx.db.snippet_contents, del.RecordID ≠ x.ID → del.RecordID ≠ x.SnippetID →
        x ∈ (pushDeletion env tx del).db.snippet_contents) := by
  unfold pushDeletion
  simp only [insertIgnoreSyncDeletion_folders, insertIgnoreSyncDeletion_snippets,
    insertIgnoreSyncDeletion_snippet_contents]
  unfold deleteRecord
  split_ifs <;>
    exact ⟨fun x hx hne => by
        first
          | exact hx
          | exact List.mem_filter.mpr ⟨hx, by simpa using Ne.symm hne⟩,
      fun x hx hne => by
        first
          | exact hx
          | exact List.mem_filter.mpr ⟨hx, by simpa using Ne.symm hne⟩,
      fun x hx hne hne2 => by
        first
          | exact hx
          | exact List.mem_filter.mpr ⟨hx, by simpa using Ne.symm hne⟩
          | exact List.mem_filter.mpr ⟨hx, by simpa using Ne.symm hne2⟩⟩

theorem foldl_pushDeletion_keeps (env : Env) (dels : List SyncDeletionData) (tx : Tx) :
    (∀ x ∈ tx.db.folders, (∀ del ∈ dels, del.RecordID ≠ x.ID) →
        x ∈ (dels.foldl (pushDeletion env) tx).db.folders)
    ∧ (∀ x ∈ tx.db.snippets, (∀ del ∈ dels, del.RecordID ≠ x.ID) →
        x ∈ (dels.foldl (pushDeletion env) tx).db.snippets)
    ∧ (∀ x ∈ tx.db.snippet_contents,
        (∀ del ∈ dels, del.RecordID ≠ x.ID ∧ del.RecordID ≠ x.SnippetID) →
        x ∈ (dels.foldl (pushDeletion env) tx).db.snippet_contents) := by
  induction dels generalizing tx with
  | nil => exact ⟨fun x hx _ => hx, fun x hx _ => hx, fun x hx _ => hx⟩
  | cons a rest ih =>
    rw [List.foldl_cons]
    have h0 := pushDeletion_keeps env tx a
    have h1 := ih (pushDeletion env tx a)
    refine ⟨?_, ?_, ?_⟩
    · intro x hx hne
      exact h1.1 x (h0.1 x hx (hne a (List.mem_cons_self a rest)))
        (fun del hd => hne del (List.mem_cons_of_mem a hd))
    · intro x hx hne
      exact h1.2.1 x (h0.2.1 x hx (hne a (List.mem_cons_self a rest)))
        (fun del hd => hne del (List.mem_cons_of_mem a hd))
    · intro x hx hne
      exact h1.2.2 x (h0.2.2 x hx (hne a (List.mem_cons_self a rest)).1
          (hne a (List.mem_cons_self a rest)).2)
        (fun del hd => hne del (List.mem_cons_of_mem a hd))

/-- A committed push, seen as the loops before the deletion loop followed by the
deletion loop, with the mappings it answers. -/
theorem Push_ok_phases_mappings (env : Env) (s s' : Server) (req : PushRequest)
    (resp : PushResponse) (h : Push env s req = (s', PushReply.OK resp)) :
    ∃ tx4, pushItems env { Changes := req.Changes, Deletions := [] }
        { db := s.db, uuids := s.uuids, ticks := s.ticks, idMappings := [] } = Except.ok tx4
      ∧ s'.db = (req.Deletions.foldl (pushDeletion env) tx4).db
      ∧ resp.IDMappings = tx4.idMappings := by
  obtain ⟨tx, htx, hmap, hdb⟩ := Push_ok_inv env s s' req resp h
  rw [pushItems_split] at htx
  split at htx
  · rename_i tx4 h4
    refine ⟨tx4, h4, by rw [hdb, ← Except.ok.inj htx], ?_⟩
    rw [hmap, ← Except.ok.inj htx, foldl_pushDeletion]
  · cases htx

/-- The references of the rows a committed push created, with their mappings. -/
theorem Push_created_references (env : Env) (s s' : Server) (req : PushRequest)
    (resp : PushResponse) (h : Push env s req = (s', PushReply.OK resp))
    (hF : ∀ u ∈ req.Changes.Folders, u.IsNew = false → ∀ k, s.uuids ≤ k →
      u.ServerID ≠ some (env.uuid k))
    (hS : ∀ u ∈ req.Changes.Snippets, u.IsNew = false → ∀ k, s.uuids ≤ k →
      u.ServerID ≠ some (env.uuid k))
    (hC : ∀ u ∈ req.Changes.SnippetContents, u.IsNew = false → ∀ k, s.uuids ≤ k →
      u.ServerID ≠ some (env.uuid k)) :
    (∀ i ∈ req.Changes.Folders, i.IsNew = true →
      ∃ m ∈ resp.IDMappings, m.TableName = "folders" ∧ m.LocalID = i.LocalID
        ∧ (∀ r ∈ s'.db.folders, r.ID = m.ServerID →
            r.ParentID = getStringPtr i.Data "parentId")
        ∧ ((∀ del ∈ req.Deletions, del.RecordID ≠ m.ServerID) →
            ∃ r ∈ s'.db.folders, r.ID = m.ServerID))
    ∧ (∀ i ∈ req.Changes.Snippets, i.IsNew = true →
      ∃ m ∈ resp.IDMappings, m.TableName = "snippets" ∧ m.LocalID = i.LocalID
        ∧ (∀ r ∈ s'.db.snippets, r.ID = m.ServerID →
            r.FolderID = getStringPtr i.Data "folderId")
        ∧ ((∀ del ∈ req.Deletions, del.RecordID ≠ m.ServerID) →
            ∃ r ∈ s'.db.snippets, r.ID = m.ServerID))
    ∧ (∀ i ∈ req.Changes.SnippetContents, i.IsNew = true →
      ∃ m ∈ resp.IDMappings, m.TableName = "snippet_contents" ∧ m.LocalID = i.LocalID
        ∧ (∀ r ∈ s'.db.snippet_contents, r.ID = m.ServerID →
            r.SnippetID = getString i.Data "snippetId")
        ∧ ((∀ del ∈ req.Deletions, del.RecordID ≠ m.ServerID
              ∧ del.RecordID ≠ getString i.Data "snippetId") →
            ∃ r ∈ s'.db.snippet_contents, r.ID = m.ServerID)) := by
  obtain ⟨tx4, h4, hdb, hmap⟩ := Push_ok_phases_mappings env s s' req resp h
  have hc := pushItems_created env _ _ tx4 rfl h4 hF hS hC
  have hshrink := foldl_pushDeletion_shrinks env req.Deletions tx4
  have hkeep := foldl_pushDeletion_keeps env req.Deletions tx4
  rw [hdb, hmap]
  refine ⟨?_, ?_, ?_⟩
  · intro i hi hn
    obtain ⟨m, hm, ht, hl, _, ⟨r0, hr0, hr0k⟩, hall⟩ := hc.1 i hi hn
    refine ⟨m, hm, ht, hl, fun r hr hrk => hall r (hshrink.1 r hr) hrk, ?_⟩
    intro hdel
    exact ⟨r0, hkeep.1 r0 hr0 (fun del hd => by rw [hr0k]; exact hdel del hd), hr0k⟩
  · intro i hi hn
    obtain ⟨m, hm, ht, hl, _, ⟨r0, hr0, hr0k⟩, hall⟩ := hc.2.1 i hi hn
    refine ⟨m, hm, ht, hl, fun r hr hrk => hall r (hshrink.2.2.1 r hr) hrk, ?_⟩
    intro hdel
    exact ⟨r0, hkeep.2.1 r0 hr0 (fun del hd => by rw [hr0k]; exact hdel del hd), hr0k⟩
  · intro i hi hn
    obtain ⟨m, hm, ht, hl, _, ⟨r0, hr0, hr0k⟩, hall⟩ := hc.2.2 i hi hn
    refine ⟨m, hm, ht, hl, fun r hr hrk => hall r (hshrink.2.2.2.1 r hr) hrk, ?_⟩
    intro hdel
    refine ⟨r0, hkeep.2.2 r0 hr0 (fun del hd => ?_), hr0k⟩
    rw [hr0k, hall r0 hr0 hr0k]
    exact hdel del hd

/-- C22: foreign references are stored as found in the data of the item.  In any
transaction, whatever mappings it already holds, the round of a new folder item appends
one folder whose `ParentID` is what `getStringPtr` finds under `parentId`; likewise a new
snippet with `FolderID` and `folderId`, and a new snippet content with `SnippetID` and
what `getString` finds under `snippetId`.  After a push answered 200 in which no update
item of these kinds names an identity the source had yet to give, every new item has its
mapping, every row stored under the mapped identity has that reference, and such a row is
stored when no deletion item of the push names it (or, for a content, its snippet).  What
is found is the string of the data, and null or the empty string when the entry is absent
or is not a string. -/
theorem foreign_references_verbatim (env : Env) (s : Server) (req : PushRequest) :
    (∀ (tx tx' : Tx) (i : PushFolderChangeItem), i.IsNew = true →
      pushFolder env tx i = Except.ok tx' →
      ∃ r, tx'.db.folders = tx.db.folders ++ [r] ∧ r.ID = env.uuid tx.uuids
        ∧ r.ParentID = getStringPtr i.Data "parentId")
    ∧ (∀ (tx tx' : Tx) (i : PushSnippetChangeItem), i.IsNew = true →
      pushSnippet env tx i = Except.ok tx' →
      ∃ r, tx'.db.snippets = tx.db.snippets ++ [r] ∧ r.ID = env.uuid tx.uuids
        ∧ r.FolderID = getStringPtr i.Data "folderId")
    ∧ (∀ (tx tx' : Tx) (i : PushSnippetContentChangeItem), i.IsNew = true →
      pushSnippetContent env tx i = Except.ok tx' →
      ∃ r, tx'.db.snippet_contents = tx.db.snippet_contents ++ [r]
        ∧ r.ID = env.uuid tx.uuids ∧ r.SnippetID = getString i.Data "snippetId")
    ∧ (∀ (s' : Server) (resp : PushResponse), Push env s req = (s', PushReply.OK resp) →
      (∀ u ∈ req.Changes.Folders, u.IsNew = false → ∀ k, s.uuids ≤ k →
        u.ServerID ≠ some (env.uuid k)) →
      (∀ u ∈ req.Changes.Snippets, u.IsNew = false → ∀ k, s.uuids ≤ k →
        u.ServerID ≠ some (env.uuid k)) →
      (∀ u ∈ req.Changes.SnippetContents, u.IsNew = false → ∀ k, s.uuids ≤ k →
        u.ServerID ≠ some (env.uuid k)) →
      (∀ i ∈ req.Changes.Folders, i.IsNew = true →
        ∃ m ∈ resp.IDMappings, m.TableName = "folders" ∧ m.LocalID = i.LocalID
          ∧ (∀ r ∈ s'.db.folders, r.ID = m.ServerID →
              r.ParentID = getStringPtr i.Data "parentId")
          ∧ ((∀ del ∈ req.Deletions, del.RecordID ≠ m.ServerID) →
              ∃ r ∈ s'.db.folders, r.ID = m.ServerID))
      ∧ (∀ i ∈ req.Changes.Snippets, i.IsNew = true →
        ∃ m ∈ resp.IDMappings, m.TableName = "snippets" ∧ m.LocalID = i.LocalID
          ∧ (∀ r ∈ s'.db.snippets, r.ID = m.ServerID →
              r.FolderID = getStringPtr i.Data "folderId")
          ∧ ((∀ del ∈ req.Deletions, del.RecordID ≠ m.ServerID) →
              ∃ r ∈ s'.db.snippets, r.ID = m.ServerID))
      ∧ (∀ i ∈ req.Changes.SnippetContents, i.IsNew = true →
        ∃ m ∈ resp.IDMappings, m.TableName = "snippet_contents" ∧ m.LocalID = i.LocalID
          ∧ (∀ r ∈ s'.db.snippet_contents, r.ID = m.ServerID →
              r.SnippetID = getString i.Data "snippetId")
          ∧ ((∀ del ∈ req.Deletions, del.RecordID ≠ m.ServerID
                ∧ del.RecordID ≠ getString i.Data "snippetId") →
              ∃ r ∈ s'.db.snippet_contents, r.ID = m.ServerID)))
    ∧ (∀ (data : Data) (key str : String), data key = some (Value.string str) →
        getStringPtr data key = some str ∧ getString data key = str)
    ∧ (∀ (data : Data) (key : String), isString data key = false →
        getStringPtr data key = none ∧ getString data key = "") := by
  refine ⟨?_, ?_, ?_, ?_, ?_, ?_⟩
  · intro tx tx' i hn hf
    exact ⟨_, by rw [(pushFolder_new env tx tx' i hn hf).1], rfl, rfl⟩
  · intro tx tx' i hn hf
    exact ⟨_, by rw [(pushSnippet_new env tx tx' i hn hf).1], rfl, rfl⟩
  · intro tx tx' i hn hf
    exact ⟨_, by rw [(pushSnippetContent_new env tx tx' i hn hf).1], rfl, rfl⟩
  · intro s' resp h hF hS hC
    exact Push_created_references env s s' req resp h hF hS hC
  · intro data key str hs
    simp [getStringPtr, getString, hs]
  · intro data key hs
    exact ⟨(getString_of_not_isString data key hs).2,
      (getString_of_not_isString data key hs).1⟩

/-- Witness of C22: the new snippet of the sample push names its folder by the client's
reference `local-1` and the new content names its snippet by `local-2`; the folder gets
the identity `u` and the snippet `uu`, and the stored references are `local-1` and
`local-2`. -/
theorem foreign_references_verbatim_witness :
    (∃ m ∈ ([⟨"folders", 1, "u"⟩, ⟨"snippets", 2, "uu"⟩, ⟨"snippet_contents", 3, "uuu"⟩] :
          List IDMapping),
      m.TableName = "snippets" ∧ m.LocalID = localSnippetItem.LocalID
        ∧ (∀ r ∈ (Push sampleEnv sampleServer localReferencesRequest).1.db.snippets,
            r.ID = m.ServerID → r.FolderID = getStringPtr localSnippetItem.Data "folderId")
        ∧ ((∀ del ∈ localReferencesRequest.Deletions, del.RecordID ≠ m.ServerID) →
            ∃ r ∈ (Push sampleEnv sampleServer localReferencesRequest).1.db.snippets,
              r.ID = m.ServerID))
    ∧ (∃ m ∈ ([⟨"folders", 1, "u"⟩, ⟨"snippets", 2, "uu"⟩, ⟨"snippet_contents", 3, "uuu"⟩] :
          List IDMapping),
      m.TableName = "snippet_contents" ∧ m.LocalID = localContentItem.LocalID
        ∧ (∀ r ∈ (Push sampleEnv sampleServer localReferencesRequest).1.db.snippet_contents,
            r.ID = m.ServerID → r.SnippetID = getString localContentItem.Data "snippetId")
        ∧ ((∀ del ∈ localReferencesRequest.Deletions, del.RecordID ≠ m.ServerID
              ∧ del.RecordID ≠ getString localContentItem.Data "snippetId") →
            ∃ r ∈ (Push sampleEnv sampleServer localReferencesRequest).1.db.snippet_contents,
              r.ID = m.ServerID))
    ∧ getStringPtr localSnippetItem.Data "folderId" = some "local-1"
    ∧ getString localContentItem.Data "snippetId" = "local-2" :=
  ⟨((foreign_references_verbatim sampleEnv sampleServer localReferencesRequest).2.2.2.1
      (Push sampleEnv sampleServer localReferencesRequest).1
      { ServerTime := 1700000000003
        IDMappings := [⟨"folders", 1, "u"⟩, ⟨"snippets", 2, "uu"⟩,
          ⟨"snippet_contents", 3, "uuu"⟩] }
      (Prod.ext rfl (by decide))
      (fun u hu hn => absurd hn (by rw [List.mem_singleton.mp hu]; decide))
      (fun u hu hn => absurd hn (by rw [List.mem_singleton.mp hu]; decide))
      (fun u hu hn => absurd hn (by rw [List.mem_singleton.mp hu]; decide))).2.1
      localSnippetItem (List.mem_singleton_self _) rfl,
   ((foreign_references_verbatim sampleEnv sampleServer localReferencesRequest).2.2.2.1
      (Push sampleEnv sampleServer localReferencesRequest).1
      { ServerTime := 1700000000003
        IDMappings := [⟨"folders", 1, "u"⟩, ⟨"snippets", 2, "uu"⟩,
          ⟨"snippet_contents", 3, "uuu"⟩] }
      (Prod.ext rfl (by decide))
      (fun u hu hn => absurd hn (by rw [List.mem_singleton.mp hu]; decide))
      (fun u hu hn => absurd hn (by rw [List.mem_singleton.mp hu]; decide))
      (fun u hu hn => absurd hn (by rw [List.mem_singleton.mp hu]; decide))).2.2
      localContentItem (List.mem_singleton_self _) rfl,
   by decide, by decide⟩

end MassCode
